import Mathlib

/-! # Subtitle track management of mpv (`player/sub.c`)

A shallow embedding of `src/player/sub.c` and the properties of its functions.

Conventions of the embedding.

* A C pointer to a `struct track`, a `struct demuxer`, a `struct sh_stream` or a
  `struct dec_sub` is an `Option Nat`: `none` is `NULL`, `some a` is the address `a`.
  The pointed-to structures live in the heaps `trk`, `dmx`, `shs` and `decs` of the context.
* Timestamps (`double` in C) are values of the type `double` below: an exact integer or
  NaN. The only operations of the source on them are comparisons and copies; the comparisons
  `==` and `!=` are the ones of C, for which NaN differs from every value and from itself.
  Frame rates are exact rationals and are only passed on.
* The functions of the other mpv modules (`sub_create`, `osd_set_sub`, ...) are not part of
  `sub.c`. Each call of one of them appends an `Event` to `MPContext.log`; what they return
  is decided by the `Oracle` of the context, a function of the call history.
* `talloc` memory management is not modelled. The `MP_VERBOSE` diagnostic that ends
  `reinit_sub` is modelled by its read of `track->demuxer->log`; the message is not part of
  the call history.
-/

namespace MpvSub

/-! ## Data model -/

/-- The `enum stream_type` of `demux/stheader.h` (not among the sources at hand). -/
inductive stream_type where
  | STREAM_VIDEO
  | STREAM_AUDIO
  | STREAM_SUB
  deriving DecidableEq, Repr

open stream_type

/-- The `enum playback_status` of `player/core.h` (not among the sources at hand). -/
inductive playback_status where
  | STATUS_SYNCING
  | STATUS_READY
  | STATUS_PLAYING
  | STATUS_DRAINING
  | STATUS_EOF
  deriving DecidableEq, Repr

/-- The fields of `struct demux_attachment` that `get_all_attachments` copies. `data` is the
buffer the C field points to, a list of bytes. -/
structure demux_attachment where
  name : String
  type : String
  data : List Nat
  data_size : Nat
  deriving DecidableEq, Repr

/-- The fields of `struct demuxer` read by `sub.c`; `num_attachments` is the length of
`attachments`. -/
structure demuxer where
  fully_read : Bool
  attachments : List demux_attachment
  deriving DecidableEq, Repr

/-- The field of `struct mp_codec_params` read by `init_subdec`. -/
structure mp_codec_params where
  fps : ℚ
  deriving DecidableEq

/-- The fields of `struct sh_stream` read by `sub.c`. -/
structure sh_stream where
  type : stream_type
  codec : Option mp_codec_params
  deriving DecidableEq

/-- The fields of `struct track` used by `sub.c`. -/
structure track where
  type : stream_type
  selected : Bool
  attached_picture : Bool
  demuxer : Option Nat
  stream : Option Nat
  d_sub : Option Nat
  deriving DecidableEq, Repr

/-- The field of `struct mp_image_params` read by `update_subtitle`. -/
structure mp_image_params where
  imgfmt : Nat
  deriving DecidableEq, Repr

/-- Modelled from the spec: the decoder instance (`struct dec_sub` of `sub/dec_sub.c`, not among
the sources at hand). It is bound to a display order when it is created and keeps it for its
lifetime; `selected` is what `sub_select` sets. -/
structure dec_sub where
  order : Int
  selected : Bool
  deriving DecidableEq, Repr

/-- A C `double` as far as `sub.c` uses it: a number or NaN. `sub.c` only copies timestamps
and compares them with `==` and `!=`, and under these every value other than NaN behaves as
a number does; the numbers are represented by integers. -/
inductive double where
  | num (x : Int)
  | nan
  deriving DecidableEq, Repr

instance (n : Nat) : OfNat double n := ⟨double.num (Int.ofNat n)⟩

/-- The C comparison `a == b` of two doubles: NaN is equal to nothing, not to itself
either. The C comparison `a != b` is its negation. -/
def double.c_eq (a b : double) : Prop := a ≠ double.nan ∧ a = b

instance (a b : double) : Decidable (double.c_eq a b) :=
  inferInstanceAs (Decidable (a ≠ double.nan ∧ a = b))

/-- One call of a function of another mpv module, with its arguments. -/
inductive Event where
  | sub_reset (dec : Nat)
  | sub_set_play_dir (dec : Nat) (dir : Int)
  | term_osd_set_subs (text : Option String)
  | sub_select (dec : Nat) (selected : Bool)
  | sub_destroy (dec : Nat)
  | osd_set_sub (order : Int) (dec : Option Nat)
  | sub_control_set_video_params (dec : Nat) (params : mp_image_params)
  | sub_control_set_video_def_fps (dec : Nat) (fps : ℚ)
  | sub_can_preload (dec : Nat)
  | demux_seek (demuxer : Nat) (pos : double) (flags : Nat)
  | sub_preload (dec : Nat)
  | sub_read_packets (dec : Nat) (video_pts : double) (force : Bool)
  | sub_get_text (dec : Nat) (video_pts : double)
  | osd_get_force_video_pts
  | osd_set_force_video_pts (video_pts : double)
  | osd_query_and_reset_want_redraw
  | vo_redraw
  | mp_set_timeout (seconds : ℚ)
  | sub_create (stream : Nat) (attachments : List demux_attachment) (order : Int)
  | sub_get_order (dec : Nat)
  | error_on_track (track : Nat)
  | demux_set_stream_wakeup_cb (stream : Nat) (set : Bool)
  | mp_dispatch_queue_process
  deriving DecidableEq

/-- What the other modules answer. Every answer may depend on the whole history of calls made
so far, so an answer can change from one call to the next. -/
structure Oracle where
  /-- Whether `sub_create` returns a decoder (and not `NULL`). -/
  sub_create_ok : List Event → Nat → Bool
  /-- The result of `sub_can_preload`. -/
  sub_can_preload : List Event → Nat → Bool
  /-- The result of `sub_read_packets`; `false` is "needs more input". -/
  sub_read_packets : List Event → Nat → double → Bool → Bool
  /-- The result of `sub_get_text` with `SD_TEXT_TYPE_PLAIN`. -/
  sub_get_text : List Event → Nat → double → Option String

/-- The fields of `struct MPContext` used by `sub.c`, the heaps of the structures it points
to, and the state of the other modules as far as `sub.c` can observe it. -/
structure MPContext where
  /-- `mpctx->tracks`, `num_tracks` entries, none of them `NULL`. -/
  tracks : List Nat
  /-- `mpctx->current_track[n][type]`. -/
  current_track : Nat → stream_type → Option Nat
  play_dir : Int
  /-- `mpctx->vo_chain`, and behind it `vo_chain->filter->input_params`. -/
  vo_chain : Option mp_image_params
  /-- Whether `mpctx->video_out` is not `NULL`. -/
  video_out : Bool
  video_status : playback_status
  /-- `mpctx->opts->subs_rend->sub_past_video_end`. -/
  sub_past_video_end : Bool
  playback_initialized : Bool
  paused : Bool
  playback_pts : double
  /-- The text last given to `term_osd_set_subs`. -/
  term_osd_subs : Option String
  trk : Nat → track
  dmx : Nat → demuxer
  shs : Nat → sh_stream
  /-- The decoders, by address. -/
  decs : Nat → dec_sub
  /-- The address `sub_create` gives to the next decoder. -/
  next_dec : Nat
  /-- What `osd_set_sub` last stored for each order. -/
  osd_sub : Int → Option Nat
  /-- What `osd_set_force_video_pts` last stored. -/
  force_video_pts : double
  oracle : Oracle
  log : List Event

/-- `MP_NOPTS_VALUE`, `(-0x1p+63)` in `common/common.h`. -/
def MP_NOPTS_VALUE : double := double.num (-(2 ^ 63))

/-- Modelled from the spec: `num_ptracks` of `player/core.h` (not among the sources at hand):
two display slots for subtitles, one primary track for each other stream type. -/
def num_ptracks : stream_type → Nat
  | STREAM_SUB => 2
  | _ => 1

/-! ## Track Order Resolver -/

/-- `get_order` (sub.c:40): 0: primary sub, 1: secondary sub, -1: not selected. -/
def get_order (mpctx : MPContext) (track : Option Nat) : Int :=
  match (List.range (num_ptracks STREAM_SUB)).find?
      (fun n => mpctx.current_track n STREAM_SUB == track) with
  | some n => (n : Int)
  | none => -1

/-! ## Attachment Aggregator -/

/-- `talloc_strdup`: a copy of the string. -/
def talloc_strdup (s : String) : String := s

/-- `talloc_memdup`: a copy of the first `size` bytes of the buffer. -/
def talloc_memdup (data : List Nat) (size : Nat) : List Nat := data.take size

/-- The `copy` of one attachment built in the inner loop of `get_all_attachments`
(sub.c:161). -/
def copy_attachment (att : demux_attachment) : demux_attachment :=
  { name := talloc_strdup att.name
    type := talloc_strdup att.type
    data := talloc_memdup att.data att.data_size
    data_size := att.data_size }

/-- The outer loop of `get_all_attachments` (sub.c:154) from track index `n` on: `list` is
`list->entries` so far, `prev_demuxer` the local variable of that name. -/
def get_all_attachments_loop (mpctx : MPContext) :
    List Nat → Option Nat → List demux_attachment → List demux_attachment
  | [], _, list => list
  | t :: rest, prev_demuxer, list =>
    match (mpctx.trk t).demuxer with
    | none => get_all_attachments_loop mpctx rest prev_demuxer list
    | some d =>
      if prev_demuxer = some d then
        get_all_attachments_loop mpctx rest prev_demuxer list
      else
        get_all_attachments_loop mpctx rest (some d)
          (list ++ (mpctx.dmx d).attachments.map copy_attachment)

/-- `get_all_attachments` (sub.c:150). -/
def get_all_attachments (mpctx : MPContext) : List demux_attachment :=
  get_all_attachments_loop mpctx mpctx.tracks none []

/-! ## The other modules

Modelled from the spec (section 6, "consumed from external collaborators"): none of these
functions is part of `sub.c`. Each one records its call; the ones with an effect that `sub.c`
can observe later (the order a decoder is bound to, the selected flag of a decoder, the
contents of the OSD slots, the terminal text, the forced timestamp) store it. -/

/-- Record one call. -/
def emit (w : MPContext) (e : Event) : MPContext :=
  { w with log := w.log ++ [e] }

/-- Modelled from the spec: `resetState(handle)`. -/
def sub_reset (w : MPContext) (dec : Nat) : MPContext :=
  emit w (.sub_reset dec)

/-- Modelled from the spec: `setPlaybackDirection(handle, dir)`. -/
def sub_set_play_dir (w : MPContext) (dec : Nat) (dir : Int) : MPContext :=
  emit w (.sub_set_play_dir dec dir)

/-- Modelled from the spec: text-fallback `publish(text|null)`. -/
def term_osd_set_subs (w : MPContext) (text : Option String) : MPContext :=
  { emit w (.term_osd_set_subs text) with term_osd_subs := text }

/-- Modelled from the spec: `select(handle, bool)`. -/
def sub_select (w : MPContext) (dec : Nat) (selected : Bool) : MPContext :=
  { emit w (.sub_select dec selected) with
    decs := Function.update w.decs dec { w.decs dec with selected := selected } }

/-- Modelled from the spec: `destroy(handle)`. -/
def sub_destroy (w : MPContext) (dec : Nat) : MPContext :=
  emit w (.sub_destroy dec)

/-- Modelled from the spec: display layer `publish(slot, handle|null)`. -/
def osd_set_sub (w : MPContext) (order : Int) (dec : Option Nat) : MPContext :=
  { emit w (.osd_set_sub order dec) with osd_sub := Function.update w.osd_sub order dec }

/-- Modelled from the spec: `setVideoParams(handle, params)`, that is `sub_control` with
`SD_CTRL_SET_VIDEO_PARAMS`. -/
def sub_control_set_video_params (w : MPContext) (dec : Nat) (params : mp_image_params) :
    MPContext :=
  emit w (.sub_control_set_video_params dec params)

/-- Modelled from the spec: `setDefaultFrameRate(handle, fps)`, that is `sub_control` with
`SD_CTRL_SET_VIDEO_DEF_FPS`. -/
def sub_control_set_video_def_fps (w : MPContext) (dec : Nat) (fps : ℚ) : MPContext :=
  emit w (.sub_control_set_video_def_fps dec fps)

/-- Modelled from the spec: `canPreload(handle) -> bool`. -/
def sub_can_preload (w : MPContext) (dec : Nat) : Bool × MPContext :=
  (w.oracle.sub_can_preload w.log dec, emit w (.sub_can_preload dec))

/-- Modelled from the spec: demuxer `seek(pos)`. -/
def demux_seek (w : MPContext) (demuxer : Nat) (pos : double) (flags : Nat) : MPContext :=
  emit w (.demux_seek demuxer pos flags)

/-- Modelled from the spec: `preload(handle)`. -/
def sub_preload (w : MPContext) (dec : Nat) : MPContext :=
  emit w (.sub_preload dec)

/-- Modelled from the spec: `readAhead(handle, timestamp, mustProgress) -> bool`. -/
def sub_read_packets (w : MPContext) (dec : Nat) (video_pts : double) (force : Bool) :
    Bool × MPContext :=
  (w.oracle.sub_read_packets w.log dec video_pts force,
    emit w (.sub_read_packets dec video_pts force))

/-- Modelled from the spec: `extractPlainText(handle, timestamp) -> text`. -/
def sub_get_text (w : MPContext) (dec : Nat) (video_pts : double) : Option String × MPContext :=
  (w.oracle.sub_get_text w.log dec video_pts, emit w (.sub_get_text dec video_pts))

/-- Modelled from the spec: the forced display timestamp of the display layer, as last set. -/
def osd_get_force_video_pts (w : MPContext) : double × MPContext :=
  (w.force_video_pts, emit w .osd_get_force_video_pts)

/-- Modelled from the spec: `setForcedTimestamp(ts)`. -/
def osd_set_force_video_pts (w : MPContext) (video_pts : double) : MPContext :=
  { emit w (.osd_set_force_video_pts video_pts) with force_video_pts := video_pts }

/-- Modelled from the spec: `queryAndClearRedrawWanted() -> bool`; `sub.c` drops the result. -/
def osd_query_and_reset_want_redraw (w : MPContext) : MPContext :=
  emit w .osd_query_and_reset_want_redraw

/-- Modelled from the spec: `requestRedraw()`. -/
def vo_redraw (w : MPContext) : MPContext :=
  emit w .vo_redraw

/-- Modelled from the spec: `requestMinimumRefreshInterval(seconds)`. -/
def mp_set_timeout (w : MPContext) (seconds : ℚ) : MPContext :=
  emit w (.mp_set_timeout seconds)

/-- Modelled from the spec: `create(sourceStream, attachmentSnapshot, orderIndex) ->
handle|failure`. A created decoder gets a new address, is bound to `order` and is not
selected. -/
def sub_create (w : MPContext) (stream : Nat) (attachments : List demux_attachment)
    (order : Int) : Option Nat × MPContext :=
  let w1 := emit w (.sub_create stream attachments order)
  if w.oracle.sub_create_ok w.log stream then
    (some w.next_dec,
      { w1 with
        decs := Function.update w.decs w.next_dec { order := order, selected := false }
        next_dec := w.next_dec + 1 })
  else
    (none, w1)

/-- Modelled from the spec: `currentBoundOrder(handle) -> int`. -/
def sub_get_order (w : MPContext) (dec : Nat) : Int × MPContext :=
  ((w.decs dec).order, emit w (.sub_get_order dec))

/-- Modelled from the spec: `reportTrackError(track)`. -/
def error_on_track (w : MPContext) (track : Nat) : MPContext :=
  emit w (.error_on_track track)

/-- Modelled from the spec: `registerWakeup(callback)` (`set = true`) and `unregisterWakeup()`
(`set = false`) on a source stream. -/
def demux_set_stream_wakeup_cb (w : MPContext) (stream : Nat) (set : Bool) : MPContext :=
  emit w (.demux_set_stream_wakeup_cb stream set)

/-- Modelled from the spec: the suspension of the caller until the wakeup notification. -/
def mp_dispatch_queue_process (w : MPContext) : MPContext :=
  emit w .mp_dispatch_queue_process

/-- The assignment `track->d_sub = d`. -/
def set_d_sub (w : MPContext) (t : Nat) (d : Option Nat) : MPContext :=
  { w with trk := Function.update w.trk t { w.trk t with d_sub := d } }

/-! ## Decoder Lifecycle Manager: teardown -/

/-- `reset_subtitles` (sub.c:49). -/
def reset_subtitles (mpctx : MPContext) (track : Nat) : MPContext :=
  let m1 :=
    match (mpctx.trk track).d_sub with
    | some d => sub_set_play_dir (sub_reset mpctx d) d mpctx.play_dir
    | none => mpctx
  term_osd_set_subs m1 none

/-- `uninit_sub` (sub.c:65). -/
def uninit_sub (mpctx : MPContext) (track : Option Nat) (destroy : Bool) : MPContext :=
  match track with
  | none => mpctx
  | some t =>
    match (mpctx.trk t).d_sub with
    | none => mpctx
    | some d =>
      let m1 :=
        if destroy then
          set_d_sub (sub_destroy (sub_select (reset_subtitles mpctx t) d false) d) t none
        else mpctx
      let order := get_order m1 track
      osd_set_sub m1 order none

/-! ## Per-Frame Update Loop -/

/-- The block of `update_subtitle` that hands the image parameters to the decoder
(sub.c:94-98). -/
def update_subtitle_video_params (mpctx : MPContext) (dec_sub : Nat) : MPContext :=
  match mpctx.vo_chain with
  | some params =>
    if params.imgfmt ≠ 0 then sub_control_set_video_params mpctx dec_sub params else mpctx
  | none => mpctx

/-- The block of `update_subtitle` that preloads or reads packets (sub.c:100-108), for the
demuxer `dm` of the track. The Boolean is `false` where the source returns `false`. -/
def update_subtitle_read (mpctx : MPContext) (dm dec_sub : Nat) (video_pts : double)
    (force_read_ahead : Bool) : Bool × MPContext :=
  if (mpctx.dmx dm).fully_read then
    let r := sub_can_preload mpctx dec_sub
    if r.1 then (true, sub_preload (demux_seek r.2 dm 0 0) dec_sub) else (true, r.2)
  else
    sub_read_packets mpctx dec_sub video_pts force_read_ahead

/-- The block of `update_subtitle` that shows the subtitles on the terminal
(sub.c:110-115). -/
def update_subtitle_term (mpctx : MPContext) (track dec_sub : Nat) (video_pts : double) :
    MPContext :=
  if mpctx.current_track 0 STREAM_SUB = some track ∧ mpctx.video_out = false then
    let r := sub_get_text mpctx dec_sub video_pts
    term_osd_set_subs r.2 r.1
  else mpctx

/-- The block of `update_subtitle` that shows subtitles on the VO with no video being played
(sub.c:117-131). -/
def update_subtitle_vo (mpctx : MPContext) (video_pts : double) : MPContext :=
  if mpctx.video_out = true ∧ mpctx.video_status = playback_status.STATUS_EOF ∧
      (mpctx.sub_past_video_end ||
        (match mpctx.current_track 0 STREAM_VIDEO with
          | none => true
          | some v => (mpctx.trk v).attached_picture)) = true then
    let r := osd_get_force_video_pts mpctx
    if ¬ double.c_eq r.1 video_pts then
      mp_set_timeout
        (vo_redraw (osd_query_and_reset_want_redraw (osd_set_force_video_pts r.2 video_pts)))
        (1 / 10)
    else r.2
  else mpctx

/-- `update_subtitle` (sub.c:86). `none` is the dereference of a `NULL` `track->demuxer`. -/
def update_subtitle (mpctx : MPContext) (video_pts : double) (track : Option Nat)
    (force_read_ahead : Bool) : Option (Bool × MPContext) :=
  match track with
  | none => some (true, mpctx)
  | some t =>
    match (mpctx.trk t).d_sub with
    | none => some (true, mpctx)
    | some dec_sub =>
      if double.c_eq video_pts MP_NOPTS_VALUE then some (true, mpctx)
      else
        let m1 := update_subtitle_video_params mpctx dec_sub
        match (m1.trk t).demuxer with
        | none => none
        | some dm =>
          let r := update_subtitle_read m1 dm dec_sub video_pts force_read_ahead
          if r.1 = false then some (false, r.2)
          else
            some (true,
              update_subtitle_vo (update_subtitle_term r.2 t dec_sub video_pts) video_pts)

/-- The loop of `update_subtitles` (sub.c:142) over the remaining tracks, `ok` being the local
variable of that name. -/
def update_subtitles_loop (video_pts : double) (force_read_ahead : Bool) :
    List Nat → Bool → MPContext → Option (Bool × MPContext)
  | [], ok, mpctx => some (ok, mpctx)
  | n :: rest, ok, mpctx =>
    if (mpctx.trk n).type ≠ STREAM_SUB then
      update_subtitles_loop video_pts force_read_ahead rest ok mpctx
    else
      match update_subtitle mpctx video_pts (some n) force_read_ahead with
      | none => none
      | some r => update_subtitles_loop video_pts force_read_ahead rest (ok && r.1) r.2

/-- `update_subtitles` (sub.c:139). -/
def update_subtitles (mpctx : MPContext) (video_pts : double) (force_read_ahead : Bool) :
    Option (Bool × MPContext) :=
  update_subtitles_loop video_pts force_read_ahead mpctx.tracks true mpctx

/-! ## Decoder Lifecycle Manager: creation -/

/-- `init_subdec` (sub.c:173). `none` is the failure of `assert(!track->d_sub)`. -/
def init_subdec (mpctx : MPContext) (track : Nat) : Option (Bool × MPContext) :=
  match (mpctx.trk track).d_sub with
  | some _ => none
  | none =>
    match (mpctx.trk track).demuxer, (mpctx.trk track).stream with
    | some _, some st =>
      let r := sub_create mpctx st (get_all_attachments mpctx) (get_order mpctx (some track))
      let m1 := set_d_sub r.2 track r.1
      match (m1.trk track).d_sub with
      | none => some (false, m1)
      | some d =>
        let vtrack := m1.current_track 0 STREAM_VIDEO
        let v_c : Option mp_codec_params :=
          match vtrack with
          | none => none
          | some v =>
            match (m1.trk v).stream with
            | none => none
            | some vs => (m1.shs vs).codec
        let fps : ℚ :=
          match v_c with
          | some c => c.fps
          | none => 25
        some (true, sub_control_set_video_def_fps m1 d fps)
    | _, _ => some (false, mpctx)

/-- How a call of `reinit_sub` ends: it returns; the process stops at a failed assertion or a
`NULL` dereference; or the blocking loop is still waiting when the fuel of the model is used
up. -/
inductive Outcome where
  | returned
  | crashed
  | stalled
  deriving DecidableEq, Repr

/-- The blocking loop of `reinit_sub` (sub.c:230): an update, and if it is not ready a wait
and the next round. `fuel` bounds the number of rounds. -/
def reinit_sub_wait : Nat → MPContext → Nat → Outcome × MPContext
  | 0, mpctx, _ => (.stalled, mpctx)
  | fuel + 1, mpctx, track =>
    match update_subtitle mpctx mpctx.playback_pts (some track) true with
    | none => (.crashed, mpctx)
    | some r =>
      if r.1 then (.returned, r.2)
      else reinit_sub_wait fuel (mp_dispatch_queue_process r.2) track

/-- The block of `reinit_sub` that drops a decoder bound to another order than the resolved
one (sub.c:201-205). -/
def reinit_sub_stale (mpctx : MPContext) (t : Nat) (order : Int) : MPContext :=
  match (mpctx.trk t).d_sub with
  | some d =>
    let r := sub_get_order mpctx d
    if order ≠ r.1 then uninit_sub r.2 (some t) true else r.2
  | none => mpctx

/-- The block of `reinit_sub` that creates the decoder if there is none (sub.c:206-207): the
result of `init_subdec`, or `true` with the state as it is when `init_subdec` is not
called. -/
def reinit_sub_create (mpctx : MPContext) (t : Nat) : Option (Bool × MPContext) :=
  match (mpctx.trk t).d_sub with
  | none => init_subdec mpctx t
  | some _ => some (true, mpctx)

/-- The diagnostic `MP_VERBOSE(track->demuxer, "Sub reinit done\n")` that ends `reinit_sub`
(sub.c:239). The macro of `common/msg.h` (not among the sources at hand) passes the `log`
field of its first argument to `mp_msg`, so the statement reads `track->demuxer->log`: with a
`NULL` demuxer the program stops here. The message is no call that the rest of `sub.c`
depends on and is not recorded in the call history. -/
def MP_VERBOSE (mpctx : MPContext) (t : Nat) : Outcome × MPContext :=
  match (mpctx.trk t).demuxer with
  | none => (.crashed, mpctx)
  | some _ => (.returned, mpctx)

/-- The rest of `reinit_sub` once the track has its decoder `d` (sub.c:212-239); `st` is
`track->stream`, `order` the local variable of that name. -/
def reinit_sub_show (fuel : Nat) (mpctx : MPContext) (t st : Nat) (order : Int) (d : Nat) :
    Outcome × MPContext :=
  let m3 := sub_select mpctx d true
  let m4 := if (m3.trk t).selected then osd_set_sub m3 order (some d) else m3
  if m4.playback_initialized then
    if m4.paused then
      let m5 := demux_set_stream_wakeup_cb m4 st true
      let w := reinit_sub_wait fuel m5 t
      match w.1 with
      | .returned => MP_VERBOSE (demux_set_stream_wakeup_cb w.2 st false) t
      | o => (o, w.2)
    else
      match update_subtitle m4 m4.playback_pts (some t) true with
      | none => (.crashed, m4)
      | some u => MP_VERBOSE u.2 t
  else MP_VERBOSE m4 t

/-- `reinit_sub` (sub.c:195). -/
def reinit_sub (fuel : Nat) (mpctx : MPContext) (track : Option Nat) : Outcome × MPContext :=
  match track with
  | none => (.returned, mpctx)
  | some t =>
    match (mpctx.trk t).stream with
    | none => (.returned, mpctx)
    | some st =>
      if (mpctx.shs st).type ≠ STREAM_SUB then (.returned, mpctx)
      else
        let order := get_order mpctx track
        let m1 := reinit_sub_stale mpctx t order
        match reinit_sub_create m1 t with
        | none => (.crashed, m1)
        | some r =>
          if r.1 = false then (.returned, error_on_track r.2 t)
          else
            match (r.2.trk t).d_sub with
            | none => (.crashed, r.2)
            | some d => reinit_sub_show fuel r.2 t st order d

/-! ## The spec's formulations

Definitions that follow the words of the specification, to be compared with the ones above. -/

/-- The demuxers of the given tracks, in track order; a track without demuxer has no entry. -/
def track_demuxers (mpctx : MPContext) (tracks : List Nat) : List Nat :=
  tracks.filterMap (fun t => (mpctx.trk t).demuxer)

/-- The Attachment Aggregator in the words of the spec (section 4.5): iterate the tracks in
order, and for each first occurrence of a distinct source document copy every attachment of
that document, in attachment order. `seen` are the documents met so far. -/
def spec_attachments (mpctx : MPContext) : List Nat → List Nat → List demux_attachment
  | [], _ => []
  | t :: rest, seen =>
    match (mpctx.trk t).demuxer with
    | none => spec_attachments mpctx rest seen
    | some d =>
      if d ∈ seen then spec_attachments mpctx rest seen
      else
        (mpctx.dmx d).attachments.map copy_attachment ++ spec_attachments mpctx rest (d :: seen)

/-- Whether equal entries of a list are adjacent: once the run of the entries equal to the
first one is over, the first one does not come back, and so on for the rest of the list. -/
def runs_adjacent : List Nat → Bool
  | [] => true
  | d :: rest => (rest.dropWhile (fun e => e == d)).all (fun e => e != d) && runs_adjacent rest

/-- `UpdateAll` in the words of the spec (section 4.4): apply `UpdateOne` to every track of
the list, in order, whatever the earlier results; the results are collected. -/
def update_each (video_pts : double) (force_read_ahead : Bool) :
    List Nat → MPContext → Option (List Bool × MPContext)
  | [], mpctx => some ([], mpctx)
  | n :: rest, mpctx =>
    match update_subtitle mpctx video_pts (some n) force_read_ahead with
    | none => none
    | some r =>
      match update_each video_pts force_read_ahead rest r.2 with
      | none => none
      | some rs => some (r.1 :: rs.1, rs.2)

/-- The subtitle-class tracks of the track set, in track-set order. -/
def sub_tracks (mpctx : MPContext) : List Nat :=
  mpctx.tracks.filter (fun n => (mpctx.trk n).type = STREAM_SUB)

/-- What `update_subtitle` leaves as it is: everything but the terminal text, the forced
timestamp and the call history, which only grows. -/
def updated (w w1 : MPContext) : Prop :=
  ∃ text pts evs,
    w1 = { w with term_osd_subs := text, force_video_pts := pts, log := w.log ++ evs }

/-! ## Example contexts -/

/-- An oracle: every creation succeeds, no decoder can preload, every read is complete, no
text. -/
def oracle0 : Oracle :=
  { sub_create_ok := fun _ _ => true
    sub_can_preload := fun _ _ => false
    sub_read_packets := fun _ _ _ _ => true
    sub_get_text := fun _ _ _ => none }

/-- A selected subtitle track without demuxer, stream and decoder. -/
def track0 : track :=
  { type := STREAM_SUB, selected := true, attached_picture := false,
    demuxer := none, stream := none, d_sub := none }

/-- A context without tracks: nothing selected, no playback, no video output. -/
def ctx0 : MPContext :=
  { tracks := []
    current_track := fun _ _ => none
    play_dir := 1
    vo_chain := none
    video_out := false
    video_status := playback_status.STATUS_PLAYING
    sub_past_video_end := false
    playback_initialized := false
    paused := false
    playback_pts := 0
    term_osd_subs := none
    trk := fun _ => track0
    dmx := fun _ => { fully_read := false, attachments := [] }
    shs := fun _ => { type := STREAM_SUB, codec := none }
    decs := fun _ => { order := -1, selected := false }
    next_dec := 100
    osd_sub := fun _ => none
    force_video_pts := MP_NOPTS_VALUE
    oracle := oracle0
    log := [] }

/-- A font attachment. -/
def font_a : demux_attachment :=
  { name := "a.ttf", type := "font/ttf", data := [1, 2], data_size := 2 }

/-- Three tracks: tracks 0 and 2 belong to demuxer 1, track 1 between them to demuxer 2;
demuxer 1 has the attachment `font_a`, demuxer 2 has none. -/
def ctx_separated : MPContext :=
  { ctx0 with
    tracks := [0, 1, 2]
    trk := fun t => { track0 with demuxer := some (if t = 1 then 2 else 1) }
    dmx := fun d => { fully_read := false, attachments := if d = 1 then [font_a] else [] } }

/-- The tracks of `ctx_separated` in another order: the two tracks of demuxer 1 first. -/
def ctx_adjacent : MPContext :=
  { ctx_separated with tracks := [0, 2, 1] }

/-- Track 0 is a subtitle track with demuxer 1, stream 1 and decoder 7, which is bound to
order 0 and published in OSD slot 0; the selection table now holds the track in slot 1 only. -/
def ctx_moved : MPContext :=
  { ctx0 with
    tracks := [0]
    current_track := fun n ty => if n = 1 ∧ ty = STREAM_SUB then some 0 else none
    trk := fun _ => { track0 with demuxer := some 1, stream := some 1, d_sub := some 7 }
    decs := fun _ => { order := 0, selected := true }
    osd_sub := fun o => if o = 0 then some 7 else none }

/-- Track 0 as in `ctx_moved`, but without stream: it owns decoder 7, which is bound to
order 0, and the selection table holds the track in slot 1 only. -/
def ctx_moved_no_stream : MPContext :=
  { ctx_moved with
    trk := fun _ => { track0 with demuxer := some 1, stream := none, d_sub := some 7 } }

/-- Track 0 is selected in slot 0 and has a stream and a demuxer, but no decoder; OSD slot 0
still holds decoder 7. -/
def ctx_no_decoder : MPContext :=
  { ctx0 with
    tracks := [0]
    current_track := fun n ty => if n = 0 ∧ ty = STREAM_SUB then some 0 else none
    trk := fun _ => { track0 with demuxer := some 1, stream := some 1 }
    osd_sub := fun o => if o = 0 then some 7 else none }

/-- Track 0 is selected in slot 0 and owns decoder 7, bound to order 0. -/
def ctx_decoder : MPContext :=
  { ctx0 with
    tracks := [0]
    current_track := fun n ty => if n = 0 ∧ ty = STREAM_SUB then some 0 else none
    trk := fun _ => { track0 with demuxer := some 1, stream := some 1, d_sub := some 7 }
    decs := fun _ => { order := 0, selected := true }
    osd_sub := fun o => if o = 0 then some 7 else none }

/-- Track 0 is selected in slot 0 and has a demuxer, but no stream and no decoder. -/
def ctx_no_stream : MPContext :=
  { ctx0 with
    tracks := [0]
    current_track := fun n ty => if n = 0 ∧ ty = STREAM_SUB then some 0 else none
    trk := fun _ => { track0 with demuxer := some 1 } }

/-- An oracle whose reads need more input until the caller has waited once. -/
def oracle_wait : Oracle :=
  { oracle0 with
    sub_read_packets := fun log _ _ _ => decide (Event.mp_dispatch_queue_process ∈ log)
    sub_get_text := fun _ _ _ => some "hi" }

/-- Two subtitle tracks with their decoders: track 0 (decoder 7) in slot 0, track 1
(decoder 8) in slot 1, and a video track 2 between them in the track set; the reads need
more input. -/
def ctx_two : MPContext :=
  { ctx0 with
    tracks := [0, 2, 1]
    current_track := fun n ty =>
      if ty = STREAM_SUB then (if n = 0 then some 0 else if n = 1 then some 1 else none)
      else none
    trk := fun t =>
      if t = 2 then { track0 with type := STREAM_VIDEO, demuxer := some 1, stream := some 2 }
      else { track0 with demuxer := some 1, stream := some t, d_sub := some (7 + t) }
    decs := fun d => { order := (d : Int) - 7, selected := true }
    oracle := oracle_wait }

/-- The context `ctx_two` after the wait: one `mp_dispatch_queue_process` in the history. -/
def ctx_two_later : MPContext :=
  { ctx_two with log := [Event.mp_dispatch_queue_process] }

/-! ## Further formulations and example contexts -/

/-- The calls of a destroying `uninit_sub` for the decoder `d` (sub.c:68-75), `order` being
the resolved slot. -/
def uninit_calls (d : Nat) (play_dir : Int) (order : Int) : List Event :=
  [Event.sub_reset d, Event.sub_set_play_dir d play_dir, Event.term_osd_set_subs none,
    Event.sub_select d false, Event.sub_destroy d, Event.osd_set_sub order none]

/-- The context of `reinit_sub` after `sub_select` and the publication in the OSD
(sub.c:212-215). -/
def selected_and_shown (mpctx : MPContext) (t : Nat) (order : Int) (d : Nat) : MPContext :=
  if ((sub_select mpctx d true).trk t).selected then
    osd_set_sub (sub_select mpctx d true) order (some d)
  else sub_select mpctx d true

/-- Three tracks of three demuxers, with a track without demuxer between them; demuxer 1
has the attachment `font_a`, demuxer 3 has it twice. -/
def ctx_distinct : MPContext :=
  { ctx0 with
    tracks := [0, 1, 2, 3]
    trk := fun t => { track0 with demuxer := if t = 1 then none else some (t + 1) }
    dmx := fun d =>
      { fully_read := false
        attachments := if d = 1 then [font_a] else if d = 3 then [font_a, font_a] else [] } }

/-- The call of `update_subtitle` that hands over the image parameters (sub.c:94-98). -/
def is_params_call : Event → Bool
  | .sub_control_set_video_params _ _ => true
  | _ => false

/-- The calls of the preload and read block of `update_subtitle` (sub.c:100-108). -/
def is_read_call : Event → Bool
  | .sub_can_preload _ => true
  | .demux_seek _ _ _ => true
  | .sub_preload _ => true
  | .sub_read_packets _ _ _ => true
  | _ => false

/-- The calls of the terminal block of `update_subtitle` (sub.c:110-115). -/
def is_term_call : Event → Bool
  | .sub_get_text _ _ => true
  | .term_osd_set_subs _ => true
  | _ => false

/-- The calls of the block of `update_subtitle` for a VO without video (sub.c:117-131). -/
def is_vo_call : Event → Bool
  | .osd_get_force_video_pts => true
  | .osd_set_force_video_pts _ => true
  | .osd_query_and_reset_want_redraw => true
  | .vo_redraw => true
  | .mp_set_timeout _ => true
  | _ => false

/-- The calls `update_subtitle` can make. -/
def is_update_call (e : Event) : Bool :=
  is_params_call e || is_read_call e || is_term_call e || is_vo_call e

/-- A step of an update that makes only calls of the kind `P`: nothing but the terminal
text, the forced timestamp and the call history changes. -/
def steps (P : Event → Bool) (w w1 : MPContext) : Prop :=
  ∃ text pts evs,
    w1 = { w with term_osd_subs := text, force_video_pts := pts, log := w.log ++ evs } ∧
    ∀ e ∈ evs, P e = true

/-- The condition of the last block of `update_subtitle` in the words of the spec (section
4.4, step 5): a graphical output device is active, the end of the video stream has been
reached, and subtitles may continue past the video end, or there is no video track, or the
video track is an attached picture. -/
def subs_without_video (w : MPContext) : Prop :=
  w.video_out = true ∧ w.video_status = playback_status.STATUS_EOF ∧
    (w.sub_past_video_end = true ∨
      ∀ v, w.current_track 0 STREAM_VIDEO = some v → (w.trk v).attached_picture = true)

/-- The calls that set the forced timestamp and request a redraw and a timeout. -/
def is_redraw_request : Event → Bool
  | .osd_set_force_video_pts _ => true
  | .osd_query_and_reset_want_redraw => true
  | .vo_redraw => true
  | .mp_set_timeout _ => true
  | _ => false

/-- The context `ctx_two_later` with an active video output at the end of the video; the
forced timestamp is 3. -/
def ctx_vo : MPContext :=
  { ctx_two_later with
    video_out := true
    video_status := playback_status.STATUS_EOF
    force_video_pts := 3 }

/-- What `reinit_sub` for the track `t` with the resolved slot `order` leaves as it is:
everything but the decoder handle of `t`, the decoders, the next decoder address, the OSD
slot `order`, the terminal text, the forced timestamp and the call history, which only
grows. -/
def staged (t : Nat) (order : Int) (w w1 : MPContext) : Prop :=
  ∃ (ds : Option Nat) (decs : Nat → dec_sub) (next : Nat) (slot : Option Nat)
    (text : Option String) (pts : double) (evs : List Event),
    w1 = { w with
      trk := Function.update w.trk t { w.trk t with d_sub := ds }
      decs := decs
      next_dec := next
      osd_sub := Function.update w.osd_sub order slot
      term_osd_subs := text
      force_video_pts := pts
      log := w.log ++ evs }

/-- The calls of the first block of `reinit_sub` (sub.c:201-205): the query of the bound
order when the track has a decoder, and the teardown when that order is not the resolved
one. -/
def stale_calls (mpctx : MPContext) (t : Nat) : List Event :=
  match (mpctx.trk t).d_sub with
  | none => []
  | some d =>
    Event.sub_get_order d ::
      (if get_order mpctx (some t) ≠ (mpctx.decs d).order then
        uninit_calls d mpctx.play_dir (get_order mpctx (some t))
      else [])

/-- The context `ctx_two` during a paused playback at timestamp 5. -/
def ctx_two_paused : MPContext :=
  { ctx_two with playback_initialized := true, paused := true, playback_pts := 5 }

/-- The context `ctx_two` during a running playback at timestamp 5. -/
def ctx_two_playing : MPContext :=
  { ctx_two with playback_initialized := true, paused := false, playback_pts := 5 }

/-- The calls by which `reinit_sub` selects a decoder, publishes it in the OSD, updates it or
waits for it. -/
def is_progress_call : Event → Bool
  | .sub_select _ true => true
  | .osd_set_sub _ (some _) => true
  | .demux_set_stream_wakeup_cb _ _ => true
  | .mp_dispatch_queue_process => true
  | .sub_get_text _ _ => true
  | .term_osd_set_subs (some _) => true
  | e => is_params_call e || is_read_call e || is_vo_call e

/-- Track 0 is a selected subtitle track in slot 0 with stream 1 but without demuxer and
without decoder. -/
def ctx_no_demuxer : MPContext :=
  { ctx0 with
    tracks := [0]
    current_track := fun n ty => if n = 0 ∧ ty = STREAM_SUB then some 0 else none
    trk := fun _ => { track0 with stream := some 1 }
    playback_initialized := true
    paused := true }

/-- The context `ctx_moved` with an oracle whose `sub_create` fails, during a paused
playback. -/
def ctx_create_fails : MPContext :=
  { ctx_moved with
    oracle := { oracle0 with sub_create_ok := fun _ _ => false }
    playback_initialized := true
    paused := true }

/-- The codec parameters of the selected primary video track, the `v_c` of `init_subdec`
(sub.c:186-188): none when there is no primary video track, when it has no stream or when
the stream has no codec parameters. -/
def video_codec (w : MPContext) : Option mp_codec_params :=
  match w.current_track 0 STREAM_VIDEO with
  | none => none
  | some v =>
    match (w.trk v).stream with
    | none => none
    | some vs => (w.shs vs).codec

/-- The context `ctx_no_decoder` with the primary video track 5, whose stream 9 has codec
parameters with the frame rate `fps`. -/
def ctx_video_fps (fps : ℚ) : MPContext :=
  { ctx_no_decoder with
    tracks := [0, 5]
    current_track := fun n ty =>
      if n = 0 then
        (if ty = STREAM_SUB then some 0 else if ty = STREAM_VIDEO then some 5 else none)
      else none
    trk := fun n =>
      if n = 5 then { track0 with type := STREAM_VIDEO, demuxer := some 1, stream := some 9 }
      else { track0 with demuxer := some 1, stream := some 1 }
    shs := fun s =>
      if s = 9 then { type := STREAM_VIDEO, codec := some { fps := fps } }
      else { type := STREAM_SUB, codec := none } }

/-- The calls by which `reinit_sub` waits: the registration of the wakeup callback and the
wait on the dispatch queue. -/
def is_wait_call : Event → Bool
  | .demux_set_stream_wakeup_cb _ _ => true
  | .mp_dispatch_queue_process => true
  | _ => false

/-- The calls `reinit_sub` can make once the track has its decoder (sub.c:212-238). -/
def is_show_call (e : Event) : Bool :=
  is_progress_call e || is_term_call e

/-- A step that makes only calls of the kind `P`. -/
def logged (P : Event → Bool) (w w1 : MPContext) : Prop :=
  ∃ evs, w1.log = w.log ++ evs ∧ ∀ e ∈ evs, P e = true

/-- The Blocking Readiness Protocol in the words of the spec (section 4.3), with attempt `k`
the first one to report ready: `k - 1` times an update of the track with the "must make
progress" flag that is not ready, each followed by a wait, and then an update that reports
ready. The result is the context after these `k` updates and `k - 1` waits; there is none
when attempt `k` is not the first ready one. -/
def spec_blocking (t : Nat) : Nat → MPContext → Option MPContext
  | 0, _ => none
  | k + 1, w =>
    match update_subtitle w w.playback_pts (some t) true with
    | none => none
    | some r =>
      if r.1 then (if k = 0 then some r.2 else none)
      else spec_blocking t k (mp_dispatch_queue_process r.2)

/-! ## Track Order Resolver: properties -/

/-- Against the sentinel, which is a number, the C comparison is plain equality. -/
@[simp] theorem c_eq_nopts (p : double) : double.c_eq p MP_NOPTS_VALUE ↔ p = MP_NOPTS_VALUE := by
  constructor
  · exact fun h => h.2
  · intro h; subst h; exact ⟨by simp [MP_NOPTS_VALUE], rfl⟩

/-- The closing diagnostic of `reinit_sub` leaves the context as it is. -/
theorem MP_VERBOSE_snd (w : MPContext) (t : Nat) : (MP_VERBOSE w t).2 = w := by
  unfold MP_VERBOSE
  split <;> rfl

/-- The closing diagnostic of `reinit_sub` returns exactly when the track has a demuxer. -/
theorem MP_VERBOSE_fst (w : MPContext) (t : Nat) :
    (MP_VERBOSE w t).1 =
      if (w.trk t).demuxer = none then Outcome.crashed else Outcome.returned := by
  unfold MP_VERBOSE
  cases (w.trk t).demuxer <;> simp

/-- NaN is not equal to itself in the C comparison. -/
theorem c_eq_nan (b : double) : ¬ double.c_eq double.nan b := fun h => h.1 rfl

/-- A number is equal to itself in the C comparison. -/
theorem c_eq_self (a : double) (h : a ≠ double.nan) : double.c_eq a a := ⟨h, rfl⟩


/-- The two slots of `get_order`, spelled out. -/
theorem get_order_eq (mpctx : MPContext) (track : Option Nat) :
    get_order mpctx track =
      if mpctx.current_track 0 STREAM_SUB = track then 0
      else if mpctx.current_track 1 STREAM_SUB = track then 1 else -1 := by
  have hr : List.range 2 = [0, 1] := rfl
  simp only [get_order, num_ptracks, hr, List.find?]
  by_cases h0 : mpctx.current_track 0 STREAM_SUB = track
  · simp [h0]
  · have e0 : (mpctx.current_track 0 STREAM_SUB == track) = false := by simpa using h0
    by_cases h1 : mpctx.current_track 1 STREAM_SUB = track
    · simp [h0, e0, h1]
    · have e1 : (mpctx.current_track 1 STREAM_SUB == track) = false := by simpa using h1
      simp [h0, e0, h1, e1]

/-- `get_order` reads the selection table only. -/
theorem get_order_congr (w w1 : MPContext) (track : Option Nat)
    (h : w1.current_track = w.current_track) : get_order w1 track = get_order w track := by
  rw [get_order_eq, get_order_eq, h]

/-- C7: `get_order` returns the smallest slot index `n` in {0, 1} whose entry of the selection
table is the track, and -1 exactly when the track is in neither slot. It is a function of the
context to an integer: there is no state it could change. -/
theorem get_order_smallest_slot (mpctx : MPContext) (track : Option Nat) :
    (∀ n : Nat, get_order mpctx track = (n : Int) ↔
      (n < 2 ∧ mpctx.current_track n STREAM_SUB = track ∧
        ∀ m, m < n → mpctx.current_track m STREAM_SUB ≠ track)) ∧
    (get_order mpctx track = -1 ↔
      ∀ n, n < 2 → mpctx.current_track n STREAM_SUB ≠ track) := by
  rw [get_order_eq]
  have h2 : ∀ n : Nat, n < 2 → n = 0 ∨ n = 1 := fun n h => by omega
  by_cases h0 : mpctx.current_track 0 STREAM_SUB = track
  · rw [if_pos h0]
    refine ⟨fun n => ⟨fun h => ?_, fun h => ?_⟩, ⟨fun h => ?_, fun h => ?_⟩⟩
    · have hn : n = 0 := by omega
      subst hn
      exact ⟨by decide, h0, fun m hm => absurd hm (Nat.not_lt_zero m)⟩
    · rcases Nat.eq_zero_or_pos n with hn | hn
      · subst hn; rfl
      · exact absurd h0 (h.2.2 0 hn)
    · omega
    · exact absurd h0 (h 0 (by decide))
  · rw [if_neg h0]
    by_cases h1 : mpctx.current_track 1 STREAM_SUB = track
    · rw [if_pos h1]
      refine ⟨fun n => ⟨fun h => ?_, fun h => ?_⟩, ⟨fun h => ?_, fun h => ?_⟩⟩
      · have hn : n = 1 := by omega
        subst hn
        refine ⟨by decide, h1, fun m hm => ?_⟩
        have hm0 : m = 0 := by omega
        subst hm0; exact h0
      · rcases h2 n h.1 with hn | hn
        · subst hn; exact absurd h.2.1 h0
        · subst hn; rfl
      · omega
      · exact absurd h1 (h 1 (by decide))
    · rw [if_neg h1]
      refine ⟨fun n => ⟨fun h => ?_, fun h => ?_⟩, ⟨fun _ => ?_, fun _ => rfl⟩⟩
      · omega
      · rcases h2 n h.1 with hn | hn
        · subst hn; exact absurd h.2.1 h0
        · subst hn; exact absurd h.2.1 h1
      · intro n hn
        rcases h2 n hn with hn | hn
        · subst hn; exact h0
        · subst hn; exact h1

/-! ## Attachment Aggregator: properties -/

theorem runs_adjacent_tail (d : Nat) (rest : List Nat) (h : runs_adjacent (d :: rest) = true) :
    runs_adjacent rest = true := by
  simp only [runs_adjacent, Bool.and_eq_true] at h
  exact h.2

theorem runs_adjacent_ne (p d : Nat) (rest : List Nat) (hne : d ≠ p)
    (h : runs_adjacent (p :: d :: rest) = true) : ∀ e ∈ d :: rest, e ≠ p := by
  simp only [runs_adjacent, Bool.and_eq_true] at h
  have h1 := h.1
  have hd : (d == p) = false := by simpa using hne
  rw [List.dropWhile_cons, hd] at h1
  simp only [Bool.false_eq_true, if_false] at h1
  intro e he
  have := (List.all_eq_true.mp h1) e he
  simpa using this

/-- The loop of `get_all_attachments` and the iteration of the spec agree from any point on
where `prev_demuxer` is the document seen last and no document seen before comes back. -/
theorem get_all_attachments_loop_spec (mpctx : MPContext) :
    ∀ (tracks : List Nat) (prev : Option Nat) (seen : List Nat) (list : List demux_attachment),
      prev = seen.head? →
      (∀ e ∈ seen.tail, e ∉ track_demuxers mpctx tracks) →
      runs_adjacent (prev.toList ++ track_demuxers mpctx tracks) = true →
      get_all_attachments_loop mpctx tracks prev list =
        list ++ spec_attachments mpctx tracks seen := by
  intro tracks
  induction tracks with
  | nil => intro prev seen list _ _ _; simp [get_all_attachments_loop, spec_attachments]
  | cons t rest ih =>
    intro prev seen list hprev hseen hadj
    cases hd : (mpctx.trk t).demuxer with
    | none =>
      have hdm : track_demuxers mpctx (t :: rest) = track_demuxers mpctx rest := by
        simp [track_demuxers, List.filterMap_cons, hd]
      rw [hdm] at hseen hadj
      simp only [get_all_attachments_loop, spec_attachments, hd]
      exact ih prev seen list hprev hseen hadj
    | some d =>
      have hdm : track_demuxers mpctx (t :: rest) = d :: track_demuxers mpctx rest := by
        simp [track_demuxers, List.filterMap_cons, hd]
      rw [hdm] at hseen hadj
      simp only [get_all_attachments_loop, spec_attachments, hd]
      by_cases hp : prev = some d
      · have hin : d ∈ seen := by
          cases seen with
          | nil => rw [hp] at hprev; simp at hprev
          | cons s tl =>
            rw [hp] at hprev
            simp only [List.head?_cons, Option.some.injEq] at hprev
            rw [hprev]; exact List.mem_cons_self _ _
        rw [if_pos hp, if_pos hin]
        refine ih prev seen list hprev
          (fun e he hmem => hseen e he (List.mem_cons_of_mem _ hmem)) ?_
        rw [hp] at hadj ⊢
        exact runs_adjacent_tail d _ hadj
      · have hnin : d ∉ seen := by
          cases seen with
          | nil => simp
          | cons s tl =>
            simp only [List.head?_cons] at hprev
            intro hmem
            rcases List.mem_cons.mp hmem with h | h
            · exact hp (by rw [hprev, h])
            · exact hseen d h (List.mem_cons_self _ _)
        rw [if_neg hp, if_neg hnin, ← List.append_assoc]
        refine ih (some d) (d :: seen) _ rfl ?_ ?_
        · intro e he hmem
          simp only [List.tail_cons] at he
          cases seen with
          | nil => simp at he
          | cons s tl =>
            simp only [List.head?_cons] at hprev
            rcases List.mem_cons.mp he with h | h
            · subst h
              rw [hprev] at hadj hp
              have hne : d ≠ e := fun hde => hp (by rw [hde])
              exact runs_adjacent_ne e d _ hne hadj e (List.mem_cons_of_mem _ hmem) rfl
            · exact hseen e h (List.mem_cons_of_mem _ hmem)
        · cases prev with
          | none => simpa using hadj
          | some p => exact runs_adjacent_tail p _ hadj

/-- C1, as stated, fails: in `ctx_separated` tracks 0 and 2 reference demuxer 1 and track 1
between them references demuxer 2. The attachment of demuxer 1 is returned twice, where the
first-occurrence iteration of the spec returns it once. -/
theorem get_all_attachments_duplicates :
    (ctx_separated.trk 0).demuxer = some 1 ∧ (ctx_separated.trk 2).demuxer = some 1 ∧
    (ctx_separated.dmx 1).attachments = [font_a] ∧
    get_all_attachments ctx_separated = [font_a, font_a] ∧
    spec_attachments ctx_separated ctx_separated.tracks [] = [font_a] ∧
    get_all_attachments ctx_separated ≠
      spec_attachments ctx_separated ctx_separated.tracks [] := by
  decide

/-- C1, amended: when the tracks that reference the same demuxer are adjacent in the track
list (tracks without demuxer between them do not count), every demuxer contributes its
attachments exactly once: `get_all_attachments` is the first-occurrence iteration of the
spec. -/
theorem get_all_attachments_adjacent (mpctx : MPContext)
    (h : runs_adjacent (track_demuxers mpctx mpctx.tracks) = true) :
    get_all_attachments mpctx = spec_attachments mpctx mpctx.tracks [] := by
  have := get_all_attachments_loop_spec mpctx mpctx.tracks none [] [] rfl
    (by simp) (by simpa using h)
  simpa [get_all_attachments] using this

/-- The amended C1 at `ctx_adjacent`: two tracks of demuxer 1, then one of demuxer 2. -/
theorem get_all_attachments_adjacent_witness :
    runs_adjacent (track_demuxers ctx_adjacent ctx_adjacent.tracks) = true ∧
    get_all_attachments ctx_adjacent = spec_attachments ctx_adjacent ctx_adjacent.tracks [] :=
  ⟨by decide, get_all_attachments_adjacent ctx_adjacent (by decide)⟩

/-! ## The other modules: properties -/

theorem updated_refl (w : MPContext) : updated w w :=
  ⟨w.term_osd_subs, w.force_video_pts, [], by simp⟩

theorem updated_trans {w w1 w2 : MPContext} (h1 : updated w w1) (h2 : updated w1 w2) :
    updated w w2 := by
  obtain ⟨t1, p1, e1, rfl⟩ := h1
  obtain ⟨t2, p2, e2, rfl⟩ := h2
  exact ⟨t2, p2, e1 ++ e2, by simp⟩

theorem updated_emit (w : MPContext) (e : Event) : updated w (emit w e) :=
  ⟨w.term_osd_subs, w.force_video_pts, [e], rfl⟩

theorem updated_term_osd_set_subs (w : MPContext) (text : Option String) :
    updated w (term_osd_set_subs w text) :=
  ⟨text, w.force_video_pts, [Event.term_osd_set_subs text], rfl⟩

theorem updated_osd_set_force_video_pts (w : MPContext) (pts : double) :
    updated w (osd_set_force_video_pts w pts) :=
  ⟨w.term_osd_subs, pts, [Event.osd_set_force_video_pts pts], rfl⟩

/-! ## Teardown: properties -/

/-- What a destroying `uninit_sub` does to a track that owns the decoder `d`. -/
theorem uninit_sub_destroy_some (mpctx : MPContext) (t d : Nat)
    (hd : (mpctx.trk t).d_sub = some d) :
    uninit_sub mpctx (some t) true =
      { mpctx with
        term_osd_subs := none
        trk := Function.update mpctx.trk t { mpctx.trk t with d_sub := none }
        decs := Function.update mpctx.decs d { mpctx.decs d with selected := false }
        osd_sub := Function.update mpctx.osd_sub (get_order mpctx (some t)) none
        log := mpctx.log ++
          [Event.sub_reset d, Event.sub_set_play_dir d mpctx.play_dir,
            Event.term_osd_set_subs none, Event.sub_select d false, Event.sub_destroy d,
            Event.osd_set_sub (get_order mpctx (some t)) none] } := by
  have hg : ∀ w : MPContext, w.current_track = mpctx.current_track →
      get_order w (some t) = get_order mpctx (some t) :=
    fun w h => get_order_congr mpctx w (some t) h
  simp [uninit_sub, hd, reset_subtitles, sub_reset, sub_set_play_dir, term_osd_set_subs,
    sub_select, sub_destroy, set_d_sub, osd_set_sub, emit, hg]

/-- A track without decoder: `uninit_sub` does nothing. -/
theorem uninit_sub_none (mpctx : MPContext) (t : Nat) (destroy : Bool)
    (hd : (mpctx.trk t).d_sub = none) : uninit_sub mpctx (some t) destroy = mpctx := by
  simp [uninit_sub, hd]

/-- C4: Destroy is idempotent. A second `uninit_sub(mpctx, track, true)` in a row returns the
context of the first one as it is (the decoder handle, the OSD slots, the terminal text and
every other field), and it adds no call to the history: after the first call the track has
no decoder. -/
theorem uninit_sub_idempotent (mpctx : MPContext) (track : Option Nat) :
    uninit_sub (uninit_sub mpctx track true) track true = uninit_sub mpctx track true ∧
    (uninit_sub (uninit_sub mpctx track true) track true).log =
      (uninit_sub mpctx track true).log ∧
    (∀ t, track = some t → ((uninit_sub mpctx track true).trk t).d_sub = none) := by
  have key : ∀ t, track = some t → ((uninit_sub mpctx track true).trk t).d_sub = none := by
    intro t ht
    subst ht
    cases hd : (mpctx.trk t).d_sub with
    | none => rw [uninit_sub_none mpctx t true hd]; exact hd
    | some d => rw [uninit_sub_destroy_some mpctx t d hd]; simp
  have h1 : uninit_sub (uninit_sub mpctx track true) track true = uninit_sub mpctx track true := by
    cases track with
    | none => rfl
    | some t => exact uninit_sub_none _ t true (key t rfl)
  exact ⟨h1, by rw [h1], key⟩

/-- C5, as stated, fails: track 0 of `ctx_no_decoder` owns no decoder and is selected in
slot 0. Destroy makes no call at all, so no `osd_set_sub(osd, 0, NULL)`, and OSD slot 0 keeps
what it held. -/
theorem uninit_sub_no_decoder_no_unpublish :
    (ctx_no_decoder.trk 0).d_sub = none ∧ get_order ctx_no_decoder (some 0) = 0 ∧
    (uninit_sub ctx_no_decoder (some 0) true).log = [] ∧
    Event.osd_set_sub (get_order ctx_no_decoder (some 0)) none ∉
      (uninit_sub ctx_no_decoder (some 0) true).log ∧
    (uninit_sub ctx_no_decoder (some 0) true).osd_sub 0 = some 7 := by
  decide

/-- C5, amended: Destroy unpublishes the slot resolved by `get_order` for every track that
owns a decoder: the last call of `uninit_sub` is `osd_set_sub(osd, get_order(track), NULL)`,
after which that slot holds no decoder and the track has none. For a track that owns no
decoder Destroy changes nothing and makes no call. -/
theorem uninit_sub_unpublishes (mpctx : MPContext) (t : Nat) :
    (∀ d, (mpctx.trk t).d_sub = some d →
      (uninit_sub mpctx (some t) true).log =
        mpctx.log ++
          [Event.sub_reset d, Event.sub_set_play_dir d mpctx.play_dir,
            Event.term_osd_set_subs none, Event.sub_select d false, Event.sub_destroy d,
            Event.osd_set_sub (get_order mpctx (some t)) none] ∧
      (uninit_sub mpctx (some t) true).osd_sub (get_order mpctx (some t)) = none ∧
      ((uninit_sub mpctx (some t) true).trk t).d_sub = none) ∧
    ((mpctx.trk t).d_sub = none → uninit_sub mpctx (some t) true = mpctx) := by
  refine ⟨fun d hd => ?_, fun hd => uninit_sub_none mpctx t true hd⟩
  rw [uninit_sub_destroy_some mpctx t d hd]
  simp

/-- The amended C5 at `ctx_decoder`, whose track 0 owns decoder 7 and is in slot 0. -/
theorem uninit_sub_unpublishes_witness :
    (ctx_decoder.trk 0).d_sub = some 7 ∧
    (uninit_sub ctx_decoder (some 0) true).log =
      ctx_decoder.log ++
        [Event.sub_reset 7, Event.sub_set_play_dir 7 ctx_decoder.play_dir,
          Event.term_osd_set_subs none, Event.sub_select 7 false, Event.sub_destroy 7,
          Event.osd_set_sub (get_order ctx_decoder (some 0)) none] ∧
    (uninit_sub ctx_decoder (some 0) true).osd_sub (get_order ctx_decoder (some 0)) = none ∧
    ((uninit_sub ctx_decoder (some 0) true).trk 0).d_sub = none :=
  ⟨by decide, (uninit_sub_unpublishes ctx_decoder 0).1 7 (by decide)⟩

/-! ## Per-Frame Update Loop: properties -/

theorem updated_video_params (w : MPContext) (d : Nat) :
    updated w (update_subtitle_video_params w d) := by
  unfold update_subtitle_video_params
  cases w.vo_chain with
  | none => exact updated_refl w
  | some params =>
    simp only
    split
    · exact updated_emit w _
    · exact updated_refl w

theorem updated_read (w : MPContext) (dm d : Nat) (pts : double) (f : Bool) :
    updated w (update_subtitle_read w dm d pts f).2 := by
  unfold update_subtitle_read
  by_cases hf : (w.dmx dm).fully_read = true
  · simp only [hf, if_true]
    by_cases hc : (sub_can_preload w d).1 = true
    · simp only [hc, if_true]
      exact updated_trans (updated_emit w _)
        (updated_trans (updated_emit _ _) (updated_emit _ _))
    · simp only [hc]
      exact updated_emit w _
  · simp only [hf]
    exact updated_emit w _

theorem updated_term (w : MPContext) (t d : Nat) (pts : double) :
    updated w (update_subtitle_term w t d pts) := by
  unfold update_subtitle_term
  split
  · exact updated_trans (updated_emit w _) (updated_term_osd_set_subs _ _)
  · exact updated_refl w

theorem updated_vo (w : MPContext) (pts : double) : updated w (update_subtitle_vo w pts) := by
  unfold update_subtitle_vo
  split
  · simp only
    split
    · exact updated_trans (updated_emit w _)
        (updated_trans (updated_osd_set_force_video_pts _ _)
          (updated_trans (updated_emit _ _)
            (updated_trans (updated_emit _ _) (updated_emit _ _))))
    · exact updated_emit w _
  · exact updated_refl w

/-- An update leaves everything but the terminal text, the forced timestamp and the call
history as it is. -/
theorem update_subtitle_updated (w : MPContext) (pts : double) (track : Option Nat) (f : Bool)
    (r : Bool × MPContext) (h : update_subtitle w pts track f = some r) : updated w r.2 := by
  unfold update_subtitle at h
  cases track with
  | none => simp only [Option.some.injEq] at h; subst h; exact updated_refl w
  | some t =>
    simp only at h
    cases hd : (w.trk t).d_sub with
    | none => simp only [hd, Option.some.injEq] at h; subst h; exact updated_refl w
    | some d =>
      simp only [hd] at h
      by_cases hp : pts = MP_NOPTS_VALUE
      · simp only [c_eq_nopts, hp, if_true, Option.some.injEq] at h; subst h
        exact updated_refl w
      · simp only [c_eq_nopts, hp, if_false] at h
        cases hdm : ((update_subtitle_video_params w d).trk t).demuxer with
        | none => simp [hdm] at h
        | some dm =>
          simp only [hdm] at h
          have h1 := updated_video_params w d
          have h2 := updated_read (update_subtitle_video_params w d) dm d pts f
          split at h
          · simp only [Option.some.injEq] at h; subst h
            exact updated_trans h1 h2
          · simp only [Option.some.injEq] at h; subst h
            exact updated_trans h1 (updated_trans h2
              (updated_trans (updated_term _ _ _ _) (updated_vo _ _)))

/-- With the sentinel an update returns `true` and the context as it is. -/
theorem update_subtitle_nopts (w : MPContext) (track : Option Nat) (f : Bool) :
    update_subtitle w MP_NOPTS_VALUE track f = some (true, w) := by
  unfold update_subtitle
  cases track with
  | none => rfl
  | some t =>
    cases hd : (w.trk t).d_sub with
    | none => simp [hd]
    | some d => simp [hd]

theorem update_subtitles_loop_nopts (f : Bool) :
    ∀ (tracks : List Nat) (ok : Bool) (w : MPContext),
      update_subtitles_loop MP_NOPTS_VALUE f tracks ok w = some (ok, w) := by
  intro tracks
  induction tracks with
  | nil => intro ok w; rfl
  | cons n rest ih =>
    intro ok w
    unfold update_subtitles_loop
    by_cases ht : (w.trk n).type ≠ STREAM_SUB
    · rw [if_pos ht]; exact ih ok w
    · rw [if_neg ht]
      simp only [update_subtitle_nopts, Bool.and_true]; exact ih ok w

/-- C8: for every context and either value of `force_read_ahead`, `update_subtitles` with
`MP_NOPTS_VALUE` returns `true` and the context it was given: no field has changed and no
call of another module was added to the history. -/
theorem update_subtitles_nopts (mpctx : MPContext) (force_read_ahead : Bool) :
    update_subtitles mpctx MP_NOPTS_VALUE force_read_ahead = some (true, mpctx) :=
  update_subtitles_loop_nopts force_read_ahead mpctx.tracks true mpctx

/-- The types of the tracks, and so the subtitle-class tracks, are the same after an
update. -/
theorem updated_trk {w w1 : MPContext} (h : updated w w1) : w1.trk = w.trk := by
  obtain ⟨_, _, _, rfl⟩ := h; rfl

/-- The loop of `update_subtitles` is the iteration of the spec over the subtitle-class
tracks, the results joined by a logical AND to `ok`. -/
theorem update_subtitles_loop_each (pts : double) (f : Bool) (trk0 : Nat → track) :
    ∀ (tracks : List Nat) (ok : Bool) (w : MPContext), w.trk = trk0 →
      update_subtitles_loop pts f tracks ok w =
        (update_each pts f (tracks.filter (fun n => (trk0 n).type = STREAM_SUB)) w).map
          (fun rs => (ok && rs.1.all id, rs.2)) := by
  intro tracks
  induction tracks with
  | nil => intro ok w _; simp [update_subtitles_loop, update_each]
  | cons n rest ih =>
    intro ok w hw
    unfold update_subtitles_loop
    by_cases ht : (trk0 n).type = STREAM_SUB
    · have hf : (n :: rest).filter (fun n => (trk0 n).type = STREAM_SUB) =
          n :: rest.filter (fun n => (trk0 n).type = STREAM_SUB) := by
        simp [List.filter_cons, ht]
      rw [hf, hw]
      simp only [ht, ne_eq, not_true_eq_false, if_false]
      unfold update_each
      cases hu : update_subtitle w pts (some n) f with
      | none => simp
      | some r =>
        have hr : r.2.trk = trk0 := by
          rw [updated_trk (update_subtitle_updated w pts (some n) f r hu), hw]
        simp only
        rw [ih (ok && r.1) r.2 hr]
        cases update_each pts f (rest.filter (fun n => (trk0 n).type = STREAM_SUB)) r.2 with
        | none => simp
        | some rs => simp [Bool.and_assoc]
    · have hf : (n :: rest).filter (fun n => (trk0 n).type = STREAM_SUB) =
          rest.filter (fun n => (trk0 n).type = STREAM_SUB) := by
        simp [List.filter_cons, ht]
      rw [hf, hw]
      simp only [ht, ne_eq, not_false_eq_true, if_true]
      exact ih ok w hw

/-- The iteration of the spec attempts every track of the list: it returns one result for
each of them. -/
theorem update_each_length (pts : double) (f : Bool) :
    ∀ (tracks : List Nat) (w : MPContext) (rs : List Bool × MPContext),
      update_each pts f tracks w = some rs → rs.1.length = tracks.length := by
  intro tracks
  induction tracks with
  | nil => intro w rs h; simp [update_each] at h; subst h; rfl
  | cons n rest ih =>
    intro w rs h
    unfold update_each at h
    cases hu : update_subtitle w pts (some n) f with
    | none => simp [hu] at h
    | some r =>
      simp only [hu] at h
      cases he : update_each pts f rest r.2 with
      | none => simp [he] at h
      | some rs1 =>
        simp only [he, Option.some.injEq] at h
        subst h
        simp [ih r.2 rs1 he]

/-- C9: `update_subtitles` is the iteration of `update_subtitle` over exactly the tracks of
type `STREAM_SUB`, in track-set order, each one run in the context the one before it left;
its result is the logical AND of all their results. Every subtitle track is attempted, also
after an earlier one returned `false`: the iteration returns one result per subtitle track.
Tracks of other types are not in the iteration. -/
theorem update_subtitles_and_of_all (mpctx : MPContext) (video_pts : double)
    (force_read_ahead : Bool) :
    update_subtitles mpctx video_pts force_read_ahead =
      (update_each video_pts force_read_ahead (sub_tracks mpctx) mpctx).map
        (fun rs => (rs.1.all id, rs.2)) ∧
    (∀ rs, update_each video_pts force_read_ahead (sub_tracks mpctx) mpctx = some rs →
      rs.1.length = (sub_tracks mpctx).length) := by
  refine ⟨?_, fun rs h => update_each_length video_pts force_read_ahead _ mpctx rs h⟩
  have := update_subtitles_loop_each video_pts force_read_ahead mpctx.trk mpctx.tracks true
    mpctx rfl
  simpa [update_subtitles, sub_tracks] using this

theorem updated_tracks {w w1 : MPContext} (h : updated w w1) : w1.tracks = w.tracks := by
  obtain ⟨_, _, _, rfl⟩ := h; rfl

theorem updated_dmx {w w1 : MPContext} (h : updated w w1) : w1.dmx = w.dmx := by
  obtain ⟨_, _, _, rfl⟩ := h; rfl

theorem updated_log {w w1 : MPContext} (h : updated w w1) : w.log <+: w1.log := by
  obtain ⟨_, _, evs, rfl⟩ := h; exact List.prefix_append _ _

/-- Handing over the image parameters publishes no text and no forced timestamp. -/
theorem video_params_published (w : MPContext) (d : Nat) :
    (update_subtitle_video_params w d).term_osd_subs = w.term_osd_subs ∧
    (update_subtitle_video_params w d).force_video_pts = w.force_video_pts := by
  unfold update_subtitle_video_params
  cases w.vo_chain with
  | none => exact ⟨rfl, rfl⟩
  | some params =>
    simp only
    split
    · exact ⟨rfl, rfl⟩
    · exact ⟨rfl, rfl⟩

/-- An update of a track with decoder and demuxer returns. -/
theorem update_subtitle_total (w : MPContext) (pts : double) (t : Nat) (f : Bool)
    (h : (w.trk t).d_sub ≠ none → (w.trk t).demuxer ≠ none) :
    ∃ r, update_subtitle w pts (some t) f = some r := by
  cases hd : (w.trk t).d_sub with
  | none => exact ⟨(true, w), by simp [update_subtitle, hd]⟩
  | some d =>
    by_cases hp : pts = MP_NOPTS_VALUE
    · exact ⟨(true, w), by simp [update_subtitle, hd, hp]⟩
    · have htrk := updated_trk (updated_video_params w d)
      cases hdm : (w.trk t).demuxer with
      | none => exact absurd hdm (h (by rw [hd]; simp))
      | some dm =>
        by_cases hr : (update_subtitle_read (update_subtitle_video_params w d) dm d pts f).1
            = false
        · exact ⟨_, by simp [update_subtitle, hd, hp, htrk, hdm, hr]; rfl⟩
        · exact ⟨_, by simp [update_subtitle, hd, hp, htrk, hdm, hr]; rfl⟩

/-- An update whose read needs more input returns `false` right after the read. -/
theorem update_subtitle_read_false (w : MPContext) (pts : double) (t d dm : Nat) (f : Bool)
    (hp : pts ≠ MP_NOPTS_VALUE) (hd : (w.trk t).d_sub = some d)
    (hdm : (w.trk t).demuxer = some dm) (hfr : (w.dmx dm).fully_read = false)
    (hread : (sub_read_packets (update_subtitle_video_params w d) d pts f).1 = false) :
    update_subtitle w pts (some t) f =
      some (false, (sub_read_packets (update_subtitle_video_params w d) d pts f).2) := by
  have htrk := updated_trk (updated_video_params w d)
  have hdmx := updated_dmx (updated_video_params w d)
  simp [update_subtitle, hd, hp, htrk, hdm, update_subtitle_read, hdmx, hfr, hread]

/-- An update whose read is complete returns `true`. -/
theorem update_subtitle_read_true (w : MPContext) (pts : double) (t d dm : Nat) (f : Bool)
    (hd : (w.trk t).d_sub = some d)
    (hdm : (w.trk t).demuxer = some dm) (hfr : (w.dmx dm).fully_read = false)
    (hread : (sub_read_packets (update_subtitle_video_params w d) d pts f).1 = true) :
    ∃ w1, update_subtitle w pts (some t) f = some (true, w1) := by
  have htrk := updated_trk (updated_video_params w d)
  have hdmx := updated_dmx (updated_video_params w d)
  by_cases hp : pts = MP_NOPTS_VALUE
  · subst hp; exact ⟨w, update_subtitle_nopts w (some t) f⟩
  · simp [update_subtitle, hd, hp, htrk, hdm, update_subtitle_read, hdmx, hfr, hread]

theorem update_subtitles_loop_cons (pts : double) (f : Bool) (n : Nat) (rest : List Nat)
    (ok : Bool) (w : MPContext) :
    update_subtitles_loop pts f (n :: rest) ok w =
      if (w.trk n).type ≠ STREAM_SUB then update_subtitles_loop pts f rest ok w
      else
        match update_subtitle w pts (some n) f with
        | none => none
        | some r => update_subtitles_loop pts f rest (ok && r.1) r.2 := by
  rw [update_subtitles_loop]

theorem update_subtitles_loop_append (pts : double) (f : Bool) :
    ∀ (before rest : List Nat) (ok : Bool) (w : MPContext),
      update_subtitles_loop pts f (before ++ rest) ok w =
        match update_subtitles_loop pts f before ok w with
        | none => none
        | some r => update_subtitles_loop pts f rest r.1 r.2 := by
  intro before
  induction before with
  | nil => intro rest ok w; simp [update_subtitles_loop]
  | cons n more ih =>
    intro rest ok w
    simp only [List.cons_append, update_subtitles_loop_cons]
    split
    · exact ih rest ok w
    · cases update_subtitle w pts (some n) f with
      | none => rfl
      | some r => exact ih rest _ _

theorem update_subtitles_loop_updated (pts : double) (f : Bool) :
    ∀ (tracks : List Nat) (ok : Bool) (w : MPContext) (r : Bool × MPContext),
      update_subtitles_loop pts f tracks ok w = some r → updated w r.2 := by
  intro tracks
  induction tracks with
  | nil => intro ok w r h; simp [update_subtitles_loop] at h; subst h; exact updated_refl w
  | cons n rest ih =>
    intro ok w r h
    unfold update_subtitles_loop at h
    split at h
    · exact ih ok w r h
    · cases hu : update_subtitle w pts (some n) f with
      | none => simp [hu] at h
      | some u =>
        simp only [hu] at h
        exact updated_trans (update_subtitle_updated w pts (some n) f u hu) (ih _ _ r h)

/-- Once `ok` is `false` the loop of `update_subtitles` returns `false`, and it returns when
every track that has a decoder has a demuxer. -/
theorem update_subtitles_loop_false (pts : double) (f : Bool) (trk0 : Nat → track) :
    ∀ (tracks : List Nat) (w : MPContext), w.trk = trk0 →
      (∀ n ∈ tracks, (trk0 n).d_sub ≠ none → (trk0 n).demuxer ≠ none) →
      ∃ w1, update_subtitles_loop pts f tracks false w = some (false, w1) := by
  intro tracks
  induction tracks with
  | nil => intro w _ _; exact ⟨w, rfl⟩
  | cons n rest ih =>
    intro w hw hwf
    unfold update_subtitles_loop
    split
    · exact ih w hw (fun m hm => hwf m (List.mem_cons_of_mem _ hm))
    · obtain ⟨r, hr⟩ := update_subtitle_total w pts n f
        (by rw [hw]; exact hwf n (List.mem_cons_self _ _))
      rw [hr]
      simp only [Bool.false_and]
      refine ih r.2 ?_ (fun m hm => hwf m (List.mem_cons_of_mem _ hm))
      rw [updated_trk (update_subtitle_updated w pts (some n) f r hr), hw]

/-- C10: take a timestamp other than the sentinel and a subtitle-class track `t` of the track
set whose decoder `d` reports "needs more input" when `update_subtitles` reaches the track
(in the context `m1` that the updates of the tracks before it have left, `sub_read_packets`
returns `false`). Then the update of that track returns `false` right after the read: the
only call after the image parameters is `sub_read_packets`, and the terminal text and the
forced display timestamp are as before; and `update_subtitles` returns `false`. In every
later context in which the read of that decoder succeeds, the update of the track returns
`true`. -/
theorem update_subtitles_needs_more_input (mpctx m1 : MPContext) (video_pts : double)
    (force_read_ahead ok1 : Bool) (before after : List Nat) (t d dm : Nat)
    (hpts : video_pts ≠ MP_NOPTS_VALUE)
    (htracks : mpctx.tracks = before ++ t :: after)
    (hafter : ∀ n ∈ after, (mpctx.trk n).d_sub ≠ none → (mpctx.trk n).demuxer ≠ none)
    (hbefore : update_subtitles_loop video_pts force_read_ahead before true mpctx =
      some (ok1, m1))
    (htype : (mpctx.trk t).type = STREAM_SUB)
    (hdec : (mpctx.trk t).d_sub = some d)
    (hdm : (mpctx.trk t).demuxer = some dm)
    (hfr : (mpctx.dmx dm).fully_read = false)
    (hread : (sub_read_packets (update_subtitle_video_params m1 d) d video_pts
      force_read_ahead).1 = false) :
    (∃ m2, update_subtitle m1 video_pts (some t) force_read_ahead = some (false, m2) ∧
      m2.log = (update_subtitle_video_params m1 d).log ++
        [Event.sub_read_packets d video_pts force_read_ahead] ∧
      m2.term_osd_subs = m1.term_osd_subs ∧ m2.force_video_pts = m1.force_video_pts) ∧
    (∃ m3, update_subtitles mpctx video_pts force_read_ahead = some (false, m3)) ∧
    (∀ (later : MPContext) (f : Bool), (later.trk t).d_sub = some d →
      (later.trk t).demuxer = some dm → (later.dmx dm).fully_read = false →
      (sub_read_packets (update_subtitle_video_params later d) d video_pts f).1 = true →
      ∃ m4, update_subtitle later video_pts (some t) f = some (true, m4)) := by
  have hup := update_subtitles_loop_updated video_pts force_read_ahead before true mpctx _ hbefore
  have htrk : m1.trk = mpctx.trk := updated_trk hup
  have hdmx : m1.dmx = mpctx.dmx := updated_dmx hup
  have hstep := update_subtitle_read_false m1 video_pts t d dm force_read_ahead hpts
    (by rw [htrk]; exact hdec) (by rw [htrk]; exact hdm) (by rw [hdmx]; exact hfr) hread
  refine ⟨⟨_, hstep, ?_, ?_, ?_⟩, ?_, ?_⟩
  · rfl
  · exact (video_params_published m1 d).1
  · exact (video_params_published m1 d).2
  · unfold update_subtitles
    rw [htracks, update_subtitles_loop_append, hbefore]
    simp only
    rw [update_subtitles_loop_cons, htrk]
    simp only [htype, ne_eq, not_true_eq_false, if_false, hstep, Bool.and_false]
    refine update_subtitles_loop_false video_pts force_read_ahead mpctx.trk after _ ?_ hafter
    simp only [sub_read_packets, emit]
    rw [updated_trk (updated_video_params m1 d), htrk]
  · intro later f h1 h2 h3 h4
    exact update_subtitle_read_true later video_pts t d dm f h1 h2 h3 h4

/-- C10 at `ctx_two` and timestamp 5: track 0 is the first track, its decoder 7 needs more
input; in `ctx_two_later`, after the wait, its read succeeds. -/
theorem update_subtitles_needs_more_input_witness :
    (∃ m2, update_subtitle ctx_two 5 (some 0) false = some (false, m2) ∧
      m2.log = (update_subtitle_video_params ctx_two 7).log ++
        [Event.sub_read_packets 7 5 false] ∧
      m2.term_osd_subs = ctx_two.term_osd_subs ∧
      m2.force_video_pts = ctx_two.force_video_pts) ∧
    (∃ m3, update_subtitles ctx_two 5 false = some (false, m3)) ∧
    (∃ m4, update_subtitle ctx_two_later 5 (some 0) false = some (true, m4)) :=
  have h := update_subtitles_needs_more_input ctx_two ctx_two 5 false true [] [2, 1] 0 7 1
    (by decide) rfl (by decide) rfl rfl rfl rfl rfl rfl
  ⟨h.1, h.2.1, h.2.2 ctx_two_later false rfl rfl rfl rfl⟩

/-! ## Creation and reinitialisation: properties -/

/-- C6, as stated, fails: track 0 of `ctx_no_stream` has no stream. `reinit_sub` returns
without any call, so `error_on_track` is not called for the track. -/
theorem reinit_sub_no_stream_not_reported :
    (ctx_no_stream.trk 0).stream = none ∧
    (reinit_sub 1 ctx_no_stream (some 0)).1 = Outcome.returned ∧
    (reinit_sub 1 ctx_no_stream (some 0)).2.log = [] ∧
    Event.error_on_track 0 ∉ (reinit_sub 1 ctx_no_stream (some 0)).2.log := by
  decide

/-- C6, amended: for every track that has no stream, creating its decoder fails
(`init_subdec` returns `false`) without any call and without a change, so no decoder handle is
set; and `reinit_sub` returns at its first check, before it comes to create the decoder: the
context is as it was and `error_on_track` is not called. -/
theorem init_subdec_no_stream (fuel : Nat) (mpctx : MPContext) (t : Nat)
    (hs : (mpctx.trk t).stream = none) :
    ((mpctx.trk t).d_sub = none → init_subdec mpctx t = some (false, mpctx)) ∧
    reinit_sub fuel mpctx (some t) = (Outcome.returned, mpctx) := by
  constructor
  · intro hd
    unfold init_subdec
    rw [hd, hs]
    cases (mpctx.trk t).demuxer <;> rfl
  · simp [reinit_sub, hs]

/-- The amended C6 at `ctx_no_stream`. -/
theorem init_subdec_no_stream_witness :
    (ctx_no_stream.trk 0).stream = none ∧
    ((ctx_no_stream.trk 0).d_sub = none →
      init_subdec ctx_no_stream 0 = some (false, ctx_no_stream)) ∧
    reinit_sub 1 ctx_no_stream (some 0) = (Outcome.returned, ctx_no_stream) :=
  ⟨by decide, init_subdec_no_stream 1 ctx_no_stream 0 (by decide)⟩


theorem updated_current_track {w w1 : MPContext} (h : updated w w1) :
    w1.current_track = w.current_track := by
  obtain ⟨_, _, _, rfl⟩ := h; rfl

theorem updated_decs {w w1 : MPContext} (h : updated w w1) : w1.decs = w.decs := by
  obtain ⟨_, _, _, rfl⟩ := h; rfl

theorem updated_osd_sub {w w1 : MPContext} (h : updated w w1) : w1.osd_sub = w.osd_sub := by
  obtain ⟨_, _, _, rfl⟩ := h; rfl

/-- The blocking loop leaves everything but the terminal text, the forced timestamp and the
call history as it is, however it ends. -/
theorem reinit_sub_wait_updated :
    ∀ (fuel : Nat) (w : MPContext) (t : Nat), updated w (reinit_sub_wait fuel w t).2 := by
  intro fuel
  induction fuel with
  | zero => intro w t; exact updated_refl w
  | succ k ih =>
    intro w t
    unfold reinit_sub_wait
    cases hu : update_subtitle w w.playback_pts (some t) true with
    | none => exact updated_refl w
    | some r =>
      have h1 := update_subtitle_updated w w.playback_pts (some t) true r hu
      simp only
      split
      · exact h1
      · exact updated_trans h1 (updated_trans (updated_emit _ _) (ih _ t))

/-- After `sub_select` and the publication in the resolved slot, the rest of `reinit_sub`
leaves everything but the terminal text, the forced timestamp and the call history as it
is. -/
theorem reinit_sub_show_updated (fuel : Nat) (m : MPContext) (t st : Nat) (order : Int)
    (d : Nat) :
    ∃ m4, (m4 = sub_select m d true ∨ m4 = osd_set_sub (sub_select m d true) order (some d)) ∧
      updated m4 (reinit_sub_show fuel m t st order d).2 := by
  have key : ∀ m4 : MPContext, updated m4
      (if m4.playback_initialized then
        if m4.paused then
          match (reinit_sub_wait fuel (demux_set_stream_wakeup_cb m4 st true) t).1 with
          | .returned =>
            MP_VERBOSE (demux_set_stream_wakeup_cb
              (reinit_sub_wait fuel (demux_set_stream_wakeup_cb m4 st true) t).2 st false) t
          | o => (o, (reinit_sub_wait fuel (demux_set_stream_wakeup_cb m4 st true) t).2)
        else
          match update_subtitle m4 m4.playback_pts (some t) true with
          | none => (Outcome.crashed, m4)
          | some u => MP_VERBOSE u.2 t
      else MP_VERBOSE m4 t).2 := by
    intro m4
    have hw := updated_trans (updated_emit m4 (Event.demux_set_stream_wakeup_cb st true))
      (reinit_sub_wait_updated fuel (demux_set_stream_wakeup_cb m4 st true) t)
    split
    · split
      · split
        · rw [MP_VERBOSE_snd]; exact updated_trans hw (updated_emit _ _)
        · exact hw
      · cases hu : update_subtitle m4 m4.playback_pts (some t) true with
        | none => exact updated_refl m4
        | some u =>
          show updated m4 (MP_VERBOSE u.2 t).2
          rw [MP_VERBOSE_snd]; exact update_subtitle_updated m4 _ _ _ u hu
    · rw [MP_VERBOSE_snd]; exact updated_refl m4
  unfold reinit_sub_show
  simp only
  split
  · exact ⟨_, Or.inr rfl, key _⟩
  · exact ⟨_, Or.inl rfl, key _⟩

/-- What the rest of `reinit_sub` keeps once the track has its decoder: the tracks, the
selection table, the order every decoder is bound to and every OSD slot but the resolved
one; the call history grows. -/
theorem reinit_sub_show_frame (fuel : Nat) (m : MPContext) (t st : Nat) (order : Int)
    (d : Nat) :
    (reinit_sub_show fuel m t st order d).2.trk = m.trk ∧
    (reinit_sub_show fuel m t st order d).2.current_track = m.current_track ∧
    (∀ x, ((reinit_sub_show fuel m t st order d).2.decs x).order = (m.decs x).order) ∧
    (∀ o, o ≠ order → (reinit_sub_show fuel m t st order d).2.osd_sub o = m.osd_sub o) ∧
    m.log <+: (reinit_sub_show fuel m t st order d).2.log := by
  obtain ⟨m4, hm4, hup⟩ := reinit_sub_show_updated fuel m t st order d
  have hdecs : ∀ x, ((sub_select m d true).decs x).order = (m.decs x).order := by
    intro x
    simp only [sub_select, emit]
    by_cases hx : x = d
    · subst hx; simp
    · simp [Function.update_noteq hx]
  have hlog : m.log <+: (sub_select m d true).log := List.prefix_append _ _
  rw [updated_trk hup, updated_current_track hup, updated_decs hup, updated_osd_sub hup]
  rcases hm4 with h | h
  · subst h
    exact ⟨rfl, rfl, hdecs, fun _ _ => rfl, hlog.trans (updated_log hup)⟩
  · subst h
    refine ⟨rfl, rfl, hdecs, fun o ho => ?_, ?_⟩
    · simp [osd_set_sub, emit, sub_select, Function.update_noteq ho]
    · refine List.IsPrefix.trans ?_ (updated_log hup)
      exact hlog.trans (List.prefix_append _ _)

/-- The attachments depend on the track list, on the demuxer of every track and on the
demuxers only. -/
theorem get_all_attachments_loop_congr (w w1 : MPContext) (hdmx : w1.dmx = w.dmx)
    (hdem : ∀ n, (w1.trk n).demuxer = (w.trk n).demuxer) :
    ∀ (tracks : List Nat) (prev : Option Nat) (list : List demux_attachment),
      get_all_attachments_loop w1 tracks prev list =
        get_all_attachments_loop w tracks prev list := by
  intro tracks
  induction tracks with
  | nil => intro prev list; rfl
  | cons t rest ih =>
    intro prev list
    simp only [get_all_attachments_loop, hdem, hdmx, ih]

theorem get_all_attachments_congr (w w1 : MPContext) (htracks : w1.tracks = w.tracks)
    (hdmx : w1.dmx = w.dmx) (hdem : ∀ n, (w1.trk n).demuxer = (w.trk n).demuxer) :
    get_all_attachments w1 = get_all_attachments w := by
  unfold get_all_attachments
  rw [htracks]
  exact get_all_attachments_loop_congr w w1 hdmx hdem _ _ _

/-- What `init_subdec` does for a track without decoder that has a demuxer and a stream: it
calls `sub_create` with the stream, the attachments and the resolved order, and returns what
the creation gave. -/
theorem init_subdec_creates (w : MPContext) (t dm st : Nat)
    (hd : (w.trk t).d_sub = none) (hdm : (w.trk t).demuxer = some dm)
    (hs : (w.trk t).stream = some st) :
    ∃ r, init_subdec w t = some r ∧
      r.1 = w.oracle.sub_create_ok w.log st ∧
      (w.log ++ [Event.sub_create st (get_all_attachments w) (get_order w (some t))]) <+:
        r.2.log ∧
      r.2.osd_sub = w.osd_sub ∧ r.2.current_track = w.current_track ∧
      (r.1 = true → (r.2.trk t).d_sub = some w.next_dec ∧
        (r.2.decs w.next_dec).order = get_order w (some t)) ∧
      (r.1 = false → (r.2.trk t).d_sub = none) := by
  by_cases hok : w.oracle.sub_create_ok w.log st = true
  · refine ⟨_, by simp [init_subdec, hd, hdm, hs, sub_create, hok, set_d_sub, emit]; rfl, ?_⟩
    simp [hok, sub_control_set_video_def_fps, emit]
  · simp only [Bool.not_eq_true] at hok
    refine ⟨_, by simp [init_subdec, hd, hdm, hs, sub_create, hok, set_d_sub, emit]; rfl, ?_⟩
    simp [hok]


/-- The first block of `reinit_sub` keeps the selection table, and a decoder that it leaves
to the track is bound to the resolved order. -/
theorem reinit_sub_stale_bound (mpctx : MPContext) (t : Nat) (order : Int) :
    (reinit_sub_stale mpctx t order).current_track = mpctx.current_track ∧
    (∀ d, ((reinit_sub_stale mpctx t order).trk t).d_sub = some d →
      ((reinit_sub_stale mpctx t order).decs d).order = order) := by
  unfold reinit_sub_stale
  cases hd : (mpctx.trk t).d_sub with
  | none =>
    refine ⟨rfl, fun d h => ?_⟩
    simp only at h
    rw [hd] at h
    exact absurd h (by simp)
  | some d0 =>
    simp only [sub_get_order]
    by_cases ho : order ≠ (mpctx.decs d0).order
    · rw [if_pos ho]
      have hd1 : ((emit mpctx (Event.sub_get_order d0)).trk t).d_sub = some d0 := hd
      rw [uninit_sub_destroy_some _ t d0 hd1]
      refine ⟨rfl, fun d h => ?_⟩
      simp at h
    · rw [if_neg ho]
      refine ⟨rfl, fun d h => ?_⟩
      have h1 : (mpctx.trk t).d_sub = some d := h
      rw [hd] at h1
      simp only [Option.some.injEq] at h1
      subst h1
      simp only [ne_eq, not_not] at ho
      exact ho.symm

/-- The creation block of `reinit_sub` keeps the selection table; a decoder it leaves to the
track is the one the track had or a new one bound to the resolved order; after a failure the
track has no decoder. -/
theorem reinit_sub_create_bound (m1 : MPContext) (t : Nat) (r : Bool × MPContext)
    (h : reinit_sub_create m1 t = some r)
    (hb : ∀ d, (m1.trk t).d_sub = some d → (m1.decs d).order = get_order m1 (some t)) :
    r.2.current_track = m1.current_track ∧
    (∀ d, (r.2.trk t).d_sub = some d → (r.2.decs d).order = get_order m1 (some t)) ∧
    (r.1 = false → (r.2.trk t).d_sub = none) := by
  unfold reinit_sub_create at h
  cases hd : (m1.trk t).d_sub with
  | some d0 =>
    simp only [hd, Option.some.injEq] at h
    subst h
    exact ⟨rfl, hb, fun hf => absurd hf (by simp)⟩
  | none =>
    simp only [hd] at h
    cases hdm : (m1.trk t).demuxer with
    | none =>
      simp only [init_subdec, hd, hdm, Option.some.injEq] at h
      subst h
      exact ⟨rfl, fun d h => by simp [hd] at h, fun _ => hd⟩
    | some dm =>
      cases hs : (m1.trk t).stream with
      | none =>
        simp only [init_subdec, hd, hdm, hs, Option.some.injEq] at h
        subst h
        exact ⟨rfl, fun d h => by simp [hd] at h, fun _ => hd⟩
      | some st =>
        obtain ⟨r1, hr1, hok, _, _, hct, htrue, hfalse⟩ :=
          init_subdec_creates m1 t dm st hd hdm hs
        rw [hr1, Option.some.injEq] at h
        subst h
        refine ⟨hct, fun d hdd => ?_, hfalse⟩
        cases hr : r1.1 with
        | false => rw [hfalse hr] at hdd; exact absurd hdd (by simp)
        | true =>
          obtain ⟨h1, h2⟩ := htrue hr
          rw [h1, Option.some.injEq] at hdd
          subst hdd
          exact h2

/-- C3 as stated, for every context and track, fails: track 0 of `ctx_moved_no_stream` has
no stream and owns decoder 7, which is bound to order 0, while the selection table holds the
track in slot 1. `reinit_sub` returns at its first check with the context as it is: the
track still has its decoder, and the order the decoder is bound to, 0, is not the resolved
order, 1. -/
theorem reinit_sub_no_stream_stale_order :
    (ctx_moved_no_stream.trk 0).stream = none ∧
    (∀ fuel, reinit_sub fuel ctx_moved_no_stream (some 0) =
      (Outcome.returned, ctx_moved_no_stream)) ∧
    (ctx_moved_no_stream.trk 0).d_sub = some 7 ∧
    (sub_get_order ctx_moved_no_stream 7).1 = 0 ∧
    get_order ctx_moved_no_stream (some 0) = 1 :=
  ⟨rfl, fun _ => rfl, rfl, by decide, by decide⟩

/-- C3 (amended): take a track that, if it owns a decoder, has a stream of type `STREAM_SUB`
(decoders are created by `reinit_sub` behind its check for such a stream only). However
`reinit_sub` ends, and so whenever it returns, a decoder the track has afterwards is bound
to the freshly resolved order: `sub_get_order(track->d_sub) == get_order(mpctx, track)`, and
the resolved order is the same before and after the call. `sub_create` binds the order it is
given and no call changes the selection table: that is how the other modules are
modelled. -/
theorem reinit_sub_bound_order (fuel : Nat) (mpctx w1 : MPContext) (t d : Nat) (o : Outcome)
    (hinv : (mpctx.trk t).d_sub ≠ none →
      ∃ st, (mpctx.trk t).stream = some st ∧ (mpctx.shs st).type = STREAM_SUB)
    (hret : reinit_sub fuel mpctx (some t) = (o, w1))
    (hd : (w1.trk t).d_sub = some d) :
    (sub_get_order w1 d).1 = get_order w1 (some t) ∧
    get_order w1 (some t) = get_order mpctx (some t) := by
  have hguard : (∀ st, (mpctx.trk t).stream = some st → (mpctx.shs st).type ≠ STREAM_SUB) →
      (mpctx.trk t).d_sub = none := by
    intro hno
    by_contra hne
    obtain ⟨st, h1, h2⟩ := hinv hne
    exact hno st h1 h2
  have hgoal : ∀ w : MPContext, w.current_track = mpctx.current_track →
      (w.decs d).order = get_order mpctx (some t) →
      (sub_get_order w d).1 = get_order w (some t) ∧
        get_order w (some t) = get_order mpctx (some t) := by
    intro w hc ho
    rw [get_order_congr mpctx w (some t) hc]
    exact ⟨ho, rfl⟩
  unfold reinit_sub at hret
  simp only at hret
  cases hs : (mpctx.trk t).stream with
  | none =>
    simp only [hs, Prod.mk.injEq] at hret
    obtain ⟨_, rfl⟩ := hret
    rw [hguard (fun st h => by rw [hs] at h; exact absurd h (by simp))] at hd
    exact absurd hd (by simp)
  | some st =>
    simp only [hs] at hret
    by_cases hty : (mpctx.shs st).type ≠ STREAM_SUB
    · rw [if_pos hty] at hret
      simp only [Prod.mk.injEq] at hret
      obtain ⟨_, rfl⟩ := hret
      rw [hguard (fun st1 h => by
        rw [hs, Option.some.injEq] at h; subst h; exact hty)] at hd
      exact absurd hd (by simp)
    · rw [if_neg hty] at hret
      obtain ⟨hc1, hb1⟩ := reinit_sub_stale_bound mpctx t (get_order mpctx (some t))
      have hg1 := get_order_congr mpctx _ (some t) hc1
      cases hcr : reinit_sub_create (reinit_sub_stale mpctx t (get_order mpctx (some t))) t with
      | none =>
        simp only [hcr, Prod.mk.injEq] at hret
        obtain ⟨_, rfl⟩ := hret
        exact hgoal _ hc1 (hb1 d hd)
      | some r =>
        simp only [hcr] at hret
        obtain ⟨hc2, hb2, hfail⟩ := reinit_sub_create_bound _ t r hcr
          (fun x hx => by rw [hg1]; exact hb1 x hx)
        by_cases hr : r.1 = false
        · rw [if_pos hr] at hret
          simp only [Prod.mk.injEq] at hret
          obtain ⟨_, rfl⟩ := hret
          have : (r.2.trk t).d_sub = some d := hd
          rw [hfail hr] at this
          exact absurd this (by simp)
        · rw [if_neg hr] at hret
          cases hdd : (r.2.trk t).d_sub with
          | none =>
            simp only [hdd, Prod.mk.injEq] at hret
            obtain ⟨_, rfl⟩ := hret
            rw [hdd] at hd
            exact absurd hd (by simp)
          | some d1 =>
            simp only [hdd] at hret
            obtain ⟨f1, f2, f3, _, _⟩ :=
              reinit_sub_show_frame fuel r.2 t st (get_order mpctx (some t)) d1
            rw [hret] at f1 f2 f3
            simp only at f1 f2 f3
            refine hgoal w1 (by rw [f2, hc2, hc1]) ?_
            rw [f3]
            rw [f1] at hd
            rw [hb2 d hd, hg1]

/-- C3 at `ctx_moved`: `reinit_sub` returns, track 0 has the new decoder 100, and it is bound
to order 1, the order `get_order` resolves. -/
theorem reinit_sub_bound_order_witness :
    reinit_sub 0 ctx_moved (some 0) = (Outcome.returned, (reinit_sub 0 ctx_moved (some 0)).2) ∧
    (((reinit_sub 0 ctx_moved (some 0)).2).trk 0).d_sub = some 100 ∧
    (sub_get_order (reinit_sub 0 ctx_moved (some 0)).2 100).1 =
      get_order (reinit_sub 0 ctx_moved (some 0)).2 (some 0) ∧
    get_order (reinit_sub 0 ctx_moved (some 0)).2 (some 0) = get_order ctx_moved (some 0) :=
  ⟨rfl, by decide,
    reinit_sub_bound_order 0 ctx_moved _ 0 100 Outcome.returned
      (fun _ => ⟨1, by decide, by decide⟩) rfl (by decide)⟩


/-- C2, as stated, fails: track 0 of `ctx_moved` owns decoder 7 bound to order 0, and the
selection table holds it in slot 1 and not in slot 0. `reinit_sub` destroys the decoder and
creates one bound to order 1, but the slot it unpublishes is slot 1: `osd_set_sub` is never
called with slot 0, and OSD slot 0 still holds the destroyed decoder 7. -/
theorem reinit_sub_moved_unpublishes_slot_1 :
    (ctx_moved.trk 0).d_sub = some 7 ∧ (ctx_moved.decs 7).order = 0 ∧
    ctx_moved.current_track 1 STREAM_SUB = some 0 ∧
    ctx_moved.current_track 0 STREAM_SUB ≠ some 0 ∧
    (reinit_sub 0 ctx_moved (some 0)).2.log =
      [Event.sub_get_order 7, Event.sub_reset 7, Event.sub_set_play_dir 7 1,
        Event.term_osd_set_subs none, Event.sub_select 7 false, Event.sub_destroy 7,
        Event.osd_set_sub 1 none, Event.sub_create 1 [] 1,
        Event.sub_control_set_video_def_fps 100 25, Event.sub_select 100 true,
        Event.osd_set_sub 1 (some 100)] ∧
    Event.osd_set_sub 0 none ∉ (reinit_sub 0 ctx_moved (some 0)).2.log ∧
    (reinit_sub 0 ctx_moved (some 0)).2.osd_sub 0 = some 7 := by
  decide

/-- C2, amended: for every subtitle track (with stream and demuxer) that owns a decoder `d`
bound to order 0 and that the selection table holds in slot 1 and not in slot 0, `reinit_sub`
destroys the decoder, unpublishes the slot `get_order` resolves, which is slot 1
(`osd_set_sub` with slot 1 and `NULL`), and calls `sub_create` with order 1: these are its
first calls, however the call ends. OSD slot 0 is left as it was. When `sub_create` gives a
decoder, the track owns it afterwards and it is bound to order 1. -/
theorem reinit_sub_moved (fuel : Nat) (mpctx : MPContext) (t st dm d : Nat)
    (hs : (mpctx.trk t).stream = some st) (hty : (mpctx.shs st).type = STREAM_SUB)
    (hdm : (mpctx.trk t).demuxer = some dm)
    (hd : (mpctx.trk t).d_sub = some d) (hbound : (mpctx.decs d).order = 0)
    (h0 : mpctx.current_track 0 STREAM_SUB ≠ some t)
    (h1 : mpctx.current_track 1 STREAM_SUB = some t) :
    (mpctx.log ++
      [Event.sub_get_order d, Event.sub_reset d, Event.sub_set_play_dir d mpctx.play_dir,
        Event.term_osd_set_subs none, Event.sub_select d false, Event.sub_destroy d,
        Event.osd_set_sub 1 none, Event.sub_create st (get_all_attachments mpctx) 1]) <+:
      (reinit_sub fuel mpctx (some t)).2.log ∧
    (reinit_sub fuel mpctx (some t)).2.osd_sub 0 = mpctx.osd_sub 0 ∧
    (mpctx.oracle.sub_create_ok
        (mpctx.log ++
          [Event.sub_get_order d, Event.sub_reset d, Event.sub_set_play_dir d mpctx.play_dir,
            Event.term_osd_set_subs none, Event.sub_select d false, Event.sub_destroy d,
            Event.osd_set_sub 1 none]) st = true →
      ((reinit_sub fuel mpctx (some t)).2.trk t).d_sub = some mpctx.next_dec ∧
      ((reinit_sub fuel mpctx (some t)).2.decs mpctx.next_dec).order = 1) := by
  have hord : get_order mpctx (some t) = 1 := by
    rw [get_order_eq, if_neg h0, if_pos h1]
  -- the first block: the decoder is stale and is destroyed
  have hd1 : ((emit mpctx (Event.sub_get_order d)).trk t).d_sub = some d := hd
  have hm1 : reinit_sub_stale mpctx t 1 =
      uninit_sub (emit mpctx (Event.sub_get_order d)) (some t) true := by
    simp [reinit_sub_stale, hd, sub_get_order, hbound]
  rw [uninit_sub_destroy_some _ t d hd1] at hm1
  have hord1 : get_order (emit mpctx (Event.sub_get_order d)) (some t) = 1 := by
    exact (get_order_congr mpctx (emit mpctx (Event.sub_get_order d)) (some t) rfl).trans hord
  rw [hord1] at hm1
  -- the creation block
  have e1 : ((reinit_sub_stale mpctx t 1).trk t).d_sub = none := by rw [hm1]; simp
  have e2 : ((reinit_sub_stale mpctx t 1).trk t).demuxer = some dm := by
    rw [hm1]; simp [emit, hdm]
  have e3 : ((reinit_sub_stale mpctx t 1).trk t).stream = some st := by
    rw [hm1]; simp [emit, hs]
  have e4 : get_order (reinit_sub_stale mpctx t 1) (some t) = 1 := by
    exact (get_order_congr mpctx (reinit_sub_stale mpctx t 1) (some t)
      (by rw [hm1]; rfl)).trans hord
  have e5 : get_all_attachments (reinit_sub_stale mpctx t 1) = get_all_attachments mpctx := by
    refine get_all_attachments_congr mpctx _ (by rw [hm1]; rfl) (by rw [hm1]; rfl) ?_
    intro n
    rw [hm1]
    by_cases hn : n = t
    · subst hn; simp [emit]
    · simp [emit, Function.update_noteq hn]
  have e6 : (reinit_sub_stale mpctx t 1).log =
      mpctx.log ++
        [Event.sub_get_order d, Event.sub_reset d, Event.sub_set_play_dir d mpctx.play_dir,
          Event.term_osd_set_subs none, Event.sub_select d false, Event.sub_destroy d,
          Event.osd_set_sub 1 none] := by
    rw [hm1]; simp [emit]
  have e7 : (reinit_sub_stale mpctx t 1).osd_sub 0 = mpctx.osd_sub 0 := by
    rw [hm1]; simp [emit]
  have e8 : (reinit_sub_stale mpctx t 1).next_dec = mpctx.next_dec := by rw [hm1]; rfl
  have e9 : (reinit_sub_stale mpctx t 1).oracle = mpctx.oracle := by rw [hm1]; rfl
  obtain ⟨r, hr, hok, hlog, hosd, _, htrue, hfalse⟩ :=
    init_subdec_creates (reinit_sub_stale mpctx t 1) t dm st e1 e2 e3
  rw [e4, e5, e6] at hlog
  rw [e4, e8] at htrue
  rw [e6, e9] at hok
  have hcr : reinit_sub_create (reinit_sub_stale mpctx t 1) t = some r := by
    unfold reinit_sub_create; rw [e1]; exact hr
  have hlog1 : (mpctx.log ++
      [Event.sub_get_order d, Event.sub_reset d, Event.sub_set_play_dir d mpctx.play_dir,
        Event.term_osd_set_subs none, Event.sub_select d false, Event.sub_destroy d,
        Event.osd_set_sub 1 none, Event.sub_create st (get_all_attachments mpctx) 1]) <+:
      r.2.log := by
    simpa using hlog
  have hrun : reinit_sub fuel mpctx (some t) =
      if r.1 = false then (Outcome.returned, error_on_track r.2 t)
      else
        match (r.2.trk t).d_sub with
        | none => (Outcome.crashed, r.2)
        | some d1 => reinit_sub_show fuel r.2 t st 1 d1 := by
    simp [reinit_sub, hs, hty, hord, hcr]
  rw [hrun]
  cases hr1 : r.1 with
  | false =>
    simp only [if_true]
    refine ⟨hlog1.trans (List.prefix_append _ _), ?_, fun hc => ?_⟩
    · show r.2.osd_sub 0 = mpctx.osd_sub 0
      rw [hosd, e7]
    · rw [hr1] at hok
      rw [← hok] at hc
      exact absurd hc (by simp)
  | true =>
    obtain ⟨hnew, hnord⟩ := htrue hr1
    simp only [Bool.true_eq_false, if_false, hnew]
    obtain ⟨f1, _, f3, f4, f5⟩ := reinit_sub_show_frame fuel r.2 t st 1 mpctx.next_dec
    refine ⟨hlog1.trans f5, ?_, fun _ => ⟨?_, ?_⟩⟩
    · rw [f4 0 (by decide), hosd, e7]
    · rw [f1]; exact hnew
    · rw [f3]; exact hnord

/-- The amended C2 at `ctx_moved`: decoder 7 is destroyed, slot 1 is unpublished, the new
decoder 100 is bound to order 1. -/
theorem reinit_sub_moved_witness :
    (ctx_moved.log ++
      [Event.sub_get_order 7, Event.sub_reset 7, Event.sub_set_play_dir 7 ctx_moved.play_dir,
        Event.term_osd_set_subs none, Event.sub_select 7 false, Event.sub_destroy 7,
        Event.osd_set_sub 1 none, Event.sub_create 1 (get_all_attachments ctx_moved) 1]) <+:
      (reinit_sub 0 ctx_moved (some 0)).2.log ∧
    (reinit_sub 0 ctx_moved (some 0)).2.osd_sub 0 = ctx_moved.osd_sub 0 ∧
    ((reinit_sub 0 ctx_moved (some 0)).2.trk 0).d_sub = some ctx_moved.next_dec ∧
    ((reinit_sub 0 ctx_moved (some 0)).2.decs ctx_moved.next_dec).order = 1 :=
  have h := reinit_sub_moved 0 ctx_moved 0 1 1 7 (by decide) (by decide) (by decide)
    (by decide) (by decide) (by decide) (by decide)
  ⟨h.1, h.2.1, h.2.2 (by decide)⟩

/-! ## Attachment Aggregator: distinct documents -/

/-- The loop of `get_all_attachments` over tracks of pairwise distinct demuxers, none of them
`prev_demuxer`: the attachments of every demuxer are appended, in track order. -/
theorem get_all_attachments_loop_distinct (mpctx : MPContext) :
    ∀ (tracks : List Nat) (prev : Option Nat) (list : List demux_attachment),
      (∀ p, prev = some p → p ∉ track_demuxers mpctx tracks) →
      (track_demuxers mpctx tracks).Nodup →
      get_all_attachments_loop mpctx tracks prev list =
        list ++ (track_demuxers mpctx tracks).flatMap
          (fun d => (mpctx.dmx d).attachments.map copy_attachment) := by
  intro tracks
  induction tracks with
  | nil => intro prev list _ _; simp [get_all_attachments_loop, track_demuxers]
  | cons t rest ih =>
    intro prev list hprev hnd
    cases hd : (mpctx.trk t).demuxer with
    | none =>
      have hdm : track_demuxers mpctx (t :: rest) = track_demuxers mpctx rest := by
        simp [track_demuxers, List.filterMap_cons, hd]
      rw [hdm] at hprev hnd ⊢
      simp only [get_all_attachments_loop, hd]
      exact ih prev list hprev hnd
    | some d =>
      have hdm : track_demuxers mpctx (t :: rest) = d :: track_demuxers mpctx rest := by
        simp [track_demuxers, List.filterMap_cons, hd]
      rw [hdm] at hprev hnd ⊢
      have hp : prev ≠ some d := fun h => hprev d h (List.mem_cons_self _ _)
      simp only [get_all_attachments_loop, hd, if_neg hp]
      rw [ih (some d) _ (fun p hpe => by
          simp only [Option.some.injEq] at hpe
          subst hpe
          exact (List.nodup_cons.mp hnd).1) (List.nodup_cons.mp hnd).2]
      simp [List.flatMap_cons, List.append_assoc]

/-- C14: for every track set whose tracks with a demuxer reference pairwise distinct
demuxers, `get_all_attachments` returns the concatenation, in track-set order, of the
attachment lists of these demuxers, each in attachment order; tracks without a demuxer have
no part in it. Every entry is a copy with the name, the type and the data size of the
original and with its first `data_size` bytes of data, so it equals the original when the
data buffer has `data_size` bytes. The function returns a list and nothing else: there is no
track or demuxer field it could change. -/
theorem get_all_attachments_distinct (mpctx : MPContext)
    (h : (track_demuxers mpctx mpctx.tracks).Nodup) :
    get_all_attachments mpctx =
      (track_demuxers mpctx mpctx.tracks).flatMap
        (fun d => (mpctx.dmx d).attachments.map copy_attachment) ∧
    (∀ att : demux_attachment,
      (copy_attachment att).name = att.name ∧ (copy_attachment att).type = att.type ∧
      (copy_attachment att).data = att.data.take att.data_size ∧
      (copy_attachment att).data_size = att.data_size ∧
      (att.data.length = att.data_size → copy_attachment att = att)) := by
  constructor
  · have := get_all_attachments_loop_distinct mpctx mpctx.tracks none []
      (fun p hp => by simp at hp) h
    simpa [get_all_attachments] using this
  · intro att
    refine ⟨rfl, rfl, rfl, rfl, fun hl => ?_⟩
    cases att with
    | mk name type data data_size =>
      simp only at hl
      simp [copy_attachment, talloc_strdup, talloc_memdup, ← hl]

/-- C14 at `ctx_distinct`: the attachment of demuxer 1, then the two of demuxer 3. -/
theorem get_all_attachments_distinct_witness :
    (track_demuxers ctx_distinct ctx_distinct.tracks).Nodup ∧
    get_all_attachments ctx_distinct = [font_a, font_a, font_a] :=
  ⟨by decide,
    (get_all_attachments_distinct ctx_distinct (by decide)).1.trans (by decide)⟩

/-! ## The blocks of an update -/

theorem steps_updated {P : Event → Bool} {w w1 : MPContext} (h : steps P w w1) :
    updated w w1 := by
  obtain ⟨text, pts, evs, h1, _⟩ := h
  exact ⟨text, pts, evs, h1⟩

theorem steps_refl (P : Event → Bool) (w : MPContext) : steps P w w :=
  ⟨w.term_osd_subs, w.force_video_pts, [], by simp, by simp⟩

theorem steps_trans {P : Event → Bool} {w w1 w2 : MPContext} (h1 : steps P w w1)
    (h2 : steps P w1 w2) : steps P w w2 := by
  obtain ⟨t1, p1, e1, rfl, he1⟩ := h1
  obtain ⟨t2, p2, e2, rfl, he2⟩ := h2
  refine ⟨t2, p2, e1 ++ e2, by simp, fun e he => ?_⟩
  rcases List.mem_append.mp he with h | h
  · exact he1 e h
  · exact he2 e h

theorem steps_mono {P Q : Event → Bool} {w w1 : MPContext} (h : steps P w w1)
    (hpq : ∀ e, P e = true → Q e = true) : steps Q w w1 := by
  obtain ⟨t1, p1, e1, h1, he1⟩ := h
  exact ⟨t1, p1, e1, h1, fun e he => hpq e (he1 e he)⟩

theorem steps_emit (P : Event → Bool) (w : MPContext) (e : Event) (h : P e = true) :
    steps P w (emit w e) :=
  ⟨w.term_osd_subs, w.force_video_pts, [e], rfl, by simpa using h⟩

theorem steps_log {P : Event → Bool} {w w1 : MPContext} (h : steps P w w1) :
    ∃ evs, w1.log = w.log ++ evs ∧ ∀ e ∈ evs, P e = true := by
  obtain ⟨_, _, evs, rfl, he⟩ := h
  exact ⟨evs, rfl, he⟩

theorem steps_video_params (w : MPContext) (d : Nat) :
    steps is_params_call w (update_subtitle_video_params w d) := by
  unfold update_subtitle_video_params
  cases w.vo_chain with
  | none => exact steps_refl _ w
  | some params =>
    simp only
    split
    · exact steps_emit _ w _ rfl
    · exact steps_refl _ w

theorem steps_read (w : MPContext) (dm d : Nat) (pts : double) (f : Bool) :
    steps is_read_call w (update_subtitle_read w dm d pts f).2 := by
  unfold update_subtitle_read
  by_cases hf : (w.dmx dm).fully_read = true
  · simp only [hf, if_true]
    by_cases hc : (sub_can_preload w d).1 = true
    · simp only [hc, if_true]
      exact steps_trans (steps_emit _ w (Event.sub_can_preload d) rfl)
        (steps_trans (steps_emit _ _ (Event.demux_seek dm 0 0) rfl)
          (steps_emit _ _ (Event.sub_preload d) rfl))
    · simp only [hc]
      exact steps_emit _ w (Event.sub_can_preload d) rfl
  · simp only [hf]
    exact steps_emit _ w (Event.sub_read_packets d pts f) rfl

/-- The preload and read block publishes no text and no forced timestamp. -/
theorem read_published (w : MPContext) (dm d : Nat) (pts : double) (f : Bool) :
    (update_subtitle_read w dm d pts f).2.term_osd_subs = w.term_osd_subs ∧
    (update_subtitle_read w dm d pts f).2.force_video_pts = w.force_video_pts := by
  unfold update_subtitle_read
  split
  · simp only
    split
    · exact ⟨rfl, rfl⟩
    · exact ⟨rfl, rfl⟩
  · exact ⟨rfl, rfl⟩

theorem steps_term (w : MPContext) (t d : Nat) (pts : double) :
    steps is_term_call w (update_subtitle_term w t d pts) := by
  unfold update_subtitle_term
  split
  · exact steps_trans (steps_emit _ w (Event.sub_get_text d pts) rfl)
      ⟨_, _, [Event.term_osd_set_subs _], rfl, by simp [is_term_call]⟩
  · exact steps_refl _ w

/-- The terminal block leaves the forced timestamp as it is. -/
theorem term_forced (w : MPContext) (t d : Nat) (pts : double) :
    (update_subtitle_term w t d pts).force_video_pts = w.force_video_pts := by
  unfold update_subtitle_term
  split
  · rfl
  · rfl

theorem steps_vo (w : MPContext) (pts : double) :
    steps is_vo_call w (update_subtitle_vo w pts) := by
  unfold update_subtitle_vo
  split
  · simp only
    split
    · exact steps_trans (steps_emit _ w Event.osd_get_force_video_pts rfl)
        (steps_trans ⟨_, pts, [Event.osd_set_force_video_pts pts], rfl, by simp [is_vo_call]⟩
          (steps_trans (steps_emit _ _ Event.osd_query_and_reset_want_redraw rfl)
            (steps_trans (steps_emit _ _ Event.vo_redraw rfl)
              (steps_emit _ _ (Event.mp_set_timeout (1 / 10)) rfl))))
    · exact steps_emit _ w Event.osd_get_force_video_pts rfl
  · exact steps_refl _ w

/-- The VO block leaves the terminal text as it is. -/
theorem vo_term (w : MPContext) (pts : double) :
    (update_subtitle_vo w pts).term_osd_subs = w.term_osd_subs := by
  unfold update_subtitle_vo
  split
  · simp only
    split
    · simp only [mp_set_timeout, vo_redraw, osd_query_and_reset_want_redraw,
        osd_set_force_video_pts, osd_get_force_video_pts, emit]
    · simp only [osd_get_force_video_pts, emit]
  · trivial

/-- The blocks of `update_subtitle` for a track with decoder and demuxer and a timestamp
other than the sentinel. -/
theorem update_subtitle_blocks (w : MPContext) (pts : double) (t d dm : Nat) (f : Bool)
    (hd : (w.trk t).d_sub = some d) (hp : pts ≠ MP_NOPTS_VALUE)
    (hdm : (w.trk t).demuxer = some dm) :
    update_subtitle w pts (some t) f =
      if (update_subtitle_read (update_subtitle_video_params w d) dm d pts f).1 = false then
        some (false, (update_subtitle_read (update_subtitle_video_params w d) dm d pts f).2)
      else
        some (true,
          update_subtitle_vo
            (update_subtitle_term
              (update_subtitle_read (update_subtitle_video_params w d) dm d pts f).2
              t d pts) pts) := by
  have htrk := updated_trk (updated_video_params w d)
  simp [update_subtitle, hd, hp, htrk, hdm]

/-- Every call of an update is one of its four blocks. -/
theorem update_subtitle_steps (w : MPContext) (pts : double) (track : Option Nat) (f : Bool)
    (r : Bool × MPContext) (h : update_subtitle w pts track f = some r) :
    steps is_update_call w r.2 := by
  have m1 : ∀ e, is_params_call e = true → is_update_call e = true := by
    intro e he; simp [is_update_call, he]
  have m2 : ∀ e, is_read_call e = true → is_update_call e = true := by
    intro e he; simp [is_update_call, he]
  have m3 : ∀ e, is_term_call e = true → is_update_call e = true := by
    intro e he; simp [is_update_call, he]
  have m4 : ∀ e, is_vo_call e = true → is_update_call e = true := by
    intro e he; simp [is_update_call, he]
  cases track with
  | none =>
    simp only [update_subtitle, Option.some.injEq] at h; subst h; exact steps_refl _ w
  | some t =>
    cases hd : (w.trk t).d_sub with
    | none =>
      simp only [update_subtitle, hd, Option.some.injEq] at h; subst h; exact steps_refl _ w
    | some d =>
      by_cases hp : pts = MP_NOPTS_VALUE
      · subst hp
        rw [update_subtitle_nopts, Option.some.injEq] at h; subst h; exact steps_refl _ w
      · cases hdm : (w.trk t).demuxer with
        | none =>
          have htrk := updated_trk (updated_video_params w d)
          simp [update_subtitle, hd, hp, htrk, hdm] at h
        | some dm =>
          rw [update_subtitle_blocks w pts t d dm f hd hp hdm] at h
          have s1 := steps_mono (steps_video_params w d) m1
          have s2 := steps_mono
            (steps_read (update_subtitle_video_params w d) dm d pts f) m2
          split at h
          · simp only [Option.some.injEq] at h; subst h
            exact steps_trans s1 s2
          · simp only [Option.some.injEq] at h; subst h
            exact steps_trans s1 (steps_trans s2
              (steps_trans (steps_mono (steps_term _ t d pts) m3)
                (steps_mono (steps_vo _ pts) m4)))

theorem updated_video {w w1 : MPContext} (h : updated w w1) :
    w1.video_out = w.video_out ∧ w1.video_status = w.video_status ∧
    w1.sub_past_video_end = w.sub_past_video_end ∧ w1.vo_chain = w.vo_chain := by
  obtain ⟨_, _, _, rfl⟩ := h; exact ⟨rfl, rfl, rfl, rfl⟩

/-- The calls of the other blocks are not calls of the terminal block. -/
theorem not_term_call (e : Event)
    (h : (is_params_call e || is_read_call e || is_vo_call e) = true) :
    is_term_call e = false := by
  cases e <;> first
    | rfl
    | simp [is_params_call, is_read_call, is_vo_call] at h

/-- C15: take a track with a decoder and a demuxer, a timestamp other than the sentinel, and
a successful read (the preload and read block did not return `false`). If the track is the
entry of selection slot 0 and no video output is active, `update_subtitle` asks the decoder
for the plain text at the timestamp and gives it to `term_osd_set_subs`: these are its last
two calls. Otherwise (the track is not in slot 0, so also when it is only in slot 1, or a
video output is active) it makes neither call and the terminal text is as before. -/
theorem update_subtitle_terminal (w : MPContext) (pts : double) (t d dm : Nat) (f : Bool)
    (hd : (w.trk t).d_sub = some d) (hp : pts ≠ MP_NOPTS_VALUE)
    (hdm : (w.trk t).demuxer = some dm)
    (hread : (update_subtitle_read (update_subtitle_video_params w d) dm d pts f).1 = true) :
    (w.current_track 0 STREAM_SUB = some t ∧ w.video_out = false →
      update_subtitle w pts (some t) f =
        some (true,
          term_osd_set_subs
            (sub_get_text
              (update_subtitle_read (update_subtitle_video_params w d) dm d pts f).2
              d pts).2
            (sub_get_text
              (update_subtitle_read (update_subtitle_video_params w d) dm d pts f).2
              d pts).1)) ∧
    (¬ (w.current_track 0 STREAM_SUB = some t ∧ w.video_out = false) →
      ∃ w1 evs, update_subtitle w pts (some t) f = some (true, w1) ∧
        w1.term_osd_subs = w.term_osd_subs ∧ w1.log = w.log ++ evs ∧
        ∀ e ∈ evs, is_term_call e = false) := by
  have hup : updated w (update_subtitle_read (update_subtitle_video_params w d) dm d pts f).2 :=
    updated_trans (updated_video_params w d) (updated_read _ dm d pts f)
  have hct := updated_current_track hup
  have hvo := (updated_video hup).1
  rw [update_subtitle_blocks w pts t d dm f hd hp hdm]
  simp only [hread, Bool.true_eq_false, if_false]
  constructor
  · intro hc
    have hterm : update_subtitle_term
        (update_subtitle_read (update_subtitle_video_params w d) dm d pts f).2 t d pts =
        term_osd_set_subs
          (sub_get_text
            (update_subtitle_read (update_subtitle_video_params w d) dm d pts f).2 d pts).2
          (sub_get_text
            (update_subtitle_read (update_subtitle_video_params w d) dm d pts f).2 d pts).1 := by
      unfold update_subtitle_term
      rw [hct, hvo, if_pos hc]
    rw [hterm]
    have hv : (term_osd_set_subs
        (sub_get_text
          (update_subtitle_read (update_subtitle_video_params w d) dm d pts f).2 d pts).2
        (sub_get_text
          (update_subtitle_read (update_subtitle_video_params w d) dm d pts f).2 d pts).1).video_out
        = false := by
      show (update_subtitle_read (update_subtitle_video_params w d) dm d pts f).2.video_out
        = false
      rw [hvo]; exact hc.2
    simp [update_subtitle_vo, hv]
  · intro hc
    have hterm : update_subtitle_term
        (update_subtitle_read (update_subtitle_video_params w d) dm d pts f).2 t d pts =
        (update_subtitle_read (update_subtitle_video_params w d) dm d pts f).2 := by
      unfold update_subtitle_term
      rw [hct, hvo, if_neg hc]
    rw [hterm]
    have hs : steps (fun e => is_params_call e || is_read_call e || is_vo_call e) w
        (update_subtitle_vo
          (update_subtitle_read (update_subtitle_video_params w d) dm d pts f).2 pts) :=
      steps_trans (steps_mono (steps_video_params w d) (fun e he => by simp [he]))
        (steps_trans (steps_mono (steps_read _ dm d pts f) (fun e he => by simp [he]))
          (steps_mono (steps_vo _ pts) (fun e he => by simp [he])))
    obtain ⟨evs, hlog, hev⟩ := steps_log hs
    refine ⟨_, evs, rfl, ?_, hlog, fun e he => ?_⟩
    · rw [vo_term, (read_published _ dm d pts f).1, (video_params_published w d).1]
    · exact not_term_call e (hev e he)

/-- C15 at `ctx_two_later`, where no video output is active and the reads succeed: track 0,
in slot 0, gets the text "hi" on the terminal; track 1, in slot 1, leaves the terminal
alone. -/
theorem update_subtitle_terminal_witness :
    (update_subtitle ctx_two_later 5 (some 0) false).map (fun r => r.2.term_osd_subs) =
      some (some "hi") ∧
    (∃ w1 evs, update_subtitle ctx_two_later 5 (some 1) false = some (true, w1) ∧
      w1.term_osd_subs = ctx_two_later.term_osd_subs ∧ w1.log = ctx_two_later.log ++ evs ∧
      ∀ e ∈ evs, is_term_call e = false) :=
  ⟨by
      rw [(update_subtitle_terminal ctx_two_later 5 0 7 1 false rfl (by decide) rfl rfl).1
        ⟨rfl, rfl⟩]
      rfl,
    (update_subtitle_terminal ctx_two_later 5 1 8 1 false rfl (by decide) rfl rfl).2
      (by decide)⟩

/-! ## The forced display timestamp -/

/-- The calls of the first three blocks of an update are no calls about the forced timestamp
or a redraw. -/
theorem not_vo_call (e : Event)
    (h : (is_params_call e || is_read_call e || is_term_call e) = true) :
    is_vo_call e = false ∧ is_redraw_request e = false := by
  cases e <;> first
    | exact ⟨rfl, rfl⟩
    | simp [is_params_call, is_read_call, is_term_call] at h

/-- The condition of the last block of `update_subtitle`, as the source writes it, is the
condition of the spec. -/
theorem subs_without_video_iff (w : MPContext) :
    (w.video_out = true ∧ w.video_status = playback_status.STATUS_EOF ∧
      (w.sub_past_video_end ||
        (match w.current_track 0 STREAM_VIDEO with
          | none => true
          | some v => (w.trk v).attached_picture)) = true) ↔ subs_without_video w := by
  unfold subs_without_video
  cases hv : w.current_track 0 STREAM_VIDEO with
  | none => simp
  | some v => simp

/-- The last block of `update_subtitle`, case by case. -/
theorem update_subtitle_vo_cases (m : MPContext) (pts : double) :
    (subs_without_video m → ¬ double.c_eq m.force_video_pts pts →
      update_subtitle_vo m pts =
        { m with
          force_video_pts := pts
          log := m.log ++
            [Event.osd_get_force_video_pts, Event.osd_set_force_video_pts pts,
              Event.osd_query_and_reset_want_redraw, Event.vo_redraw,
              Event.mp_set_timeout (1 / 10)] }) ∧
    (subs_without_video m → double.c_eq m.force_video_pts pts →
      update_subtitle_vo m pts =
        { m with log := m.log ++ [Event.osd_get_force_video_pts] }) ∧
    (¬ subs_without_video m → update_subtitle_vo m pts = m) := by
  refine ⟨fun hc hne => ?_, fun hc he => ?_, fun hc => ?_⟩
  · unfold update_subtitle_vo
    rw [if_pos ((subs_without_video_iff m).mpr hc)]
    simp [osd_get_force_video_pts, hne, mp_set_timeout, vo_redraw,
      osd_query_and_reset_want_redraw, osd_set_force_video_pts, emit]
  · unfold update_subtitle_vo
    rw [if_pos ((subs_without_video_iff m).mpr hc)]
    simp [osd_get_force_video_pts, he, emit]
  · unfold update_subtitle_vo
    rw [if_neg (fun h => hc ((subs_without_video_iff m).mp h))]

/-- The condition of the last block depends on fields that an update leaves alone. -/
theorem subs_without_video_updated {w w1 : MPContext} (h : updated w w1) :
    subs_without_video w1 ↔ subs_without_video w := by
  obtain ⟨_, _, _, rfl⟩ := h
  rfl

/-- An update at a timestamp that the forced one equals in the C comparison keeps it and
requests no redraw. -/
theorem update_subtitle_same_pts (w : MPContext) (pts : double) (track : Option Nat) (f : Bool)
    (r : Bool × MPContext) (hq : double.c_eq w.force_video_pts pts)
    (h : update_subtitle w pts track f = some r) :
    r.2.force_video_pts = pts ∧
    ∃ evs, r.2.log = w.log ++ evs ∧ ∀ e ∈ evs, is_redraw_request e = false := by
  have hf : w.force_video_pts = pts := hq.2
  have hnone : r = (true, w) → r.2.force_video_pts = pts ∧
      ∃ evs, r.2.log = w.log ++ evs ∧ ∀ e ∈ evs, is_redraw_request e = false := by
    intro hr; subst hr; exact ⟨hf, [], by simp, by simp⟩
  have hn : pts ≠ double.nan := fun hx => hq.1 (hf.trans hx)
  cases track with
  | none =>
    simp only [update_subtitle, Option.some.injEq] at h; exact hnone h.symm
  | some t =>
    cases hd : (w.trk t).d_sub with
    | none =>
      simp only [update_subtitle, hd, Option.some.injEq] at h; exact hnone h.symm
    | some d =>
      by_cases hp : pts = MP_NOPTS_VALUE
      · subst hp
        rw [update_subtitle_nopts, Option.some.injEq] at h; exact hnone h.symm
      · cases hdm : (w.trk t).demuxer with
        | none =>
          have htrk := updated_trk (updated_video_params w d)
          simp [update_subtitle, hd, hp, htrk, hdm] at h
        | some dm =>
          rw [update_subtitle_blocks w pts t d dm f hd hp hdm] at h
          have s1 : steps (fun e => is_params_call e || is_read_call e || is_term_call e) w
              (update_subtitle_read (update_subtitle_video_params w d) dm d pts f).2 :=
            steps_trans (steps_mono (steps_video_params w d) (fun e he => by simp [he]))
              (steps_mono (steps_read _ dm d pts f) (fun e he => by simp [he]))
          have f1 : (update_subtitle_read (update_subtitle_video_params w d) dm d pts
              f).2.force_video_pts = pts := by
            rw [(read_published _ dm d pts f).2, (video_params_published w d).2]; exact hf
          split at h
          · simp only [Option.some.injEq] at h; subst h
            obtain ⟨evs, hlog, hev⟩ := steps_log s1
            exact ⟨f1, evs, hlog, fun e he => (not_vo_call e (hev e he)).2⟩
          · simp only [Option.some.injEq] at h; subst h
            have s2 := steps_trans s1
              (steps_mono (steps_term
                (update_subtitle_read (update_subtitle_video_params w d) dm d pts f).2 t d pts)
                (fun e he => by simp [he]))
            have f2 : (update_subtitle_term
                (update_subtitle_read (update_subtitle_video_params w d) dm d pts f).2
                t d pts).force_video_pts = pts := by
              rw [term_forced]; exact f1
            obtain ⟨evs, hlog, hev⟩ := steps_log s2
            by_cases hc : subs_without_video (update_subtitle_term
                (update_subtitle_read (update_subtitle_video_params w d) dm d pts f).2 t d pts)
            · simp only
              rw [(update_subtitle_vo_cases _ pts).2.1 hc
                ⟨fun hx => hn (f2.symm.trans hx), f2⟩]
              refine ⟨f2, evs ++ [Event.osd_get_force_video_pts], ?_, fun e he => ?_⟩
              · simp only [hlog, List.append_assoc]
              · rcases List.mem_append.mp he with h1 | h1
                · exact (not_vo_call e (hev e h1)).2
                · simp only [List.mem_singleton] at h1; subst h1; rfl
            · simp only
              rw [(update_subtitle_vo_cases _ pts).2.2 hc]
              exact ⟨f2, evs, hlog, fun e he => (not_vo_call e (hev e he)).2⟩

/-- C18 (amended): take a track with a decoder and a demuxer, a timestamp other than the
sentinel and a successful read; `m` is the context in which `update_subtitle` reaches its last
block, with the forced timestamp as it was and no call about it so far. When a video output is
active, the video status is EOF and subtitles may continue (`sub_past_video_end`, or no
primary video track, or an attached picture): if the forced timestamp differs from the given
one in the C comparison, which it always does when the given one is NaN, it is set to it and a
redraw and a timeout of 1/10 s are requested; if it is equal only the query is made. When one
of the conditions fails the block does nothing, so the forced timestamp is unchanged. After a
call under the conditions the forced timestamp is the given one, and when that is not NaN a
second call with the same timestamp sets nothing and requests no redraw and no timeout. -/
theorem update_subtitle_forced_timestamp (w : MPContext) (pts : double) (t d dm : Nat) (f : Bool)
    (hd : (w.trk t).d_sub = some d) (hp : pts ≠ MP_NOPTS_VALUE)
    (hdm : (w.trk t).demuxer = some dm)
    (hread : (update_subtitle_read (update_subtitle_video_params w d) dm d pts f).1 = true) :
    ∃ m w1 : MPContext, update_subtitle w pts (some t) f = some (true, w1) ∧
      m.force_video_pts = w.force_video_pts ∧
      (∃ evs, m.log = w.log ++ evs ∧ ∀ e ∈ evs, is_vo_call e = false) ∧
      (subs_without_video w → (¬ double.c_eq w.force_video_pts pts ∨ pts = double.nan) →
        w1 = { m with
          force_video_pts := pts
          log := m.log ++
            [Event.osd_get_force_video_pts, Event.osd_set_force_video_pts pts,
              Event.osd_query_and_reset_want_redraw, Event.vo_redraw,
              Event.mp_set_timeout (1 / 10)] }) ∧
      (subs_without_video w → double.c_eq w.force_video_pts pts →
        w1 = { m with log := m.log ++ [Event.osd_get_force_video_pts] }) ∧
      (¬ subs_without_video w → w1 = m) ∧
      (subs_without_video w → w1.force_video_pts = pts ∧
        (pts ≠ double.nan → ∀ (f2 : Bool) (r2 : Bool × MPContext),
          update_subtitle w1 pts (some t) f2 = some r2 →
          r2.2.force_video_pts = pts ∧
          ∃ evs, r2.2.log = w1.log ++ evs ∧ ∀ e ∈ evs, is_redraw_request e = false)) := by
  have s2 : steps (fun e => is_params_call e || is_read_call e || is_term_call e) w
      (update_subtitle_term
        (update_subtitle_read (update_subtitle_video_params w d) dm d pts f).2 t d pts) :=
    steps_trans (steps_mono (steps_video_params w d) (fun e he => by simp [he]))
      (steps_trans (steps_mono (steps_read _ dm d pts f) (fun e he => by simp [he]))
        (steps_mono (steps_term _ t d pts) (fun e he => by simp [he])))
  have hfm : (update_subtitle_term
      (update_subtitle_read (update_subtitle_video_params w d) dm d pts f).2
      t d pts).force_video_pts = w.force_video_pts := by
    rw [term_forced, (read_published _ dm d pts f).2, (video_params_published w d).2]
  have hcond := subs_without_video_updated (steps_updated s2)
  obtain ⟨evs, hlog, hev⟩ := steps_log s2
  have hrun : update_subtitle w pts (some t) f =
      some (true, update_subtitle_vo (update_subtitle_term
        (update_subtitle_read (update_subtitle_video_params w d) dm d pts f).2 t d pts)
        pts) := by
    rw [update_subtitle_blocks w pts t d dm f hd hp hdm]
    simp only [hread, Bool.true_eq_false, if_false]
  have hcases := update_subtitle_vo_cases (update_subtitle_term
    (update_subtitle_read (update_subtitle_video_params w d) dm d pts f).2 t d pts) pts
  have hne : (¬ double.c_eq w.force_video_pts pts ∨ pts = double.nan) →
      ¬ double.c_eq w.force_video_pts pts := by
    intro h
    rcases h with h | h
    · exact h
    · exact fun hq => hq.1 (hq.2.trans h)
  refine ⟨_, _, hrun, hfm, ⟨evs, hlog, fun e he => (not_vo_call e (hev e he)).1⟩,
    fun hc h => hcases.1 (hcond.mpr hc) (by rw [hfm]; exact hne h),
    fun hc he => hcases.2.1 (hcond.mpr hc) (by rw [hfm]; exact he),
    fun hc => hcases.2.2 (fun h => hc (hcond.mp h)), fun hc => ?_⟩
  have hw1 : (update_subtitle_vo (update_subtitle_term
      (update_subtitle_read (update_subtitle_video_params w d) dm d pts f).2 t d pts)
      pts).force_video_pts = pts := by
    by_cases he : double.c_eq w.force_video_pts pts
    · rw [hcases.2.1 (hcond.mpr hc) (by rw [hfm]; exact he)]
      show (update_subtitle_term
        (update_subtitle_read (update_subtitle_video_params w d) dm d pts f).2
        t d pts).force_video_pts = pts
      rw [hfm]; exact he.2
    · rw [hcases.1 (hcond.mpr hc) (by rw [hfm]; exact he)]
  exact ⟨hw1, fun hn f2 r2 h2 =>
    update_subtitle_same_pts _ pts (some t) f2 r2 ⟨fun hx => hn (hw1.symm.trans hx), hw1⟩ h2⟩

/-- C18 at `ctx_vo`, timestamp 5, track 0: the forced timestamp 3 is replaced by 5 with a
redraw and a timeout; a second call with timestamp 5 only makes its read, the terminal is
not used and the forced timestamp is queried. -/
theorem update_subtitle_forced_timestamp_witness :
    subs_without_video ctx_vo ∧ ¬ double.c_eq ctx_vo.force_video_pts 5 ∧
    (update_subtitle ctx_vo 5 (some 0) false).map (fun r => (r.1, r.2.force_video_pts, r.2.log))
      = some (true, 5,
          [Event.mp_dispatch_queue_process, Event.sub_read_packets 7 5 false,
            Event.osd_get_force_video_pts, Event.osd_set_force_video_pts 5,
            Event.osd_query_and_reset_want_redraw, Event.vo_redraw,
            Event.mp_set_timeout (1 / 10)]) ∧
    (∃ m w1 : MPContext, update_subtitle ctx_vo 5 (some 0) false = some (true, w1) ∧
      m.force_video_pts = ctx_vo.force_video_pts ∧
      w1 = { m with
        force_video_pts := 5
        log := m.log ++
          [Event.osd_get_force_video_pts, Event.osd_set_force_video_pts 5,
            Event.osd_query_and_reset_want_redraw, Event.vo_redraw,
            Event.mp_set_timeout (1 / 10)] } ∧
      ∀ (f2 : Bool) (r2 : Bool × MPContext),
        update_subtitle w1 5 (some 0) f2 = some r2 →
        r2.2.force_video_pts = 5 ∧
        ∃ evs, r2.2.log = w1.log ++ evs ∧ ∀ e ∈ evs, is_redraw_request e = false) := by
  have hc : subs_without_video ctx_vo :=
    ⟨rfl, rfl, Or.inr (fun v hv => by simp [ctx_vo, ctx_two_later, ctx_two] at hv)⟩
  obtain ⟨m, w1, hw⟩ :=
    update_subtitle_forced_timestamp ctx_vo 5 0 7 1 false rfl (by decide) rfl rfl
  exact ⟨hc, by decide, rfl,
    m, w1, hw.1, hw.2.1, hw.2.2.2.1 hc (Or.inl (by decide)),
    (hw.2.2.2.2.2.2 hc).2 (by decide)⟩

/-- C18 as stated fails for a NaN timestamp: at `ctx_vo`, track 0, two calls in a row with
the timestamp NaN both return `true`, and the second one sets the forced timestamp and
requests a redraw and a timeout again, because NaN differs from the forced NaN in the
comparison of `update_subtitle`. -/
theorem update_subtitle_nan_redraws_again :
    double.nan ≠ MP_NOPTS_VALUE ∧
    (update_subtitle ctx_vo double.nan (some 0) false).map
      (fun r => (r.1, r.2.force_video_pts)) = some (true, double.nan) ∧
    ((update_subtitle ctx_vo double.nan (some 0) false).bind
      (fun r => update_subtitle r.2 double.nan (some 0) false)).map
      (fun r => (r.1, r.2.force_video_pts, r.2.log))
      = some (true, double.nan,
          [Event.mp_dispatch_queue_process, Event.sub_read_packets 7 double.nan false,
            Event.osd_get_force_video_pts, Event.osd_set_force_video_pts double.nan,
            Event.osd_query_and_reset_want_redraw, Event.vo_redraw,
            Event.mp_set_timeout (1 / 10),
            Event.sub_read_packets 7 double.nan false,
            Event.osd_get_force_video_pts, Event.osd_set_force_video_pts double.nan,
            Event.osd_query_and_reset_want_redraw, Event.vo_redraw,
            Event.mp_set_timeout (1 / 10)]) :=
  ⟨by decide, rfl, rfl⟩

/-! ## Fully buffered sources -/

theorem staged_refl (t : Nat) (order : Int) (w : MPContext) : staged t order w w :=
  ⟨(w.trk t).d_sub, w.decs, w.next_dec, w.osd_sub order, w.term_osd_subs, w.force_video_pts,
    [], by simp⟩

theorem staged_trans {t : Nat} {order : Int} {w w1 w2 : MPContext}
    (h1 : staged t order w w1) (h2 : staged t order w1 w2) : staged t order w w2 := by
  obtain ⟨ds1, decs1, n1, s1, t1, p1, e1, rfl⟩ := h1
  obtain ⟨ds2, decs2, n2, s2, t2, p2, e2, rfl⟩ := h2
  exact ⟨ds2, decs2, n2, s2, t2, p2, e1 ++ e2, by simp⟩

theorem staged_of_updated (t : Nat) (order : Int) {w w1 : MPContext} (h : updated w w1) :
    staged t order w w1 := by
  obtain ⟨text, pts, evs, rfl⟩ := h
  exact ⟨(w.trk t).d_sub, w.decs, w.next_dec, w.osd_sub order, text, pts, evs, by simp⟩

theorem staged_emit (t : Nat) (order : Int) (w : MPContext) (e : Event) :
    staged t order w (emit w e) :=
  staged_of_updated t order (updated_emit w e)

theorem staged_sub_select (t : Nat) (order : Int) (w : MPContext) (d : Nat) (b : Bool) :
    staged t order w (sub_select w d b) :=
  ⟨(w.trk t).d_sub, Function.update w.decs d { w.decs d with selected := b }, w.next_dec,
    w.osd_sub order, w.term_osd_subs, w.force_video_pts,
    [Event.sub_select d b], by simp [sub_select, emit]⟩

theorem staged_osd_set_sub (t : Nat) (order : Int) (w : MPContext) (d : Option Nat) :
    staged t order w (osd_set_sub w order d) :=
  ⟨(w.trk t).d_sub, w.decs, w.next_dec, d, w.term_osd_subs, w.force_video_pts,
    [Event.osd_set_sub order d], by simp [osd_set_sub, emit]⟩

theorem staged_set_d_sub (t : Nat) (order : Int) (w : MPContext) (d : Option Nat) :
    staged t order w (set_d_sub w t d) :=
  ⟨d, w.decs, w.next_dec, w.osd_sub order, w.term_osd_subs, w.force_video_pts, [],
    by simp [set_d_sub]⟩

theorem staged_uninit_sub (t : Nat) (w : MPContext) :
    staged t (get_order w (some t)) w (uninit_sub w (some t) true) := by
  cases hd : (w.trk t).d_sub with
  | none => rw [uninit_sub_none w t true hd]; exact staged_refl t _ w
  | some d =>
    rw [uninit_sub_destroy_some w t d hd]
    exact ⟨none, _, w.next_dec, none, none, w.force_video_pts, _, rfl⟩

theorem staged_sub_create (t : Nat) (order : Int) (w : MPContext) (st : Nat)
    (atts : List demux_attachment) (o : Int) :
    staged t order w (sub_create w st atts o).2 := by
  unfold sub_create
  simp only
  split
  · exact ⟨(w.trk t).d_sub,
      Function.update w.decs w.next_dec { order := o, selected := false }, w.next_dec + 1,
      w.osd_sub order, w.term_osd_subs, w.force_video_pts, [Event.sub_create st atts o],
      by simp [emit]⟩
  · exact staged_emit t order w _

/-- The fields a reinitialisation does not touch. -/
theorem staged_fields {t : Nat} {order : Int} {w w1 : MPContext} (h : staged t order w w1) :
    w1.tracks = w.tracks ∧ w1.current_track = w.current_track ∧ w1.play_dir = w.play_dir ∧
    w1.vo_chain = w.vo_chain ∧ w1.video_out = w.video_out ∧
    w1.video_status = w.video_status ∧ w1.sub_past_video_end = w.sub_past_video_end ∧
    w1.playback_initialized = w.playback_initialized ∧ w1.paused = w.paused ∧
    w1.playback_pts = w.playback_pts ∧ w1.dmx = w.dmx ∧ w1.shs = w.shs ∧
    w1.oracle = w.oracle := by
  obtain ⟨_, _, _, _, _, _, _, rfl⟩ := h
  exact ⟨rfl, rfl, rfl, rfl, rfl, rfl, rfl, rfl, rfl, rfl, rfl, rfl, rfl⟩

/-- A reinitialisation of `t` leaves the other tracks, and of `t` everything but the
decoder handle, as they are. -/
theorem staged_trk {t : Nat} {order : Int} {w w1 : MPContext} (h : staged t order w w1) :
    (∀ n, n ≠ t → w1.trk n = w.trk n) ∧
    (∀ n, (w1.trk n).selected = (w.trk n).selected ∧ (w1.trk n).stream = (w.trk n).stream ∧
      (w1.trk n).demuxer = (w.trk n).demuxer ∧ (w1.trk n).type = (w.trk n).type ∧
      (w1.trk n).attached_picture = (w.trk n).attached_picture) := by
  obtain ⟨_, _, _, _, _, _, _, rfl⟩ := h
  refine ⟨fun n hn => by simp [Function.update_noteq hn], fun n => ?_⟩
  by_cases hn : n = t
  · subst hn; simp
  · simp [Function.update_noteq hn]

/-- A reinitialisation leaves the OSD slots other than the resolved one as they are. -/
theorem staged_osd {t : Nat} {order : Int} {w w1 : MPContext} (h : staged t order w w1) :
    ∀ o, o ≠ order → w1.osd_sub o = w.osd_sub o := by
  obtain ⟨_, _, _, _, _, _, _, rfl⟩ := h
  intro o ho
  simp [Function.update_noteq ho]

theorem staged_log {t : Nat} {order : Int} {w w1 : MPContext} (h : staged t order w w1) :
    w.log <+: w1.log := by
  obtain ⟨_, _, _, _, _, _, _, rfl⟩ := h
  exact List.prefix_append _ _

/-- The order a staged context resolves is the one resolved before. -/
theorem staged_get_order {t : Nat} {order : Int} {w w1 : MPContext} (h : staged t order w w1)
    (track : Option Nat) : get_order w1 track = get_order w track :=
  get_order_congr w w1 track (staged_fields h).2.1

/-- The first block of `reinit_sub`, case by case. -/
theorem reinit_sub_stale_cases (w : MPContext) (t : Nat) (order : Int) :
    ((w.trk t).d_sub = none → reinit_sub_stale w t order = w) ∧
    (∀ d, (w.trk t).d_sub = some d → (w.decs d).order = order →
      reinit_sub_stale w t order = emit w (Event.sub_get_order d)) ∧
    (∀ d, (w.trk t).d_sub = some d → (w.decs d).order ≠ order →
      reinit_sub_stale w t order =
        uninit_sub (emit w (Event.sub_get_order d)) (some t) true) := by
  refine ⟨fun h => ?_, fun d h ho => ?_, fun d h ho => ?_⟩
  · simp [reinit_sub_stale, h]
  · simp [reinit_sub_stale, h, sub_get_order, ho]
  · have ho1 : ¬ order = (w.decs d).order := fun he => ho he.symm
    simp [reinit_sub_stale, h, sub_get_order, ho1]

theorem reinit_sub_stale_staged (w : MPContext) (t : Nat) :
    staged t (get_order w (some t)) w (reinit_sub_stale w t (get_order w (some t))) := by
  obtain ⟨h1, h2, h3⟩ := reinit_sub_stale_cases w t (get_order w (some t))
  cases hd : (w.trk t).d_sub with
  | none => rw [h1 hd]; exact staged_refl t _ w
  | some d =>
    by_cases ho : (w.decs d).order = get_order w (some t)
    · rw [h2 d hd ho]; exact staged_emit t _ w _
    · rw [h3 d hd ho]
      have hs := staged_uninit_sub t (emit w (Event.sub_get_order d))
      rw [get_order_congr w (emit w (Event.sub_get_order d)) (some t) rfl] at hs
      exact staged_trans (staged_emit t _ w _) hs

/-- The calls of the first block of `reinit_sub`. -/
theorem reinit_sub_stale_log (w : MPContext) (t : Nat) :
    (reinit_sub_stale w t (get_order w (some t))).log = w.log ++ stale_calls w t := by
  obtain ⟨h1, h2, h3⟩ := reinit_sub_stale_cases w t (get_order w (some t))
  cases hd : (w.trk t).d_sub with
  | none => rw [h1 hd]; simp [stale_calls, hd]
  | some d =>
    by_cases ho : (w.decs d).order = get_order w (some t)
    · rw [h2 d hd ho]; simp [stale_calls, hd, ho, emit]
    · rw [h3 d hd ho]
      have hd1 : ((emit w (Event.sub_get_order d)).trk t).d_sub = some d := hd
      rw [uninit_sub_destroy_some _ t d hd1]
      have ho1 : ¬ get_order w (some t) = (w.decs d).order := fun he => ho he.symm
      have hg : get_order (emit w (Event.sub_get_order d)) (some t) = get_order w (some t) :=
        get_order_congr w (emit w (Event.sub_get_order d)) (some t) rfl
      simp only [hg]
      simp [stale_calls, hd, ho1, emit, uninit_calls]

/-- The decoder handle after the first block of `reinit_sub`: cleared when the decoder was
bound to another order than the resolved one, kept when it was bound to the resolved one. -/
theorem reinit_sub_stale_d_sub (w : MPContext) (t : Nat) :
    ((∀ d, (w.trk t).d_sub = some d → (w.decs d).order ≠ get_order w (some t)) →
      ((reinit_sub_stale w t (get_order w (some t))).trk t).d_sub = none) ∧
    (∀ d, (w.trk t).d_sub = some d → (w.decs d).order = get_order w (some t) →
      ((reinit_sub_stale w t (get_order w (some t))).trk t).d_sub = some d) := by
  obtain ⟨h1, h2, h3⟩ := reinit_sub_stale_cases w t (get_order w (some t))
  constructor
  · intro hne
    cases hd : (w.trk t).d_sub with
    | none => rw [h1 hd]; exact hd
    | some d =>
      rw [h3 d hd (hne d hd)]
      have hd1 : ((emit w (Event.sub_get_order d)).trk t).d_sub = some d := hd
      rw [uninit_sub_destroy_some _ t d hd1]
      simp
  · intro d hd ho
    rw [h2 d hd ho]; exact hd

/-- The creation block of `reinit_sub` never fails the assertion of `init_subdec`, and it
leaves a track that has a decoder as it is. -/
theorem reinit_sub_create_total (m : MPContext) (t : Nat) :
    (∃ r, reinit_sub_create m t = some r) ∧
    ((m.trk t).d_sub ≠ none → reinit_sub_create m t = some (true, m)) ∧
    ((m.trk t).d_sub = none → reinit_sub_create m t = init_subdec m t) := by
  unfold reinit_sub_create
  cases hd : (m.trk t).d_sub with
  | some d => exact ⟨⟨_, rfl⟩, fun _ => rfl, fun h => by simp at h⟩
  | none =>
    refine ⟨?_, fun h => absurd rfl h, fun _ => rfl⟩
    simp only
    cases hdm : (m.trk t).demuxer with
    | none => exact ⟨(false, m), by simp [init_subdec, hd, hdm]⟩
    | some dm =>
      cases hs : (m.trk t).stream with
      | none => exact ⟨(false, m), by simp [init_subdec, hd, hdm, hs]⟩
      | some st =>
        obtain ⟨r, hr, _⟩ := init_subdec_creates m t dm st hd hdm hs
        exact ⟨r, hr⟩

theorem init_subdec_staged (m : MPContext) (t : Nat) (order : Int) (r : Bool × MPContext)
    (h : init_subdec m t = some r) : staged t order m r.2 := by
  unfold init_subdec at h
  cases hd : (m.trk t).d_sub with
  | some d => simp [hd] at h
  | none =>
    simp only [hd] at h
    cases hdm : (m.trk t).demuxer with
    | none => simp only [hdm, Option.some.injEq] at h; subst h; exact staged_refl t order m
    | some dm =>
      cases hs : (m.trk t).stream with
      | none => simp only [hdm, hs, Option.some.injEq] at h; subst h; exact staged_refl t order m
      | some st =>
        simp only [hdm, hs] at h
        have s1 := staged_trans
          (staged_sub_create t order m st (get_all_attachments m) (get_order m (some t)))
          (staged_set_d_sub t order _
            (sub_create m st (get_all_attachments m) (get_order m (some t))).1)
        split at h
        · simp only [Option.some.injEq] at h; subst h; exact s1
        · simp only [Option.some.injEq] at h; subst h
          exact staged_trans s1 (staged_emit t order _ _)

theorem reinit_sub_create_staged (m : MPContext) (t : Nat) (order : Int)
    (r : Bool × MPContext) (h : reinit_sub_create m t = some r) : staged t order m r.2 := by
  cases hd : (m.trk t).d_sub with
  | some d =>
    rw [(reinit_sub_create_total m t).2.1 (by rw [hd]; simp), Option.some.injEq] at h
    subst h; exact staged_refl t order m
  | none =>
    rw [(reinit_sub_create_total m t).2.2 hd] at h
    exact init_subdec_staged m t order r h

theorem selected_and_shown_staged (m : MPContext) (t : Nat) (order : Int) (d : Nat) :
    staged t order m (selected_and_shown m t order d) := by
  unfold selected_and_shown
  split
  · exact staged_trans (staged_sub_select t order m d true) (staged_osd_set_sub t order _ _)
  · exact staged_sub_select t order m d true

/-- The rest of `reinit_sub`, written with the context after the selection and the
publication. -/
theorem reinit_sub_show_eq (fuel : Nat) (m : MPContext) (t st : Nat) (order : Int) (d : Nat) :
    reinit_sub_show fuel m t st order d =
      if (selected_and_shown m t order d).playback_initialized then
        if (selected_and_shown m t order d).paused then
          match (reinit_sub_wait fuel
            (demux_set_stream_wakeup_cb (selected_and_shown m t order d) st true) t).1 with
          | .returned =>
            MP_VERBOSE (demux_set_stream_wakeup_cb
              (reinit_sub_wait fuel
                (demux_set_stream_wakeup_cb (selected_and_shown m t order d) st true) t).2
              st false) t
          | o => (o, (reinit_sub_wait fuel
              (demux_set_stream_wakeup_cb (selected_and_shown m t order d) st true) t).2)
        else
          match update_subtitle (selected_and_shown m t order d)
            (selected_and_shown m t order d).playback_pts (some t) true with
          | none => (Outcome.crashed, selected_and_shown m t order d)
          | some u => MP_VERBOSE u.2 t
      else MP_VERBOSE (selected_and_shown m t order d) t := by
  rfl

theorem reinit_sub_show_staged (fuel : Nat) (m : MPContext) (t st : Nat) (order : Int)
    (d : Nat) : staged t order m (reinit_sub_show fuel m t st order d).2 := by
  obtain ⟨m4, hm4, hup⟩ := reinit_sub_show_updated fuel m t st order d
  refine staged_trans ?_ (staged_of_updated t order hup)
  rcases hm4 with h | h
  · subst h; exact staged_sub_select t order m d true
  · subst h
    exact staged_trans (staged_sub_select t order m d true) (staged_osd_set_sub t order _ _)

/-- `reinit_sub` for a track that passes its first check, block by block. -/
theorem reinit_sub_blocks (fuel : Nat) (w : MPContext) (t st : Nat)
    (hs : (w.trk t).stream = some st) (hty : (w.shs st).type = STREAM_SUB) :
    reinit_sub fuel w (some t) =
      match reinit_sub_create (reinit_sub_stale w t (get_order w (some t))) t with
      | none => (Outcome.crashed, reinit_sub_stale w t (get_order w (some t)))
      | some r =>
        if r.1 = false then (Outcome.returned, error_on_track r.2 t)
        else
          match (r.2.trk t).d_sub with
          | none => (Outcome.crashed, r.2)
          | some d => reinit_sub_show fuel r.2 t st (get_order w (some t)) d := by
  simp [reinit_sub, hs, hty]

/-- Whatever `reinit_sub` does for the track `t`, it leaves everything but the decoder
handle of `t`, the decoders, the resolved OSD slot, the terminal text, the forced timestamp
and the call history as it is. -/
theorem reinit_sub_staged (fuel : Nat) (w : MPContext) (t : Nat) :
    staged t (get_order w (some t)) w (reinit_sub fuel w (some t)).2 := by
  cases hs : (w.trk t).stream with
  | none => simp [reinit_sub, hs]; exact staged_refl t _ w
  | some st =>
    by_cases hty : (w.shs st).type = STREAM_SUB
    · rw [reinit_sub_blocks fuel w t st hs hty]
      have s1 := reinit_sub_stale_staged w t
      cases hcr : reinit_sub_create (reinit_sub_stale w t (get_order w (some t))) t with
      | none => exact s1
      | some r =>
        have s2 := staged_trans s1
          (reinit_sub_create_staged _ t (get_order w (some t)) r hcr)
        simp only
        split
        · exact staged_trans s2 (staged_emit t _ _ _)
        · cases hd : (r.2.trk t).d_sub with
          | none => exact s2
          | some d => exact staged_trans s2 (reinit_sub_show_staged fuel r.2 t st _ d)
    · simp [reinit_sub, hs, hty]; exact staged_refl t _ w

/-! ## Reinitialisation: the other track -/

/-- C12: for every two distinct tracks A, in slot 0, and B, in slot 1, `reinit_sub(A)` leaves
B untouched, however the call ends and whether the playback is paused or not: the track
structure of B, so its decoder handle `d_sub` and its `selected` flag, and OSD slot 1 are the
same after the call as before. -/
theorem reinit_sub_other_track (fuel : Nat) (mpctx : MPContext) (a b : Nat) (hab : a ≠ b)
    (h0 : mpctx.current_track 0 STREAM_SUB = some a)
    (h1 : mpctx.current_track 1 STREAM_SUB = some b) :
    (reinit_sub fuel mpctx (some a)).2.trk b = mpctx.trk b ∧
    ((reinit_sub fuel mpctx (some a)).2.trk b).d_sub = (mpctx.trk b).d_sub ∧
    ((reinit_sub fuel mpctx (some a)).2.trk b).selected = (mpctx.trk b).selected ∧
    (reinit_sub fuel mpctx (some a)).2.osd_sub 1 = mpctx.osd_sub 1 ∧
    (reinit_sub fuel mpctx (some a)).2.current_track 1 STREAM_SUB = some b := by
  have hs := reinit_sub_staged fuel mpctx a
  have hord : get_order mpctx (some a) = 0 := by rw [get_order_eq, if_pos h0]
  rw [hord] at hs
  have htrk := (staged_trk hs).1 b (fun h => hab h.symm)
  refine ⟨htrk, by rw [htrk], by rw [htrk], staged_osd hs 1 (by decide), ?_⟩
  rw [(staged_fields hs).2.1]; exact h1

/-- C12 at `ctx_two_paused` and at `ctx_two_playing`: the reinitialisation of track 0
returns, and track 1 and OSD slot 1 are as before. -/
theorem reinit_sub_other_track_witness :
    ((reinit_sub 2 ctx_two_paused (some 0)).1 = Outcome.returned ∧
      (reinit_sub 2 ctx_two_paused (some 0)).2.trk 1 = ctx_two_paused.trk 1 ∧
      (reinit_sub 2 ctx_two_paused (some 0)).2.osd_sub 1 = ctx_two_paused.osd_sub 1) ∧
    ((reinit_sub 2 ctx_two_playing (some 0)).1 = Outcome.returned ∧
      (reinit_sub 2 ctx_two_playing (some 0)).2.trk 1 = ctx_two_playing.trk 1 ∧
      (reinit_sub 2 ctx_two_playing (some 0)).2.osd_sub 1 = ctx_two_playing.osd_sub 1) :=
  have hp := reinit_sub_other_track 2 ctx_two_paused 0 1 (by decide) rfl rfl
  have hq := reinit_sub_other_track 2 ctx_two_playing 0 1 (by decide) rfl rfl
  ⟨⟨by decide, hp.1, hp.2.2.2.1⟩, ⟨by decide, hq.1, hq.2.2.2.1⟩⟩

/-! ## Reinitialisation: a creation that fails -/

/-- The first block of `reinit_sub` makes no call that selects, publishes, updates or waits,
and reports no error. -/
theorem stale_calls_quiet (w : MPContext) (t : Nat) :
    ∀ e ∈ stale_calls w t,
      is_progress_call e = false ∧ ∀ n, e ≠ Event.error_on_track n := by
  intro e he
  unfold stale_calls at he
  cases hd : (w.trk t).d_sub with
  | none => simp [hd] at he
  | some d =>
    simp only [hd, List.mem_cons] at he
    rcases he with h | h
    · subst h; exact ⟨rfl, fun n => by simp⟩
    · split at h
      · simp only [uninit_calls, List.mem_cons, List.mem_singleton, List.not_mem_nil,
          or_false] at h
        rcases h with h | h | h | h | h | h <;> subst h <;> exact ⟨rfl, fun n => by simp⟩
      · simp at h

/-- What `init_subdec` does when `sub_create` gives no decoder. -/
theorem init_subdec_fails (w : MPContext) (t dm st : Nat)
    (hd : (w.trk t).d_sub = none) (hdm : (w.trk t).demuxer = some dm)
    (hs : (w.trk t).stream = some st) (hok : w.oracle.sub_create_ok w.log st = false) :
    init_subdec w t =
      some (false,
        set_d_sub
          (emit w (Event.sub_create st (get_all_attachments w) (get_order w (some t))))
          t none) := by
  simp [init_subdec, hd, hdm, hs, sub_create, hok, set_d_sub, emit]

/-- C13: take a subtitle-class track with a stream for which the creation of the decoder is
attempted (it has no decoder, or one bound to another order than the resolved one) and fails
(the track has no demuxer, or `sub_create` returns `NULL`). Then `reinit_sub` returns, and
afterwards the track has no decoder. Its calls are those of the first block (the teardown
of a stale decoder, if there was one), `sub_create` when the track has a demuxer, and then
`error_on_track` for the track, once, as the last call: no decoder is selected, nothing is
published to the OSD, and no update and no wait is made. -/
theorem reinit_sub_create_fails (fuel : Nat) (mpctx : MPContext) (t st : Nat)
    (hs : (mpctx.trk t).stream = some st) (hty : (mpctx.shs st).type = STREAM_SUB)
    (hattempt : ∀ d, (mpctx.trk t).d_sub = some d →
      (mpctx.decs d).order ≠ get_order mpctx (some t))
    (hfail : (mpctx.trk t).demuxer = none ∨
      mpctx.oracle.sub_create_ok (mpctx.log ++ stale_calls mpctx t) st = false) :
    (reinit_sub fuel mpctx (some t)).1 = Outcome.returned ∧
    ((reinit_sub fuel mpctx (some t)).2.trk t).d_sub = none ∧
    (∃ evs, (reinit_sub fuel mpctx (some t)).2.log =
        mpctx.log ++ evs ++ [Event.error_on_track t] ∧
      evs = stale_calls mpctx t ++
        (match (mpctx.trk t).demuxer with
          | none => []
          | some _ =>
            [Event.sub_create st (get_all_attachments mpctx) (get_order mpctx (some t))]) ∧
      (evs ++ [Event.error_on_track t]).count (Event.error_on_track t) = 1 ∧
      ∀ e ∈ evs ++ [Event.error_on_track t], is_progress_call e = false) := by
  have hst := reinit_sub_stale_staged mpctx t
  have hlog := reinit_sub_stale_log mpctx t
  have hnone := (reinit_sub_stale_d_sub mpctx t).1 hattempt
  have hf := staged_fields hst
  have htrk := (staged_trk hst).2 t
  have hatt : get_all_attachments (reinit_sub_stale mpctx t (get_order mpctx (some t))) =
      get_all_attachments mpctx :=
    get_all_attachments_congr mpctx _ hf.1 hf.2.2.2.2.2.2.2.2.2.2.1
      (fun n => ((staged_trk hst).2 n).2.2.1)
  have hgo := staged_get_order hst (some t)
  have hq := stale_calls_quiet mpctx t
  have hcount : (stale_calls mpctx t).count (Event.error_on_track t) = 0 :=
    List.count_eq_zero.mpr (fun hm => (hq _ hm).2 t rfl)
  rw [reinit_sub_blocks fuel mpctx t st hs hty, (reinit_sub_create_total _ t).2.2 hnone]
  cases hdm : (mpctx.trk t).demuxer with
  | none =>
    have hinit : init_subdec (reinit_sub_stale mpctx t (get_order mpctx (some t))) t =
        some (false, reinit_sub_stale mpctx t (get_order mpctx (some t))) := by
      simp [init_subdec, hnone, htrk.2.2.1, hdm]
    rw [hinit]
    refine ⟨rfl, hnone, _, ?_, rfl, ?_, ?_⟩
    · simp [error_on_track, emit, hlog]
    · simp [List.count_append, hcount]
    · intro e he
      simp only [List.append_nil, List.mem_append, List.mem_singleton] at he
      rcases he with h | h
      · exact (hq e h).1
      · subst h; rfl
  | some dm =>
    have hok : (reinit_sub_stale mpctx t (get_order mpctx (some t))).oracle.sub_create_ok
        (reinit_sub_stale mpctx t (get_order mpctx (some t))).log st = false := by
      rw [hf.2.2.2.2.2.2.2.2.2.2.2.2, hlog]
      rcases hfail with h | h
      · rw [hdm] at h; exact absurd h (by simp)
      · exact h
    rw [init_subdec_fails _ t dm st hnone (by rw [htrk.2.2.1]; exact hdm)
      (by rw [htrk.2.1]; exact hs) hok]
    refine ⟨rfl, by simp [error_on_track, emit, set_d_sub], _, ?_, rfl, ?_, ?_⟩
    · simp [error_on_track, emit, set_d_sub, hlog, hatt, hgo]
    · simp [List.count_append, hcount]
    · intro e he
      simp only [List.mem_append, List.mem_singleton] at he
      rcases he with (h | h) | h
      · exact (hq e h).1
      · subst h; rfl
      · subst h; rfl

/-- C13 at `ctx_create_fails`, whose track 0 has a stale decoder and whose `sub_create`
fails, during a paused playback: the decoder is torn down, the creation is attempted, and
the error is reported; that is all. -/
theorem reinit_sub_create_fails_witness :
    ((reinit_sub 3 ctx_no_demuxer (some 0)).1 = Outcome.returned ∧
      (reinit_sub 3 ctx_no_demuxer (some 0)).2.log = [Event.error_on_track 0]) ∧
    (reinit_sub 3 ctx_create_fails (some 0)).1 = Outcome.returned ∧
    ((reinit_sub 3 ctx_create_fails (some 0)).2.trk 0).d_sub = none ∧
    (reinit_sub 3 ctx_create_fails (some 0)).2.log =
      [Event.sub_get_order 7, Event.sub_reset 7, Event.sub_set_play_dir 7 1,
        Event.term_osd_set_subs none, Event.sub_select 7 false, Event.sub_destroy 7,
        Event.osd_set_sub 1 none, Event.sub_create 1 [] 1, Event.error_on_track 0] :=
  have h := reinit_sub_create_fails 3 ctx_create_fails 0 1 rfl rfl
    (fun d hd => by
      have hd7 : d = 7 := by
        have : (some 7 : Option Nat) = some d := hd
        exact (Option.some.inj this).symm
      subst hd7
      decide)
    (Or.inr rfl)
  have h0 := reinit_sub_create_fails 3 ctx_no_demuxer 0 1 rfl rfl
    (fun d hd => by
      have : (none : Option Nat) = some d := hd
      exact absurd this (by simp))
    (Or.inl rfl)
  ⟨⟨h0.1, by decide⟩, h.1, h.2.1, by decide⟩

/-! ## Creation: the default frame rate -/

/-- C19, as stated, fails: in `ctx_video_fps 0` the codec parameters of the primary video
track carry no frame rate (their `fps` field is 0). The creation succeeds and `init_subdec`
passes the decoder the default frame rate 0, not 25. -/
theorem init_subdec_fps_zero :
    video_codec (ctx_video_fps 0) = some { fps := 0 } ∧
    (init_subdec (ctx_video_fps 0) 0).map (fun r => (r.1, r.2.log)) =
      some (true,
        [Event.sub_create 1 [] 0, Event.sub_control_set_video_def_fps 100 0]) ∧
    (init_subdec (ctx_video_fps 0) 0).map
      (fun r => decide (Event.sub_control_set_video_def_fps 100 25 ∈ r.2.log)) =
      some false := by
  decide

/-- The codec parameters of the primary video track are the same after a step of a
reinitialisation. -/
theorem video_codec_staged {t : Nat} {order : Int} {w w1 : MPContext}
    (h : staged t order w w1) : video_codec w1 = video_codec w := by
  unfold video_codec
  rw [(staged_fields h).2.1, (staged_fields h).2.2.2.2.2.2.2.2.2.2.2.1]
  cases w.current_track 0 STREAM_VIDEO with
  | none => rfl
  | some v => simp only [((staged_trk h).2 v).2.1]

/-- What `init_subdec` does when `sub_create` gives a decoder. -/
theorem init_subdec_succeeds (w : MPContext) (t dm st : Nat)
    (hd : (w.trk t).d_sub = none) (hdm : (w.trk t).demuxer = some dm)
    (hs : (w.trk t).stream = some st) (hok : w.oracle.sub_create_ok w.log st = true) :
    ∃ w1, init_subdec w t = some (true, w1) ∧ (w1.trk t).d_sub = some w.next_dec ∧
      (w1.decs w.next_dec).order = get_order w (some t) ∧
      w1.log = w.log ++
        [Event.sub_create st (get_all_attachments w) (get_order w (some t)),
          Event.sub_control_set_video_def_fps w.next_dec
            (match video_codec w with
              | some c => c.fps
              | none => 25)] := by
  have hst : staged t 0 w
      (set_d_sub (sub_create w st (get_all_attachments w) (get_order w (some t))).2 t
        (sub_create w st (get_all_attachments w) (get_order w (some t))).1) :=
    staged_trans (staged_sub_create t 0 w st _ _) (staged_set_d_sub t 0 _ _)
  have hvc := video_codec_staged hst
  have hrun : init_subdec w t =
      some (true,
        sub_control_set_video_def_fps
          (set_d_sub (sub_create w st (get_all_attachments w) (get_order w (some t))).2 t
            (sub_create w st (get_all_attachments w) (get_order w (some t))).1)
          w.next_dec
          (match video_codec
              (set_d_sub (sub_create w st (get_all_attachments w) (get_order w (some t))).2 t
                (sub_create w st (get_all_attachments w) (get_order w (some t))).1) with
            | some c => c.fps
            | none => 25)) := by
    simp [init_subdec, hd, hdm, hs, sub_create, hok, set_d_sub, emit, video_codec]
  rw [hvc] at hrun
  refine ⟨_, hrun, ?_, ?_, ?_⟩
  · simp [sub_control_set_video_def_fps, emit, set_d_sub, sub_create, hok]
  · simp [sub_control_set_video_def_fps, emit, set_d_sub, sub_create, hok]
  · simp [sub_control_set_video_def_fps, emit, set_d_sub, sub_create, hok]

/-- C19, amended: on every successful Create (the track has no decoder, it has a demuxer and
a stream, and `sub_create` gives a decoder) `init_subdec` passes the new decoder as default
frame rate the `fps` field of the codec parameters of the selected primary video track when
there are such parameters, whatever its value, and 25 when there are none: no primary video
track, a primary video track without stream, or a stream without codec parameters. -/
theorem init_subdec_default_fps (w : MPContext) (t dm st : Nat)
    (hd : (w.trk t).d_sub = none) (hdm : (w.trk t).demuxer = some dm)
    (hs : (w.trk t).stream = some st) (hok : w.oracle.sub_create_ok w.log st = true) :
    ∃ w1, init_subdec w t = some (true, w1) ∧
      (∀ v vs c, w.current_track 0 STREAM_VIDEO = some v → (w.trk v).stream = some vs →
        (w.shs vs).codec = some c →
        w1.log = w.log ++
          [Event.sub_create st (get_all_attachments w) (get_order w (some t)),
            Event.sub_control_set_video_def_fps w.next_dec c.fps]) ∧
      ((w.current_track 0 STREAM_VIDEO = none ∨
          (∃ v, w.current_track 0 STREAM_VIDEO = some v ∧ (w.trk v).stream = none) ∨
          (∃ v vs, w.current_track 0 STREAM_VIDEO = some v ∧ (w.trk v).stream = some vs ∧
            (w.shs vs).codec = none)) →
        w1.log = w.log ++
          [Event.sub_create st (get_all_attachments w) (get_order w (some t)),
            Event.sub_control_set_video_def_fps w.next_dec 25]) := by
  obtain ⟨w1, hrun, _, _, hlog⟩ := init_subdec_succeeds w t dm st hd hdm hs hok
  refine ⟨w1, hrun, fun v vs c hv hvs hc => ?_, fun hno => ?_⟩
  · have : video_codec w = some c := by simp [video_codec, hv, hvs, hc]
    rw [hlog, this]
  · have : video_codec w = none := by
      rcases hno with h | ⟨v, h1, h2⟩ | ⟨v, vs, h1, h2, h3⟩
      · simp [video_codec, h]
      · simp [video_codec, h1, h2]
      · simp [video_codec, h1, h2, h3]
    rw [hlog, this]

/-- The amended C19 at `ctx_video_fps 24`, where the hint 24 is passed, and at
`ctx_no_decoder`, which has no primary video track and where 25 is passed. -/
theorem init_subdec_default_fps_witness :
    (∃ w1, init_subdec (ctx_video_fps 24) 0 = some (true, w1) ∧
      w1.log = (ctx_video_fps 24).log ++
        [Event.sub_create 1 (get_all_attachments (ctx_video_fps 24))
            (get_order (ctx_video_fps 24) (some 0)),
          Event.sub_control_set_video_def_fps (ctx_video_fps 24).next_dec 24]) ∧
    (∃ w1, init_subdec ctx_no_decoder 0 = some (true, w1) ∧
      w1.log = ctx_no_decoder.log ++
        [Event.sub_create 1 (get_all_attachments ctx_no_decoder)
            (get_order ctx_no_decoder (some 0)),
          Event.sub_control_set_video_def_fps ctx_no_decoder.next_dec 25]) := by
  obtain ⟨w1, h1, h2, _⟩ := init_subdec_default_fps (ctx_video_fps 24) 0 1 1 rfl rfl rfl rfl
  obtain ⟨w2, k1, _, k3⟩ := init_subdec_default_fps ctx_no_decoder 0 1 1 rfl rfl rfl rfl
  exact ⟨⟨w1, h1, h2 5 9 { fps := 24 } rfl rfl rfl⟩, ⟨w2, k1, k3 (Or.inl rfl)⟩⟩

/-! ## Reinitialisation: the decoder is recreated only when needed -/

theorem logged_refl (P : Event → Bool) (w : MPContext) : logged P w w :=
  ⟨[], by simp, by simp⟩

theorem logged_trans {P : Event → Bool} {w w1 w2 : MPContext} (h1 : logged P w w1)
    (h2 : logged P w1 w2) : logged P w w2 := by
  obtain ⟨e1, hl1, he1⟩ := h1
  obtain ⟨e2, hl2, he2⟩ := h2
  refine ⟨e1 ++ e2, by rw [hl2, hl1, List.append_assoc], fun e he => ?_⟩
  rcases List.mem_append.mp he with h | h
  · exact he1 e h
  · exact he2 e h

theorem logged_mono {P Q : Event → Bool} {w w1 : MPContext} (h : logged P w w1)
    (hpq : ∀ e, P e = true → Q e = true) : logged Q w w1 := by
  obtain ⟨e1, hl1, he1⟩ := h
  exact ⟨e1, hl1, fun e he => hpq e (he1 e he)⟩

theorem logged_emit (P : Event → Bool) (w : MPContext) (e : Event) (h : P e = true) :
    logged P w (emit w e) :=
  ⟨[e], rfl, by simpa using h⟩

theorem logged_of_steps {P : Event → Bool} {w w1 : MPContext} (h : steps P w w1) :
    logged P w w1 :=
  steps_log h

/-- Every call of an update is a call `reinit_sub` can make once the track has its
decoder. -/
theorem update_call_show (e : Event) (h : is_update_call e = true) :
    is_show_call e = true := by
  revert h
  cases e <;>
    simp [is_update_call, is_show_call, is_progress_call, is_params_call, is_read_call,
      is_term_call, is_vo_call]

/-- None of the calls `reinit_sub` makes once the track has its decoder destroys or creates
a decoder. -/
theorem show_call_keeps (e : Event) (h : is_show_call e = true) :
    (∀ x, e ≠ Event.sub_destroy x) ∧ (∀ s a o, e ≠ Event.sub_create s a o) := by
  constructor
  · intro x hx; subst hx
    simp [is_show_call, is_progress_call, is_params_call, is_read_call, is_term_call,
      is_vo_call] at h
  · intro s a o hx; subst hx
    simp [is_show_call, is_progress_call, is_params_call, is_read_call, is_term_call,
      is_vo_call] at h

/-- The blocking loop makes calls of updates and waits only. -/
theorem reinit_sub_wait_logged :
    ∀ (fuel : Nat) (w : MPContext) (t : Nat),
      logged is_show_call w (reinit_sub_wait fuel w t).2 := by
  intro fuel
  induction fuel with
  | zero => intro w t; exact logged_refl _ w
  | succ k ih =>
    intro w t
    unfold reinit_sub_wait
    cases hu : update_subtitle w w.playback_pts (some t) true with
    | none => exact logged_refl _ w
    | some r =>
      have h1 := logged_mono
        (logged_of_steps (update_subtitle_steps w w.playback_pts (some t) true r hu))
        update_call_show
      simp only
      split
      · exact h1
      · exact logged_trans h1
          (logged_trans (logged_emit _ _ Event.mp_dispatch_queue_process rfl) (ih _ t))

theorem selected_and_shown_logged (m : MPContext) (t : Nat) (order : Int) (d : Nat) :
    logged is_show_call m (selected_and_shown m t order d) := by
  unfold selected_and_shown
  split
  · exact ⟨[Event.sub_select d true, Event.osd_set_sub order (some d)],
      by simp [osd_set_sub, sub_select, emit],
      by simp [is_show_call, is_progress_call]⟩
  · exact ⟨[Event.sub_select d true], by simp [sub_select, emit],
      by simp [is_show_call, is_progress_call]⟩

/-- The rest of `reinit_sub` once the track has its decoder makes calls that select,
publish, update and wait only. -/
theorem reinit_sub_show_logged (fuel : Nat) (m : MPContext) (t st : Nat) (order : Int)
    (d : Nat) : logged is_show_call m (reinit_sub_show fuel m t st order d).2 := by
  refine logged_trans (selected_and_shown_logged m t order d) ?_
  rw [reinit_sub_show_eq]
  have hw := logged_trans
    (logged_emit is_show_call (selected_and_shown m t order d)
      (Event.demux_set_stream_wakeup_cb st true) rfl)
    (reinit_sub_wait_logged fuel
      (demux_set_stream_wakeup_cb (selected_and_shown m t order d) st true) t)
  split
  · split
    · split
      · rw [MP_VERBOSE_snd]
        exact logged_trans hw (logged_emit _ _ (Event.demux_set_stream_wakeup_cb st false) rfl)
      · exact hw
    · cases hu : update_subtitle (selected_and_shown m t order d)
          (selected_and_shown m t order d).playback_pts (some t) true with
      | none => exact logged_refl _ _
      | some u =>
        show logged is_show_call (selected_and_shown m t order d) (MP_VERBOSE u.2 t).2
        rw [MP_VERBOSE_snd]
        exact logged_mono (logged_of_steps (update_subtitle_steps _ _ _ _ u hu))
          update_call_show
  · rw [MP_VERBOSE_snd]; exact logged_refl _ _

/-- C20: `reinit_sub` never fails the assertion of `init_subdec`, and it recreates a decoder
only when needed. The creation block returns for every context: it enters `init_subdec` only
for a track without decoder, where the assertion holds, and it leaves a track with a decoder
as it is. For a subtitle track with a stream: a decoder bound to the resolved order is kept,
the track has the very same handle afterwards and there is no `sub_destroy` and no
`sub_create` among the calls; a decoder bound to another order is destroyed and the handle
is cleared in the first block, before the creation block starts; the calls of the teardown
come first, `sub_create` (made when the track has a demuxer) follows them, and afterwards
the track has no decoder or the new one. The handle is a single nullable pointer, so a track
never owns two decoders. -/
theorem reinit_sub_decoder_reuse (fuel : Nat) (mpctx : MPContext) (t st : Nat)
    (hs : (mpctx.trk t).stream = some st) (hty : (mpctx.shs st).type = STREAM_SUB) :
    (∀ m : MPContext, (∃ r, reinit_sub_create m t = some r) ∧
      ((m.trk t).d_sub ≠ none → reinit_sub_create m t = some (true, m)) ∧
      ((m.trk t).d_sub = none →
        reinit_sub_create m t = init_subdec m t ∧ init_subdec m t ≠ none)) ∧
    (∀ d, (mpctx.trk t).d_sub = some d → (mpctx.decs d).order = get_order mpctx (some t) →
      ((reinit_sub fuel mpctx (some t)).2.trk t).d_sub = some d ∧
      ∃ evs, (reinit_sub fuel mpctx (some t)).2.log = mpctx.log ++ evs ∧
        ∀ e ∈ evs,
          (∀ x, e ≠ Event.sub_destroy x) ∧ (∀ s a o, e ≠ Event.sub_create s a o)) ∧
    (∀ d, (mpctx.trk t).d_sub = some d → (mpctx.decs d).order ≠ get_order mpctx (some t) →
      ((reinit_sub_stale mpctx t (get_order mpctx (some t))).trk t).d_sub = none ∧
      (reinit_sub_stale mpctx t (get_order mpctx (some t))).log =
        mpctx.log ++ Event.sub_get_order d ::
          uninit_calls d mpctx.play_dir (get_order mpctx (some t)) ∧
      (mpctx.log ++ Event.sub_get_order d ::
          uninit_calls d mpctx.play_dir (get_order mpctx (some t))) <+:
        (reinit_sub fuel mpctx (some t)).2.log ∧
      (∀ dm, (mpctx.trk t).demuxer = some dm →
        (mpctx.log ++ Event.sub_get_order d ::
            uninit_calls d mpctx.play_dir (get_order mpctx (some t)) ++
          [Event.sub_create st (get_all_attachments mpctx) (get_order mpctx (some t))]) <+:
          (reinit_sub fuel mpctx (some t)).2.log) ∧
      (((reinit_sub fuel mpctx (some t)).2.trk t).d_sub = none ∨
        ((reinit_sub fuel mpctx (some t)).2.trk t).d_sub = some mpctx.next_dec)) := by
  refine ⟨fun m => ?_, fun d hd ho => ?_, fun d hd ho => ?_⟩
  · obtain ⟨h1, h2, h3⟩ := reinit_sub_create_total m t
    refine ⟨h1, h2, fun hn => ⟨h3 hn, ?_⟩⟩
    obtain ⟨r, hr⟩ := h1
    rw [← h3 hn, hr]; simp
  · -- the decoder is bound to the resolved order
    have hstale := (reinit_sub_stale_cases mpctx t (get_order mpctx (some t))).2.1 d hd ho
    have hdm1 : ((reinit_sub_stale mpctx t (get_order mpctx (some t))).trk t).d_sub = some d :=
      (reinit_sub_stale_d_sub mpctx t).2 d hd ho
    have hrun : reinit_sub fuel mpctx (some t) =
        reinit_sub_show fuel (emit mpctx (Event.sub_get_order d)) t st
          (get_order mpctx (some t)) d := by
      rw [reinit_sub_blocks fuel mpctx t st hs hty,
        (reinit_sub_create_total _ t).2.1 (by rw [hdm1]; simp)]
      simp only [Bool.true_eq_false, if_false, hdm1]
      rw [hstale]
    rw [hrun]
    have hst := reinit_sub_show_staged fuel (emit mpctx (Event.sub_get_order d)) t st
      (get_order mpctx (some t)) d
    obtain ⟨hsame, _⟩ := reinit_sub_show_frame fuel (emit mpctx (Event.sub_get_order d)) t st
      (get_order mpctx (some t)) d
    refine ⟨by rw [hsame]; exact hd, ?_⟩
    obtain ⟨evs, hlog, hev⟩ := reinit_sub_show_logged fuel
      (emit mpctx (Event.sub_get_order d)) t st (get_order mpctx (some t)) d
    refine ⟨Event.sub_get_order d :: evs, by rw [hlog]; simp [emit], fun e he => ?_⟩
    rcases List.mem_cons.mp he with h | h
    · subst h; exact ⟨fun x => by simp, fun s a o => by simp⟩
    · exact show_call_keeps e (hev e h)
  · -- the decoder is bound to another order
    have hne : ∀ d1, (mpctx.trk t).d_sub = some d1 →
        (mpctx.decs d1).order ≠ get_order mpctx (some t) := by
      intro d1 hd1
      rw [hd, Option.some.injEq] at hd1
      subst hd1; exact ho
    have hnone := (reinit_sub_stale_d_sub mpctx t).1 hne
    have ho1 : get_order mpctx (some t) ≠ (mpctx.decs d).order := fun h => ho h.symm
    have hcalls : stale_calls mpctx t =
        Event.sub_get_order d :: uninit_calls d mpctx.play_dir (get_order mpctx (some t)) := by
      simp [stale_calls, hd, ho1]
    have hlog := reinit_sub_stale_log mpctx t
    rw [hcalls] at hlog
    have hst := reinit_sub_stale_staged mpctx t
    have hf := staged_fields hst
    have htrk := (staged_trk hst).2 t
    -- the rest of the call, from the context after the first block
    have hrest : ∀ r, reinit_sub_create
        (reinit_sub_stale mpctx t (get_order mpctx (some t))) t = some r →
        r.2.log <+: (reinit_sub fuel mpctx (some t)).2.log ∧
        ((r.2.trk t).d_sub = none →
          ((reinit_sub fuel mpctx (some t)).2.trk t).d_sub = none) ∧
        (r.1 = true → ((reinit_sub fuel mpctx (some t)).2.trk t).d_sub = (r.2.trk t).d_sub) ∧
        (r.1 = false → ((reinit_sub fuel mpctx (some t)).2.trk t).d_sub = (r.2.trk t).d_sub)
        := by
      intro r hr
      rw [reinit_sub_blocks fuel mpctx t st hs hty, hr]
      simp only
      cases hr1 : r.1 with
      | false =>
        simp only [if_true]
        exact ⟨List.prefix_append _ _, fun h => h, fun h => by simp at h, fun _ => rfl⟩
      | true =>
        simp only [Bool.true_eq_false, if_false]
        cases hdd : (r.2.trk t).d_sub with
        | none => exact ⟨List.prefix_rfl, fun _ => hdd, fun _ => hdd, fun _ => hdd⟩
        | some d1 =>
          simp only
          obtain ⟨f1, _, _, _, f5⟩ :=
            reinit_sub_show_frame fuel r.2 t st (get_order mpctx (some t)) d1
          rw [f1]
          exact ⟨f5, fun h => by simp at h, fun _ => hdd, fun _ => hdd⟩
    obtain ⟨r, hr⟩ := (reinit_sub_create_total
      (reinit_sub_stale mpctx t (get_order mpctx (some t))) t).1
    obtain ⟨hpre, hkeep0, hkeep1, hkeep2⟩ := hrest r hr
    have hstage := reinit_sub_create_staged _ t (get_order mpctx (some t)) r hr
    have hinit := (reinit_sub_create_total
      (reinit_sub_stale mpctx t (get_order mpctx (some t))) t).2.2 hnone
    refine ⟨hnone, hlog, ?_, fun dm hdm => ?_, ?_⟩
    · rw [← hlog]; exact (staged_log hstage).trans hpre
    · obtain ⟨r1, hr1, _, hl, _⟩ := init_subdec_creates
        (reinit_sub_stale mpctx t (get_order mpctx (some t))) t dm st hnone
        (by rw [htrk.2.2.1]; exact hdm) (by rw [htrk.2.1]; exact hs)
      rw [hinit, hr1, Option.some.injEq] at hr
      subst hr
      have hatt : get_all_attachments (reinit_sub_stale mpctx t (get_order mpctx (some t))) =
          get_all_attachments mpctx :=
        get_all_attachments_congr mpctx _ hf.1 hf.2.2.2.2.2.2.2.2.2.2.1
          (fun n => ((staged_trk hst).2 n).2.2.1)
      rw [hatt, staged_get_order hst (some t), hlog] at hl
      exact hl.trans hpre
    · cases hdm : (mpctx.trk t).demuxer with
      | none =>
        have : init_subdec (reinit_sub_stale mpctx t (get_order mpctx (some t))) t =
            some (false, reinit_sub_stale mpctx t (get_order mpctx (some t))) := by
          simp [init_subdec, hnone, htrk.2.2.1, hdm]
        rw [hinit, this, Option.some.injEq] at hr
        subst hr
        exact Or.inl (hkeep0 hnone)
      | some dm =>
        obtain ⟨r1, hr1, _, _, _, _, htrue, hfalse⟩ := init_subdec_creates
          (reinit_sub_stale mpctx t (get_order mpctx (some t))) t dm st hnone
          (by rw [htrk.2.2.1]; exact hdm) (by rw [htrk.2.1]; exact hs)
        rw [hinit, hr1, Option.some.injEq] at hr
        subst hr
        have hnext : (reinit_sub_stale mpctx t (get_order mpctx (some t))).next_dec =
            mpctx.next_dec := by
          rw [(reinit_sub_stale_cases mpctx t (get_order mpctx (some t))).2.2 d hd ho]
          have hd1 : ((emit mpctx (Event.sub_get_order d)).trk t).d_sub = some d := hd
          rw [uninit_sub_destroy_some _ t d hd1]
          rfl
        cases hb : r1.1 with
        | false => exact Or.inl (by rw [hkeep2 hb]; exact hfalse hb)
        | true => exact Or.inr (by rw [hkeep1 hb, (htrue hb).1, hnext])

/-- C20 at `ctx_decoder`, whose decoder 7 is bound to the resolved order 0 and is kept, and
at `ctx_moved`, whose decoder 7 is bound to order 0 while the resolved order is 1: it is
destroyed before decoder 100 is created. -/
theorem reinit_sub_decoder_reuse_witness :
    (((reinit_sub 1 ctx_decoder (some 0)).2.trk 0).d_sub = some 7 ∧
      (reinit_sub 1 ctx_decoder (some 0)).2.log =
        [Event.sub_get_order 7, Event.sub_select 7 true, Event.osd_set_sub 0 (some 7)]) ∧
    (((reinit_sub_stale ctx_moved 0 (get_order ctx_moved (some 0))).trk 0).d_sub = none ∧
      ((reinit_sub 1 ctx_moved (some 0)).2.trk 0).d_sub = some 100 ∧
      (ctx_moved.log ++ Event.sub_get_order 7 ::
          uninit_calls 7 ctx_moved.play_dir (get_order ctx_moved (some 0)) ++
        [Event.sub_create 1 (get_all_attachments ctx_moved)
          (get_order ctx_moved (some 0))]) <+:
        (reinit_sub 1 ctx_moved (some 0)).2.log) :=
  have h1 := (reinit_sub_decoder_reuse 1 ctx_decoder 0 1 rfl rfl).2.1 7 rfl (by decide)
  have h2 := (reinit_sub_decoder_reuse 1 ctx_moved 0 1 rfl rfl).2.2 7 rfl (by decide)
  ⟨⟨h1.1, by decide⟩, h2.1, by decide, h2.2.2.2.1 1 rfl⟩

/-! ## The Blocking Readiness Protocol -/

/-- When attempt `k` is the first ready one, the loop of `reinit_sub` returns the context
after `k` updates and `k - 1` waits, given fuel for `k` rounds. -/
theorem reinit_sub_wait_of_spec (t : Nat) :
    ∀ (k : Nat) (w w1 : MPContext), spec_blocking t k w = some w1 →
      ∀ fuel, k ≤ fuel → reinit_sub_wait fuel w t = (Outcome.returned, w1) := by
  intro k
  induction k with
  | zero => intro w w1 h; simp [spec_blocking] at h
  | succ k ih =>
    intro w w1 h fuel hf
    obtain ⟨f, rfl⟩ : ∃ f, fuel = f + 1 := ⟨fuel - 1, by omega⟩
    unfold spec_blocking at h
    unfold reinit_sub_wait
    cases hu : update_subtitle w w.playback_pts (some t) true with
    | none => simp [hu] at h
    | some r =>
      simp only [hu] at h
      simp only
      by_cases hr : r.1 = true
      · rw [if_pos hr] at h ⊢
        by_cases hk : k = 0
        · rw [if_pos hk, Option.some.injEq] at h; rw [h]
        · rw [if_neg hk] at h; exact absurd h (by simp)
      · rw [if_neg hr] at h ⊢
        exact ih _ w1 h f (by omega)

/-- The loop of `reinit_sub` returns only on an attempt that reports ready. -/
theorem spec_of_reinit_sub_wait (t : Nat) :
    ∀ (fuel : Nat) (w w1 : MPContext), reinit_sub_wait fuel w t = (Outcome.returned, w1) →
      ∃ k, 1 ≤ k ∧ k ≤ fuel ∧ spec_blocking t k w = some w1 := by
  intro fuel
  induction fuel with
  | zero => intro w w1 h; simp [reinit_sub_wait] at h
  | succ f ih =>
    intro w w1 h
    unfold reinit_sub_wait at h
    cases hu : update_subtitle w w.playback_pts (some t) true with
    | none => simp [hu] at h
    | some r =>
      simp only [hu] at h
      by_cases hr : r.1 = true
      · rw [if_pos hr, Prod.mk.injEq] at h
        refine ⟨1, le_refl 1, by omega, ?_⟩
        simp [spec_blocking, hu, hr, h.2]
      · rw [if_neg hr] at h
        obtain ⟨k, hk1, hk2, hk3⟩ := ih _ w1 h
        refine ⟨k + 1, by omega, by omega, ?_⟩
        unfold spec_blocking
        simp only [hu, hr]
        exact hk3

/-- No call of an update is a wait. -/
theorem update_call_no_wait (e : Event) (h : is_update_call e = true) :
    is_wait_call e = false ∧ e ≠ Event.mp_dispatch_queue_process := by
  revert h
  cases e <;>
    simp [is_update_call, is_wait_call, is_params_call, is_read_call, is_term_call,
      is_vo_call]

/-- The calls of the protocol when attempt `k` is the first ready one: the calls of the
updates and exactly `k - 1` waits. -/
theorem spec_blocking_calls (t : Nat) :
    ∀ (k : Nat) (w w1 : MPContext), spec_blocking t k w = some w1 →
      ∃ evs, w1.log = w.log ++ evs ∧
        evs.count Event.mp_dispatch_queue_process = k - 1 ∧
        ∀ e ∈ evs, is_update_call e = true ∨ e = Event.mp_dispatch_queue_process := by
  intro k
  induction k with
  | zero => intro w w1 h; simp [spec_blocking] at h
  | succ k ih =>
    intro w w1 h
    unfold spec_blocking at h
    cases hu : update_subtitle w w.playback_pts (some t) true with
    | none => simp [hu] at h
    | some r =>
      simp only [hu] at h
      obtain ⟨eu, hlu, heu⟩ := steps_log (update_subtitle_steps w _ _ _ r hu)
      have hcu : eu.count Event.mp_dispatch_queue_process = 0 :=
        List.count_eq_zero.mpr (fun hm => (update_call_no_wait _ (heu _ hm)).2 rfl)
      by_cases hr : r.1 = true
      · rw [if_pos hr] at h
        by_cases hk : k = 0
        · rw [if_pos hk, Option.some.injEq] at h
          subst h; subst hk
          exact ⟨eu, hlu, by simpa using hcu, fun e he => Or.inl (heu e he)⟩
        · rw [if_neg hk] at h; exact absurd h (by simp)
      · rw [if_neg hr] at h
        obtain ⟨ev, hlv, hcv, hev⟩ := ih _ w1 h
        have hk : 1 ≤ k := by
          rcases Nat.eq_zero_or_pos k with h0 | h0
          · subst h0; simp [spec_blocking] at h
          · exact h0
        refine ⟨eu ++ Event.mp_dispatch_queue_process :: ev, ?_, ?_, fun e he => ?_⟩
        · rw [hlv]; simp [mp_dispatch_queue_process, emit, hlu]
        · rw [List.count_append, List.count_cons_self, hcu, hcv]; omega
        · rcases List.mem_append.mp he with h1 | h1
          · exact Or.inl (heu e h1)
          · rcases List.mem_cons.mp h1 with h2 | h2
            · exact Or.inr h2
            · exact hev e h2

/-- `reinit_sub` for a track that passes the first check and has its decoder `d` after the
creation block: what remains is the part after the creation, and the context `m2` of that
part differs from the first one as a reinitialisation allows. -/
theorem reinit_sub_after_create (fuel : Nat) (mpctx m2 : MPContext) (t st d : Nat)
    (hs : (mpctx.trk t).stream = some st) (hty : (mpctx.shs st).type = STREAM_SUB)
    (hcr : reinit_sub_create (reinit_sub_stale mpctx t (get_order mpctx (some t))) t =
      some (true, m2))
    (hd : (m2.trk t).d_sub = some d) :
    reinit_sub fuel mpctx (some t) =
      reinit_sub_show fuel m2 t st (get_order mpctx (some t)) d ∧
    staged t (get_order mpctx (some t)) mpctx
      (selected_and_shown m2 t (get_order mpctx (some t)) d) := by
  constructor
  · rw [reinit_sub_blocks fuel mpctx t st hs hty, hcr]
    simp only [Bool.true_eq_false, if_false, hd]
  · exact staged_trans (reinit_sub_stale_staged mpctx t)
      (staged_trans (reinit_sub_create_staged _ t _ _ hcr)
        (selected_and_shown_staged m2 t _ d))

/-- The closing diagnostic of `reinit_sub` in a context that has the demuxer of the track
`t` as the context `w` had: it returns when `w` gives the track a demuxer and stops the
program when it gives none. -/
theorem MP_VERBOSE_of_demuxer (w w1 : MPContext) (t : Nat)
    (h : (w1.trk t).demuxer = (w.trk t).demuxer) :
    MP_VERBOSE w1 t =
      (if (w.trk t).demuxer = none then Outcome.crashed else Outcome.returned, w1) := by
  rw [← h]
  exact Prod.ext (MP_VERBOSE_fst w1 t) (MP_VERBOSE_snd w1 t)

/-- C16: take a subtitle track with a stream that has its decoder `d` after the creation
block of `reinit_sub` (`m2` is the context then), while the playback is initialised and
paused. `reinit_sub` registers the stream wakeup callback right after the selection and the
publication. If attempt `k` of `update_subtitle(track, playback_pts, true)` is the first to
report ready, each attempt before it being followed by a wait on the dispatch queue, then
`reinit_sub` ends (given fuel for `k` rounds) in the context after these `k` updates and
`k - 1` waits, with the wakeup callback unregistered as the last call; it returns from there
when the track has a demuxer, and its closing diagnostic stops the program when the track has
none. Whenever `reinit_sub` returns, it has left the loop on such a first ready attempt; and
however it ends, either it has left the loop on such an attempt or it has ended inside the
loop, not returning. Only the track that is reinitialised is updated. -/
theorem reinit_sub_blocking (mpctx m2 : MPContext) (t st d : Nat)
    (hs : (mpctx.trk t).stream = some st) (hty : (mpctx.shs st).type = STREAM_SUB)
    (hcr : reinit_sub_create (reinit_sub_stale mpctx t (get_order mpctx (some t))) t =
      some (true, m2))
    (hd : (m2.trk t).d_sub = some d)
    (hinit : mpctx.playback_initialized = true) (hpaused : mpctx.paused = true) :
    (∀ fuel, ((selected_and_shown m2 t (get_order mpctx (some t)) d).log ++
        [Event.demux_set_stream_wakeup_cb st true]) <+:
      (reinit_sub fuel mpctx (some t)).2.log) ∧
    (∀ k w1,
      spec_blocking t k
        (demux_set_stream_wakeup_cb
          (selected_and_shown m2 t (get_order mpctx (some t)) d) st true) = some w1 →
      (∀ fuel, k ≤ fuel → reinit_sub fuel mpctx (some t) =
        (if (mpctx.trk t).demuxer = none then Outcome.crashed else Outcome.returned,
          demux_set_stream_wakeup_cb w1 st false)) ∧
      ∃ evs, (demux_set_stream_wakeup_cb w1 st false).log =
          (selected_and_shown m2 t (get_order mpctx (some t)) d).log ++
            Event.demux_set_stream_wakeup_cb st true :: evs ++
            [Event.demux_set_stream_wakeup_cb st false] ∧
        evs.count Event.mp_dispatch_queue_process = k - 1 ∧
        ∀ e ∈ evs, is_update_call e = true ∨ e = Event.mp_dispatch_queue_process) ∧
    (∀ fuel w2, reinit_sub fuel mpctx (some t) = (Outcome.returned, w2) →
      ∃ k w1, 1 ≤ k ∧ k ≤ fuel ∧
        spec_blocking t k
          (demux_set_stream_wakeup_cb
            (selected_and_shown m2 t (get_order mpctx (some t)) d) st true) = some w1 ∧
        w2 = demux_set_stream_wakeup_cb w1 st false) ∧
    (∀ fuel,
      (∃ k w1, 1 ≤ k ∧ k ≤ fuel ∧
        spec_blocking t k
          (demux_set_stream_wakeup_cb
            (selected_and_shown m2 t (get_order mpctx (some t)) d) st true) = some w1 ∧
        reinit_sub fuel mpctx (some t) =
          (if (mpctx.trk t).demuxer = none then Outcome.crashed else Outcome.returned,
            demux_set_stream_wakeup_cb w1 st false)) ∨
      ((reinit_sub fuel mpctx (some t)).1 ≠ Outcome.returned ∧
        reinit_sub fuel mpctx (some t) =
          reinit_sub_wait fuel
            (demux_set_stream_wakeup_cb
              (selected_and_shown m2 t (get_order mpctx (some t)) d) st true) t)) := by
  have hst := (reinit_sub_after_create 0 mpctx m2 t st d hs hty hcr hd).2
  have hdem : ∀ fuel, ((demux_set_stream_wakeup_cb
      (reinit_sub_wait fuel
        (demux_set_stream_wakeup_cb
          (selected_and_shown m2 t (get_order mpctx (some t)) d) st true) t).2
      st false).trk t).demuxer = (mpctx.trk t).demuxer := by
    intro fuel
    have hu := updated_trans
      (updated_emit (selected_and_shown m2 t (get_order mpctx (some t)) d)
        (Event.demux_set_stream_wakeup_cb st true))
      (reinit_sub_wait_updated fuel
        (demux_set_stream_wakeup_cb
          (selected_and_shown m2 t (get_order mpctx (some t)) d) st true) t)
    show ((reinit_sub_wait fuel
        (demux_set_stream_wakeup_cb
          (selected_and_shown m2 t (get_order mpctx (some t)) d) st true) t).2.trk t).demuxer
      = (mpctx.trk t).demuxer
    rw [updated_trk hu]
    exact ((staged_trk hst).2 t).2.2.1
  have hrun : ∀ fuel, reinit_sub fuel mpctx (some t) =
      match (reinit_sub_wait fuel
        (demux_set_stream_wakeup_cb
          (selected_and_shown m2 t (get_order mpctx (some t)) d) st true) t).1 with
      | .returned =>
        (if (mpctx.trk t).demuxer = none then Outcome.crashed else Outcome.returned,
          demux_set_stream_wakeup_cb
            (reinit_sub_wait fuel
              (demux_set_stream_wakeup_cb
                (selected_and_shown m2 t (get_order mpctx (some t)) d) st true) t).2
            st false)
      | o => (o, (reinit_sub_wait fuel
          (demux_set_stream_wakeup_cb
            (selected_and_shown m2 t (get_order mpctx (some t)) d) st true) t).2) := by
    intro fuel
    obtain ⟨h1, h2⟩ := reinit_sub_after_create fuel mpctx m2 t st d hs hty hcr hd
    have hf := staged_fields h2
    rw [h1, reinit_sub_show_eq, hf.2.2.2.2.2.2.2.1, hf.2.2.2.2.2.2.2.2.1, hinit, hpaused,
      MP_VERBOSE_of_demuxer mpctx _ t (hdem fuel)]
    simp only [if_true]
  refine ⟨fun fuel => ?_, fun k w1 hk => ⟨fun fuel hf => ?_, ?_⟩, fun fuel w2 h => ?_,
    fun fuel => ?_⟩
  · rw [hrun fuel]
    have hw := updated_log (reinit_sub_wait_updated fuel
      (demux_set_stream_wakeup_cb
        (selected_and_shown m2 t (get_order mpctx (some t)) d) st true) t)
    split
    · exact hw.trans (List.prefix_append _ _)
    · exact hw
  · rw [hrun fuel, reinit_sub_wait_of_spec t k _ w1 hk fuel hf]
  · obtain ⟨evs, hl, hc, he⟩ := spec_blocking_calls t k _ w1 hk
    refine ⟨evs, ?_, hc, he⟩
    simp [demux_set_stream_wakeup_cb, emit, hl]
  · rw [hrun fuel] at h
    cases hw : reinit_sub_wait fuel
        (demux_set_stream_wakeup_cb
          (selected_and_shown m2 t (get_order mpctx (some t)) d) st true) t with
    | mk o w1 =>
      rw [hw] at h
      cases o with
      | returned =>
        simp only [Prod.mk.injEq] at h
        obtain ⟨k, hk1, hk2, hk3⟩ := spec_of_reinit_sub_wait t fuel _ w1 hw
        exact ⟨k, w1, hk1, hk2, hk3, h.2.symm⟩
      | crashed => simp at h
      | stalled => simp at h
  · rw [hrun fuel]
    cases hw : reinit_sub_wait fuel
        (demux_set_stream_wakeup_cb
          (selected_and_shown m2 t (get_order mpctx (some t)) d) st true) t with
    | mk o w1 =>
      cases o with
      | returned =>
        obtain ⟨k, hk1, hk2, hk3⟩ := spec_of_reinit_sub_wait t fuel _ w1 hw
        exact Or.inl ⟨k, w1, hk1, hk2, hk3, rfl⟩
      | crashed => exact Or.inr ⟨by simp, rfl⟩
      | stalled => exact Or.inr ⟨by simp, rfl⟩

/-- C16 at `ctx_two_paused`, whose reads need more input until the first wait: the second
attempt is the first ready one, and the reinitialisation of track 0 makes two updates and
one wait between the registration and the unregistration of the wakeup callback; track 0 has
a demuxer, so `reinit_sub` returns. -/
theorem reinit_sub_blocking_witness :
    (reinit_sub 2 ctx_two_paused (some 0)).1 = Outcome.returned ∧
    (reinit_sub 2 ctx_two_paused (some 0)).2.log =
      [Event.sub_get_order 7, Event.sub_select 7 true, Event.osd_set_sub 0 (some 7),
        Event.demux_set_stream_wakeup_cb 0 true,
        Event.sub_read_packets 7 5 true,
        Event.mp_dispatch_queue_process,
        Event.sub_read_packets 7 5 true, Event.sub_get_text 7 5,
        Event.term_osd_set_subs (some "hi"),
        Event.demux_set_stream_wakeup_cb 0 false] ∧
    (∃ w1, ∀ fuel, 2 ≤ fuel →
      reinit_sub fuel ctx_two_paused (some 0) =
        (Outcome.returned, demux_set_stream_wakeup_cb w1 0 false)) :=
  have h := (reinit_sub_blocking ctx_two_paused (emit ctx_two_paused (Event.sub_get_order 7))
    0 0 7 rfl rfl rfl rfl rfl rfl).2.1 2
    (reinit_sub_wait 2
      (demux_set_stream_wakeup_cb
        (selected_and_shown (emit ctx_two_paused (Event.sub_get_order 7)) 0
          (get_order ctx_two_paused (some 0)) 7) 0 true) 0).2 rfl
  ⟨by decide, by decide, _, h.1⟩

/-! ## Reinitialisation: the update after the creation -/

end MpvSub
